import Mathlib

/-!
# Straight-skeleton constructions of CGAL 3.3.1

A shallow embedding of `libsrc/CGAL-3.3.1/include/CGAL/constructions/Straight_skeleton_cons_ftC2.h`
(namespace `CGAL_SS_i`) over an arbitrary linearly ordered field `F`, which plays the role of the
kernel number type `K::FT`.

Conventions of the embedding.

* `optional<T>` is `Option T`; `cgal_make_optional(ok, v)` is `if ok then some v else none`.
* A failed `CGAL_precondition` is the error `Failure.precondition_violation` of `Except`, so that
  it is distinct from an absent (`none`) result.
* The services of the numeric kernel that the header uses but does not define (`is_finite`,
  `inexact_sqrt` resp. `sqrt`, `line_project_pointC2`) are the fields of a `Kernel` record that
  every function takes as its first argument.
* Division is the division of `F`. Every division of the header whose divisor can be zero is
  either guarded by a zero test in the source or is discussed at the theorem that uses it.
-/

namespace CGAL_SS_i

/-! ## Data model -/

/-- Services of the numeric kernel that the header calls but that are declared elsewhere:
the finiteness test `CGAL_NTS is_finite`, the square root behind `inexact_sqrt`
(source lines 28-47), and `line_project_pointC2`, which writes the projection of the point
`(x, y)` onto the line `la*x + lb*y + lc = 0` to its two output arguments. -/
structure Kernel (F : Type) where
  is_finite : F → Bool
  inexact_sqrt : F → F
  line_project_pointC2 : F → F → F → F → F → F × F

/-- A point of the plane, `Point_2<K>`, with its coordinate accessors `x()` and `y()`. -/
structure Point_2 (F : Type) where
  x : F
  y : F
deriving DecidableEq

/-- An oriented segment, `Segment_2<K>`, with `source()` and `target()`. -/
structure Segment_2 (F : Type) where
  source : Point_2 F
  target : Point_2 F
deriving DecidableEq

/-- The coefficients of the line `a*x + b*y + c = 0`, `Line_2<K>` built by
`construct_line_2_object()(a,b,c)`. -/
structure Line_2 (F : Type) where
  a : F
  b : F
  c : F
deriving DecidableEq

/-- An explicit quotient `n/d`, `Rational<FT>`; nothing divides `n` by `d`. -/
structure Rational (F : Type) where
  n : F
  d : F
deriving DecidableEq

/-- The enumeration `Trisegment_collinearity`. The header names `TRISEGMENT_COLLINEARITY_NONE` and
`TRISEGMENT_COLLINEARITY_ALL`; the three pair tags carry the names of the data model
(`E0E1`: e0 and e1 collinear, `E1E2`: e1 and e2, `E0E2`: e0 and e2). -/
inductive Trisegment_collinearity where
  | NONE
  | E0E1
  | E1E2
  | E0E2
  | ALL
deriving DecidableEq, Repr

/-- The enumeration `Trisegment_2<K>::SEED_ID`. -/
inductive SEED_ID where
  | LEFT
  | RIGHT
  | UNKNOWN
deriving DecidableEq, Repr

/-- A non-null `Trisegment_2<K>`: three oriented segments and their collinearity. The null
trisegment of the header is `none` of `Option (Trisegment_2 F)`. -/
structure Trisegment_2 (F : Type) where
  e0 : Segment_2 F
  e1 : Segment_2 F
  e2 : Segment_2 F
  collinearity : Trisegment_collinearity
deriving DecidableEq

/-- Modelled from the spec: `Trisegment_2::degenerate_seed_id()`, whose class is not part of the
header: the seed id matching the collinear pair named by the collinearity tag; `UNKNOWN` names the
pair (e0,e2) and is also what remains for the tags without one collinear pair. -/
def Trisegment_2.degenerate_seed_id {F : Type} (t : Trisegment_2 F) : SEED_ID :=
  match t.collinearity with
  | .E0E1 => .LEFT
  | .E1E2 => .RIGHT
  | _ => .UNKNOWN

/-- Modelled from the spec: `Trisegment_2::collinear_edge()`, whose class is not part of the
header: the first edge of the collinear pair. For `NONE` and `ALL` the header has no such edge;
the solvers that read it are only reached with one of the three pair tags. -/
def Trisegment_2.collinear_edge {F : Type} (t : Trisegment_2 F) : Segment_2 F :=
  match t.collinearity with
  | .E1E2 => t.e1
  | _ => t.e0

/-- Modelled from the spec: `Trisegment_2::non_collinear_edge()`, whose class is not part of the
header: the edge that is not in the collinear pair. -/
def Trisegment_2.non_collinear_edge {F : Type} (t : Trisegment_2 F) : Segment_2 F :=
  match t.collinearity with
  | .E1E2 => t.e0
  | .E0E2 => t.e1
  | _ => t.e2

/-- The class `Seeded_trisegment_2<K>`: the trisegment of the event and the trisegments of its
left and right seed, each of which may be null (source lines 171-192 and 345-352, where a seed
answers `is_null()` and is handed to the one-argument `construct_seeded_trisegment`). -/
structure Seeded_trisegment_2 (F : Type) where
  event : Trisegment_2 F
  lseed : Option (Trisegment_2 F)
  rseed : Option (Trisegment_2 F)
deriving DecidableEq

/-- The outcome of a failed `CGAL_precondition`. -/
inductive Failure where
  | precondition_violation
deriving DecidableEq, Repr

/-- The helper `cgal_make_optional(ok, v)`: `v` when `ok` holds, the empty optional otherwise. -/
def cgal_make_optional {α : Type} (ok : Bool) (v : α) : Option α :=
  if ok then some v else none

variable {F : Type} [LinearOrderedField F]

/-- Modelled from the spec: `CGAL_NTS is_zero` on the exact field: the test `x = 0`. -/
def is_zero (x : F) : Bool := decide (x = 0)

/-- Modelled from the spec: `CGAL_NTS certified_is_zero`; on an exact field the certified
test is the test `x = 0`. -/
def certified_is_zero (x : F) : Bool := decide (x = 0)

/-- Modelled from the spec: `CGAL::squared_distance` of two points, the squared Euclidean
distance. -/
def squared_distance (p q : Point_2 F) : F :=
  (p.x - q.x) * (p.x - q.x) + (p.y - q.y) * (p.y - q.y)

/-- Modelled from the spec: `CGAL::midpoint` of two points. -/
def midpoint (p q : Point_2 F) : Point_2 F :=
  ⟨(p.x + q.x) / 2, (p.y + q.y) / 2⟩

/-! ## Line normalizer (source lines 54-136) -/

/-- The locals `(finite, a, b, c)` of `compute_normalized_line_ceoffC2` after its three-way
branch (source lines 57-129). -/
def normalized_line_locals (K : Kernel F) (e : Segment_2 F) : Bool × Line_2 F :=
  if e.source.y = e.target.y then
    if e.target.x > e.source.x then (true, ⟨0, 1, -e.source.y⟩)
    else if e.target.x = e.source.x then (true, ⟨0, 0, 0⟩)
    else (true, ⟨0, -1, e.source.y⟩)
  else if e.target.x = e.source.x then
    if e.target.y > e.source.y then (true, ⟨-1, 0, e.source.x⟩)
    else if e.target.y = e.source.y then (true, ⟨0, 0, 0⟩)
    else (true, ⟨1, 0, -e.source.x⟩)
  else
    let sa := e.source.y - e.target.y
    let sb := e.target.x - e.source.x
    let l2 := (sa * sa) + (sb * sb)
    if K.is_finite l2 then
      let l := K.inexact_sqrt l2
      let a := sa / l
      let b := sb / l
      let c := -e.source.x * a - e.source.y * b
      (true, ⟨a, b, c⟩)
    else (false, ⟨0, 0, 0⟩)

/-- The function `compute_normalized_line_ceoffC2`: the normalized coefficients of the supporting
line of `e`, or the empty optional when a value is not finite (source lines 131-135). -/
def compute_normalized_line_ceoffC2 (K : Kernel F) (e : Segment_2 F) : Option (Line_2 F) :=
  let r := normalized_line_locals K e
  let finite :=
    if r.1 then
      if !K.is_finite r.2.a || !K.is_finite r.2.b || !K.is_finite r.2.c then false else true
    else false
  cgal_make_optional finite r.2

/-! ## Trisegment construction (source lines 157-192) -/

/-- The three-argument `construct_seeded_trisegment`. -/
def construct_seeded_trisegment (event : Trisegment_2 F) (lseed rseed : Option (Trisegment_2 F)) :
    Seeded_trisegment_2 F :=
  ⟨event, lseed, rseed⟩

/-- The one-argument overload of `construct_seeded_trisegment`: an initial event, both seeds
null. -/
def construct_seeded_trisegment_initial (event : Trisegment_2 F) : Seeded_trisegment_2 F :=
  ⟨event, none, none⟩

/-! ## Normal solvers (source lines 212-268 and 495-540) -/

/-- The function `compute_normal_offset_lines_isec_timeC2`: the pair `(num, den)` of the offset
distance at which the three offset lines meet; no division is made. -/
def compute_normal_offset_lines_isec_timeC2 (K : Kernel F) (st : Seeded_trisegment_2 F) :
    Option (Rational F) :=
  let l0 := compute_normalized_line_ceoffC2 K st.event.e0
  let l1 := compute_normalized_line_ceoffC2 K st.event.e1
  let l2 := compute_normalized_line_ceoffC2 K st.event.e2
  match l0, l1, l2 with
  | some l0, some l1, some l2 =>
    let num := (l2.a * l0.b * l1.c)
             - (l2.a * l1.b * l0.c)
             - (l2.b * l0.a * l1.c)
             + (l2.b * l1.a * l0.c)
             + (l1.b * l0.a * l2.c)
             - (l0.b * l1.a * l2.c)
    let den := (-l2.a * l1.b)
             + (l2.a * l0.b)
             + (l2.b * l1.a)
             - (l2.b * l0.a)
             + (l1.b * l0.a)
             - (l0.b * l1.a)
    cgal_make_optional (K.is_finite num && K.is_finite den) ⟨num, den⟩
  | _, _, _ => none

/-- The function `construct_normal_offset_lines_isecC2`: the point at which the three offset
lines meet. -/
def construct_normal_offset_lines_isecC2 (K : Kernel F) (st : Seeded_trisegment_2 F) :
    Option (Point_2 F) :=
  let l0 := compute_normalized_line_ceoffC2 K st.event.e0
  let l1 := compute_normalized_line_ceoffC2 K st.event.e1
  let l2 := compute_normalized_line_ceoffC2 K st.event.e2
  match l0, l1, l2 with
  | some l0, some l1, some l2 =>
    let den := l0.a * l2.b - l0.a * l1.b - l1.a * l2.b + l2.a * l1.b + l0.b * l1.a - l0.b * l2.a
    if !certified_is_zero den then
      let numX := l0.b * l2.c - l0.b * l1.c - l1.b * l2.c + l2.b * l1.c + l1.b * l0.c
                - l2.b * l0.c
      let numY := l0.a * l2.c - l0.a * l1.c - l1.a * l2.c + l2.a * l1.c + l1.a * l0.c
                - l2.a * l0.c
      if K.is_finite den && K.is_finite numX && K.is_finite numY then
        some ⟨numX / den, -numY / den⟩
      else none
    else none
  | _, _, _ => none

/-! ## Seed points (source lines 276-373) -/

/-- The function `compute_oriented_midpoint`: the midpoint of the closer of the two pairings
`(e0.target, e1.source)` and `(e1.target, e0.source)`. -/
def compute_oriented_midpoint (K : Kernel F) (e0 e1 : Segment_2 F) : Option (Point_2 F) :=
  let delta01 := squared_distance e0.target e1.source
  let delta10 := squared_distance e1.target e0.source
  if K.is_finite delta01 && K.is_finite delta10 then
    let mp := if delta01 ≤ delta10 then midpoint e0.target e1.source
              else midpoint e1.target e0.source
    cgal_make_optional (K.is_finite mp.x && K.is_finite mp.y) mp
  else none

/-- The number of non-null seeds of a seeded trisegment; the seed recursion of the header
descends along it. -/
def seed_count (st : Seeded_trisegment_2 F) : Nat :=
  (if st.lseed.isSome then 1 else 0) + (if st.rseed.isSome then 1 else 0)

mutual

/-- The function `compute_seed_pointC2`: the point of the left, right or degenerate seed. A null
seed is a contour vertex; a non-null seed is the event point of the seed trisegment, taken as an
initial event. -/
def compute_seed_pointC2 (K : Kernel F) (st : Seeded_trisegment_2 F) (sid : SEED_ID) :
    Except Failure (Option (Point_2 F)) :=
  match sid with
  | .LEFT =>
    match _h : st.lseed with
    | none => .ok (compute_oriented_midpoint K st.event.e0 st.event.e1)
    | some t => construct_offset_lines_isecC2 K (construct_seeded_trisegment_initial t)
  | .RIGHT =>
    match _h : st.rseed with
    | none => .ok (compute_oriented_midpoint K st.event.e1 st.event.e2)
    | some t => construct_offset_lines_isecC2 K (construct_seeded_trisegment_initial t)
  | .UNKNOWN => .ok (compute_oriented_midpoint K st.event.e0 st.event.e2)
termination_by (seed_count st, 0)
decreasing_by
  all_goals apply Prod.Lex.left
  all_goals simp [seed_count, construct_seeded_trisegment_initial, _h]

/-- The function `compute_degenerate_seed_pointC2`: the seed point of the collinear pair. -/
def compute_degenerate_seed_pointC2 (K : Kernel F) (st : Seeded_trisegment_2 F) :
    Except Failure (Option (Point_2 F)) :=
  compute_seed_pointC2 K st st.event.degenerate_seed_id
termination_by (seed_count st, 1)
decreasing_by
  apply Prod.Lex.right
  decide

/-- The function `construct_degenerate_offset_lines_isecC2`: the event point when two of the
edges are collinear. -/
def construct_degenerate_offset_lines_isecC2 (K : Kernel F) (st : Seeded_trisegment_2 F) :
    Except Failure (Option (Point_2 F)) :=
  let l0 := compute_normalized_line_ceoffC2 K st.event.collinear_edge
  let l2 := compute_normalized_line_ceoffC2 K st.event.non_collinear_edge
  match compute_degenerate_seed_pointC2 K st with
  | .error f => .error f
  | .ok q =>
    match l0, l2, q with
    | some l0, some l2, some q =>
      let p := K.line_project_pointC2 l0.a l0.b l0.c q.x q.y
      let px := p.1
      let py := p.2
      let nd : F × F :=
        if !is_zero l0.b then
          ((l2.a * l0.b - l0.a * l2.b) * px + l0.b * l2.c - l2.b * l0.c,
           (l0.a * l0.a - 1) * l2.b + (1 - l2.a * l0.a) * l0.b)
        else
          ((l2.a * l0.b - l0.a * l2.b) * py - l0.a * l2.c + l2.a * l0.c,
           l0.a * l0.b * l2.b - l0.b * l0.b * l2.a + l2.a - l0.a)
      let num := nd.1
      let den := nd.2
      if !certified_is_zero den && K.is_finite den && K.is_finite num then
        let x := px + l0.a * num / den
        let y := py + l0.b * num / den
        .ok (cgal_make_optional (K.is_finite x && K.is_finite y) ⟨x, y⟩)
      else .ok none
    | _, _, _ => .ok none
termination_by (seed_count st, 2)
decreasing_by
  apply Prod.Lex.right
  decide

/-- The function `construct_offset_lines_isecC2`: asserts that not all three edges are collinear
and calls the normal or the degenerate point constructor. -/
def construct_offset_lines_isecC2 (K : Kernel F) (st : Seeded_trisegment_2 F) :
    Except Failure (Option (Point_2 F)) :=
  if st.event.collinearity = .ALL then .error .precondition_violation
  else if st.event.collinearity = .NONE then .ok (construct_normal_offset_lines_isecC2 K st)
  else construct_degenerate_offset_lines_isecC2 K st
termination_by (seed_count st, 3)
decreasing_by
  apply Prod.Lex.right
  decide

end

/-! ## Degenerate time solver and dispatch (source lines 385-481) -/

/-- The function `compute_degenerate_offset_lines_isec_timeC2`: the pair `(num, den)` of the
offset distance at which the perpendicular to the collinear edge through the degenerate seed
point meets the offset line of the non-collinear edge. -/
def compute_degenerate_offset_lines_isec_timeC2 (K : Kernel F) (st : Seeded_trisegment_2 F) :
    Except Failure (Option (Rational F)) :=
  let l0 := compute_normalized_line_ceoffC2 K st.event.collinear_edge
  let l2 := compute_normalized_line_ceoffC2 K st.event.non_collinear_edge
  match compute_degenerate_seed_pointC2 K st with
  | .error f => .error f
  | .ok q =>
    match l0, l2, q with
    | some l0, some l2, some q =>
      let p := K.line_project_pointC2 l0.a l0.b l0.c q.x q.y
      let px := p.1
      let py := p.2
      let nd : F × F :=
        if !is_zero l0.b then
          ((l2.a * l0.b - l0.a * l2.b) * px + l0.b * l2.c - l2.b * l0.c,
           (l0.a * l0.a - 1) * l2.b + (1 - l2.a * l0.a) * l0.b)
        else
          ((l2.a * l0.b - l0.a * l2.b) * py - l0.a * l2.c + l2.a * l0.c,
           l0.a * l0.b * l2.b - l0.b * l0.b * l2.a + l2.a - l0.a)
      let num := nd.1
      let den := nd.2
      .ok (cgal_make_optional (K.is_finite num && K.is_finite den) ⟨num, den⟩)
    | _, _, _ => .ok none

/-- The function `compute_offset_lines_isec_timeC2`: asserts that not all three edges are
collinear and calls the normal or the degenerate time solver. -/
def compute_offset_lines_isec_timeC2 (K : Kernel F) (st : Seeded_trisegment_2 F) :
    Except Failure (Option (Rational F)) :=
  if st.event.collinearity = .ALL then .error .precondition_violation
  else if st.event.collinearity = .NONE then .ok (compute_normal_offset_lines_isec_timeC2 K st)
  else compute_degenerate_offset_lines_isec_timeC2 K st

/-- The pair `(num, den)` that both degenerate solvers compute from the line `l0` of the
collinear edge, the line `l2` of the non-collinear edge and the projected seed point `(px, py)`
(source lines 449-462 and 584-593); the statements about those solvers refer to it. -/
def degenerate_num_den (l0 l2 : Line_2 F) (px py : F) : F × F :=
  if !is_zero l0.b then
    ((l2.a * l0.b - l0.a * l2.b) * px + l0.b * l2.c - l2.b * l0.c,
     (l0.a * l0.a - 1) * l2.b + (1 - l2.a * l0.a) * l0.b)
  else
    ((l2.a * l0.b - l0.a * l2.b) * py - l0.a * l2.c + l2.a * l0.c,
     l0.a * l0.b * l2.b - l0.b * l0.b * l2.a + l2.a - l0.a)

/-! ## Concrete kernels and inputs used by the examples -/

/-- An inexact square root on the rationals: the integer square roots of numerator and
denominator. It is exact on squares of rationals. -/
def rat_sqrt (q : ℚ) : ℚ :=
  (Nat.sqrt q.num.toNat : ℚ) / (Nat.sqrt q.den : ℚ)

/-- Modelled from the spec: `line_project_pointC2`, which is not part of the header: the
orthogonal projection of `(x, y)` onto the line `la*x + lb*y + lc = 0`. -/
def orthogonal_projection (la lb lc x y : ℚ) : ℚ × ℚ :=
  let k := (la * x + lb * y + lc) / (la * la + lb * lb)
  (x - la * k, y - lb * k)

/-- The exact kernel over the rationals: every value is finite. -/
def exact_kernel : Kernel ℚ :=
  ⟨fun _ => true, rat_sqrt, orthogonal_projection⟩

/-- The three edges of the concrete scenario: consecutive sides of the square of side 10. -/
def square_event (F : Type) [LinearOrderedField F] : Trisegment_2 F :=
  ⟨⟨⟨0, 0⟩, ⟨10, 0⟩⟩, ⟨⟨10, 0⟩, ⟨10, 10⟩⟩, ⟨⟨10, 10⟩, ⟨0, 10⟩⟩, .NONE⟩

/-- An initial event whose edges e0 and e1 are collinear on the x-axis and whose edge e2 goes
up from the end of e1. -/
def collinear_event_horizontal : Seeded_trisegment_2 ℚ :=
  construct_seeded_trisegment_initial
    ⟨⟨⟨0, 0⟩, ⟨1, 0⟩⟩, ⟨⟨1, 0⟩, ⟨2, 0⟩⟩, ⟨⟨2, 0⟩, ⟨2, 1⟩⟩, .E0E1⟩

/-- An initial event whose edges e0 and e1 are collinear on the y-axis and whose edge e2 goes
right from the end of e1. -/
def collinear_event_vertical : Seeded_trisegment_2 ℚ :=
  construct_seeded_trisegment_initial
    ⟨⟨⟨0, 0⟩, ⟨0, 1⟩⟩, ⟨⟨0, 1⟩, ⟨0, 2⟩⟩, ⟨⟨0, 2⟩, ⟨1, 2⟩⟩, .E0E1⟩

/-- An initial event whose three edges lie on the x-axis, tagged ALL. -/
def all_collinear_event : Seeded_trisegment_2 ℚ :=
  construct_seeded_trisegment_initial
    ⟨⟨⟨0, 0⟩, ⟨1, 0⟩⟩, ⟨⟨1, 0⟩, ⟨2, 0⟩⟩, ⟨⟨2, 0⟩, ⟨3, 0⟩⟩, .ALL⟩

/-- An initial event whose edges e0 and e1 are parallel with the same orientation, on the lines
y = 0 and y = 1, and whose edge e2 is vertical; no two of the edges are collinear. -/
def parallel_event : Seeded_trisegment_2 ℚ :=
  construct_seeded_trisegment_initial
    ⟨⟨⟨0, 0⟩, ⟨1, 0⟩⟩, ⟨⟨0, 1⟩, ⟨1, 1⟩⟩, ⟨⟨0, 0⟩, ⟨0, 1⟩⟩, .NONE⟩

/-- A kernel over the rationals whose finite values are those of absolute value at most 10: a
number type that overflows. -/
def bounded_kernel : Kernel ℚ :=
  ⟨fun x => decide (|x| ≤ 10), rat_sqrt, orthogonal_projection⟩

/-- An initial event on the lines y = -6, x = 6 and y = 6, whose offset lines meet at the
origin at time 6 = 12/2. -/
def wide_event : Seeded_trisegment_2 ℚ :=
  construct_seeded_trisegment_initial
    ⟨⟨⟨0, -6⟩, ⟨1, -6⟩⟩, ⟨⟨6, 0⟩, ⟨6, 1⟩⟩, ⟨⟨1, 6⟩, ⟨0, 6⟩⟩, .NONE⟩

/-- An initial event on the x-axis and on two lines through (-25/2, 0) of slopes 4/3 and -4/3:
the three offset lines meet at (-25/2, 0), outside the range of `bounded_kernel`. -/
def far_event : Seeded_trisegment_2 ℚ :=
  construct_seeded_trisegment_initial
    ⟨⟨⟨0, 0⟩, ⟨1, 0⟩⟩, ⟨⟨-8, 6⟩, ⟨-37 / 5, 34 / 5⟩⟩, ⟨⟨-8, -6⟩, ⟨-37 / 5, -34 / 5⟩⟩, .NONE⟩

/-- An initial event whose edges e0 and e1 are collinear on the x-axis and whose edge e2 lies
on the line y = 1 with the same orientation. -/
def collinear_event_parallel : Seeded_trisegment_2 ℚ :=
  construct_seeded_trisegment_initial
    ⟨⟨⟨0, 0⟩, ⟨1, 0⟩⟩, ⟨⟨1, 0⟩, ⟨2, 0⟩⟩, ⟨⟨0, 1⟩, ⟨1, 1⟩⟩, .E0E1⟩

/-- A propagated event over the rationals: the event of the horizontal collinear edges, seeded
on the left by the square and on the right by the vertical collinear edges. -/
def propagated_event : Seeded_trisegment_2 ℚ :=
  construct_seeded_trisegment collinear_event_horizontal.event (some (square_event ℚ))
    (some collinear_event_vertical.event)

/-! ## Distance check and construction of a trisegment (source lines 157-169 and 632-665) -/

/-- Modelled from the spec: `is_indeterminate` on `Uncertain<Trisegment_collinearity>`, which is
either a definite classification (`some c`) or indeterminate (`none`). -/
def is_indeterminate {α : Type} (u : Option α) : Bool := u.isNone

/-- The function `construct_trisegment`: the three segments with their collinearity, or the null
trisegment when the collinearity is indeterminate. The classifier
`certified_trisegment_collinearity` is not part of the header and is the first argument. -/
def construct_trisegment
    (certified_trisegment_collinearity :
      Segment_2 F → Segment_2 F → Segment_2 F → Option Trisegment_collinearity)
    (e0 e1 e2 : Segment_2 F) : Option (Trisegment_2 F) :=
  let lCollinearity := certified_trisegment_collinearity e0 e1 e2
  if !is_indeterminate lCollinearity then
    match lCollinearity with
    | some c => some ⟨e0, e1, e2, c⟩
    | none => none
  else none

/-- The function `compute_offset_lines_isec_dist_to_pointC2`: the squared distance between the
point `p` and the event point of `st`. -/
def compute_offset_lines_isec_dist_to_pointC2 (K : Kernel F) (p : Option (Point_2 F))
    (st : Seeded_trisegment_2 F) : Except Failure (Option F) :=
  match p with
  | some p =>
    match construct_offset_lines_isecC2 K st with
    | .error f => .error f
    | .ok (some i) =>
      let dx := i.x - p.x
      let dy := i.y - p.y
      let dx2 := dx * dx
      let dy2 := dy * dy
      let sdist := dx2 + dy2
      .ok (cgal_make_optional (K.is_finite sdist) sdist)
    | .ok none => .ok none
  | none => .ok none

/-! ## Auxiliary definitions of the statements -/

/-- The non-vertical closed form `(num, den)` of the degenerate solvers, in `px`
(source lines 451-452 and 586-587). -/
def degenerate_num_den_nonvertical (l0 l2 : Line_2 F) (px : F) : F × F :=
  ((l2.a * l0.b - l0.a * l2.b) * px + l0.b * l2.c - l2.b * l0.c,
   (l0.a * l0.a - 1) * l2.b + (1 - l2.a * l0.a) * l0.b)

/-- The vertical closed form `(num, den)` of the degenerate solvers, in `py`
(source lines 458-459 and 591-592). -/
def degenerate_num_den_vertical (l0 l2 : Line_2 F) (py : F) : F × F :=
  ((l2.a * l0.b - l0.a * l2.b) * py - l0.a * l2.c + l2.a * l0.c,
   l0.a * l0.b * l2.b - l0.b * l0.b * l2.a + l2.a - l0.a)

/-- The segment with source and target exchanged. -/
def Segment_2.opposite (e : Segment_2 F) : Segment_2 F :=
  ⟨e.target, e.source⟩

/-- The line with the three coefficients negated. -/
def Line_2.opposite (l : Line_2 F) : Line_2 F :=
  ⟨-l.a, -l.b, -l.c⟩

/-- The seeded trisegment whose three edges are those of `st` with the orientation reversed. -/
def Seeded_trisegment_2.opposite (st : Seeded_trisegment_2 F) : Seeded_trisegment_2 F :=
  ⟨⟨st.event.e0.opposite, st.event.e1.opposite, st.event.e2.opposite, st.event.collinearity⟩,
   st.lseed, st.rseed⟩

/-! ## Further concrete inputs -/

/-- Two edges on the x-axis pointing at each other: the two pairings of their end points have
the same squared distance 4 and the midpoints (2,0) and (1,0). -/
def facing_edge_0 : Segment_2 ℚ := ⟨⟨0, 0⟩, ⟨1, 0⟩⟩

/-- The second of the two facing edges. -/
def facing_edge_1 : Segment_2 ℚ := ⟨⟨3, 0⟩, ⟨2, 0⟩⟩

/-- An initial event, shaped as a split event: e0 and e1 are consecutive on the x-axis while
e2, on the line y = 5, is not connected to e1. -/
def split_event : Seeded_trisegment_2 ℚ :=
  construct_seeded_trisegment_initial
    ⟨⟨⟨0, 0⟩, ⟨1, 0⟩⟩, ⟨⟨1, 0⟩, ⟨2, 0⟩⟩, ⟨⟨5, 5⟩, ⟨6, 5⟩⟩, .NONE⟩

/-! ## Point-to-line distance (source lines 138-150) -/

/-- Modelled from the spec: `CGAL_NTS square`, the product of a number with itself. -/
def square (x : F) : F := x * x

/-- The function `squared_distance_from_point_to_lineC2`: the squared distance from the point
`(px, py)` to the line through `(sx, sy)` and `(tx, ty)`. -/
def squared_distance_from_point_to_lineC2 (px py sx sy tx ty : F) : F :=
  let ldx := tx - sx
  let ldy := ty - sy
  let rdx := sx - px
  let rdy := sy - py
  let n := square (ldx * rdy - rdx * ldy)
  let d := square ldx + square ldy
  n / d

/-! ## Sign of a determinant (`CGAL/predicates/sign_of_determinant.h`, lines 32-39) -/

/-- The enumeration `Comparison_result` of the kernel. -/
inductive Comparison_result where
  | SMALLER
  | EQUAL
  | LARGER
deriving DecidableEq, Repr

/-- The enumeration `Sign` of the kernel. -/
inductive Sign where
  | NEGATIVE
  | ZERO
  | POSITIVE
deriving DecidableEq, Repr

/-- Modelled from the spec: `CGAL_NTS compare` on an ordered ring. -/
def compare {R : Type} [LinearOrderedRing R] (x y : R) : Comparison_result :=
  if x < y then .SMALLER else if y < x then .LARGER else .EQUAL

/-- Modelled from the spec: `enum_cast<Sign>` of a comparison result: SMALLER, EQUAL and LARGER
are the integers -1, 0 and 1, as NEGATIVE, ZERO and POSITIVE are. -/
def enum_cast_Sign (c : Comparison_result) : Sign :=
  match c with
  | .SMALLER => .NEGATIVE
  | .EQUAL => .ZERO
  | .LARGER => .POSITIVE

/-- Modelled from the spec: `CGAL_NTS sign` on an ordered ring. -/
def sign {R : Type} [LinearOrderedRing R] (x : R) : Sign :=
  if x < 0 then .NEGATIVE else if 0 < x then .POSITIVE else .ZERO

/-- The sign negated: NEGATIVE and POSITIVE exchanged. -/
def Sign.opposite (s : Sign) : Sign :=
  match s with
  | .NEGATIVE => .POSITIVE
  | .ZERO => .ZERO
  | .POSITIVE => .NEGATIVE

/-- The function `sign_of_determinant2x2`: the comparison of the two products of the
determinant, cast to a sign. -/
def sign_of_determinant2x2 {R : Type} [LinearOrderedRing R] (a00 a01 a10 a11 : R) : Sign :=
  enum_cast_Sign (compare (a00 * a11) (a10 * a01))

/-! ## Further auxiliary definitions of the statements -/

/-- The leaf of the three-way branch of `compute_normalized_line_ceoffC2` that a segment
reaches (source lines 63-129). -/
inductive Normalizer_branch where
  | HORIZONTAL_RIGHT
  | HORIZONTAL_ZERO
  | HORIZONTAL_LEFT
  | VERTICAL_UP
  | VERTICAL_ZERO
  | VERTICAL_DOWN
  | GENERAL
deriving DecidableEq, Repr

/-- The leaf of the branch of `compute_normalized_line_ceoffC2` taken by the segment `e`: the
tests of `normalized_line_locals`, with the name of the leaf in place of its assignments. -/
def normalized_line_branch (e : Segment_2 F) : Normalizer_branch :=
  if e.source.y = e.target.y then
    if e.target.x > e.source.x then .HORIZONTAL_RIGHT
    else if e.target.x = e.source.x then .HORIZONTAL_ZERO
    else .HORIZONTAL_LEFT
  else if e.target.x = e.source.x then
    if e.target.y > e.source.y then .VERTICAL_UP
    else if e.target.y = e.source.y then .VERTICAL_ZERO
    else .VERTICAL_DOWN
  else .GENERAL

/-- The seeded trisegment with the edges rotated: (e1, e2, e0). -/
def Seeded_trisegment_2.rotate (st : Seeded_trisegment_2 F) : Seeded_trisegment_2 F :=
  ⟨⟨st.event.e1, st.event.e2, st.event.e0, st.event.collinearity⟩, st.lseed, st.rseed⟩

/-- The seeded trisegment with the edges e0 and e1 exchanged. -/
def Seeded_trisegment_2.swap01 (st : Seeded_trisegment_2 F) : Seeded_trisegment_2 F :=
  ⟨⟨st.event.e1, st.event.e0, st.event.e2, st.event.collinearity⟩, st.lseed, st.rseed⟩

/-- The seeded trisegment with the edges e1 and e2 exchanged. -/
def Seeded_trisegment_2.swap12 (st : Seeded_trisegment_2 F) : Seeded_trisegment_2 F :=
  ⟨⟨st.event.e0, st.event.e2, st.event.e1, st.event.collinearity⟩, st.lseed, st.rseed⟩

/-- The seeded trisegment with the edges e0 and e2 exchanged. -/
def Seeded_trisegment_2.swap02 (st : Seeded_trisegment_2 F) : Seeded_trisegment_2 F :=
  ⟨⟨st.event.e2, st.event.e1, st.event.e0, st.event.collinearity⟩, st.lseed, st.rseed⟩

/-- An initial event whose edge e0 has length zero, at (1,1); e1 lies on the x-axis and e2 on
the y-axis. -/
def zero_length_event : Seeded_trisegment_2 ℚ :=
  construct_seeded_trisegment_initial
    ⟨⟨⟨1, 1⟩, ⟨1, 1⟩⟩, ⟨⟨0, 0⟩, ⟨1, 0⟩⟩, ⟨⟨0, 0⟩, ⟨0, 1⟩⟩, .NONE⟩

/-- Two edges are collinear: both end points of `e1` lie on the supporting line of `e0` (the
orientation determinants of `e0.source`, `e0.target` and each end point of `e1` are zero). -/
def collinear_edges (e0 e1 : Segment_2 F) : Prop :=
  (e0.target.x - e0.source.x) * (e1.source.y - e0.source.y)
      - (e0.target.y - e0.source.y) * (e1.source.x - e0.source.x) = 0 ∧
  (e0.target.x - e0.source.x) * (e1.target.y - e0.source.y)
      - (e0.target.y - e0.source.y) * (e1.target.x - e0.source.x) = 0

instance (e0 e1 : Segment_2 F) : Decidable (collinear_edges e0 e1) := by
  unfold collinear_edges
  infer_instance

/-! # Theorems -/

/-! ## The line normalizer -/

/-- The returned line, when there is one, is the triple of locals, the branch has not failed and
the three coefficients are finite. -/
theorem compute_normalized_line_ceoffC2_eq_some (K : Kernel F) (e : Segment_2 F) (l : Line_2 F) :
    compute_normalized_line_ceoffC2 K e = some l ↔
      (normalized_line_locals K e).1 = true ∧ K.is_finite l.a = true ∧ K.is_finite l.b = true ∧
        K.is_finite l.c = true ∧ (normalized_line_locals K e).2 = l := by
  unfold compute_normalized_line_ceoffC2 cgal_make_optional
  constructor
  · intro h
    by_cases h1 : (normalized_line_locals K e).1 = true
    · by_cases ha : K.is_finite (normalized_line_locals K e).2.a = true <;>
        by_cases hb : K.is_finite (normalized_line_locals K e).2.b = true <;>
        by_cases hc : K.is_finite (normalized_line_locals K e).2.c = true <;>
        simp [h1, ha, hb, hc] at h
      subst h
      exact ⟨h1, ha, hb, hc, rfl⟩
    · simp [h1] at h
  · rintro ⟨h1, ha, hb, hc, rfl⟩
    simp [h1, ha, hb, hc]

/-- In exact arithmetic (every value finite) the normalizer always returns its locals. -/
theorem compute_normalized_line_ceoffC2_of_finite (K : Kernel F)
    (hfin : ∀ x, K.is_finite x = true) (e : Segment_2 F) :
    compute_normalized_line_ceoffC2 K e = some (normalized_line_locals K e).2 := by
  rw [compute_normalized_line_ceoffC2_eq_some]
  refine ⟨?_, hfin _, hfin _, hfin _, rfl⟩
  unfold normalized_line_locals
  simp only [hfin]
  split_ifs <;> rfl

/-- C7. Axis-aligned normalization: for a horizontal, vertical or zero-length segment the locals
`(a, b, c)` of `compute_normalized_line_ceoffC2` are picked from the ordering of the end points,
`(0,1,-sy)`, `(0,-1,sy)`, `(0,0,0)`, `(-1,0,sx)` or `(1,0,-sx)`, and the result is that triple
gated by the finiteness of its three entries; no square root is taken: the result is the same
whatever function the kernel has for it. -/
theorem compute_normalized_line_ceoffC2_axis_aligned (K : Kernel F) (sx sy tx ty : F) :
    (sy = ty → tx > sx →
      normalized_line_locals K ⟨⟨sx, sy⟩, ⟨tx, ty⟩⟩ = (true, ⟨0, 1, -sy⟩) ∧
      compute_normalized_line_ceoffC2 K ⟨⟨sx, sy⟩, ⟨tx, ty⟩⟩ =
        cgal_make_optional (K.is_finite 0 && K.is_finite 1 && K.is_finite (-sy)) ⟨0, 1, -sy⟩) ∧
    (sy = ty → tx < sx →
      normalized_line_locals K ⟨⟨sx, sy⟩, ⟨tx, ty⟩⟩ = (true, ⟨0, -1, sy⟩) ∧
      compute_normalized_line_ceoffC2 K ⟨⟨sx, sy⟩, ⟨tx, ty⟩⟩ =
        cgal_make_optional (K.is_finite 0 && K.is_finite (-1) && K.is_finite sy) ⟨0, -1, sy⟩) ∧
    (sx = tx → sy = ty →
      normalized_line_locals K ⟨⟨sx, sy⟩, ⟨tx, ty⟩⟩ = (true, ⟨0, 0, 0⟩) ∧
      compute_normalized_line_ceoffC2 K ⟨⟨sx, sy⟩, ⟨tx, ty⟩⟩ =
        cgal_make_optional (K.is_finite 0) ⟨0, 0, 0⟩) ∧
    (tx = sx → ty > sy →
      normalized_line_locals K ⟨⟨sx, sy⟩, ⟨tx, ty⟩⟩ = (true, ⟨-1, 0, sx⟩) ∧
      compute_normalized_line_ceoffC2 K ⟨⟨sx, sy⟩, ⟨tx, ty⟩⟩ =
        cgal_make_optional (K.is_finite (-1) && K.is_finite 0 && K.is_finite sx) ⟨-1, 0, sx⟩) ∧
    (tx = sx → ty < sy →
      normalized_line_locals K ⟨⟨sx, sy⟩, ⟨tx, ty⟩⟩ = (true, ⟨1, 0, -sx⟩) ∧
      compute_normalized_line_ceoffC2 K ⟨⟨sx, sy⟩, ⟨tx, ty⟩⟩ =
        cgal_make_optional (K.is_finite 1 && K.is_finite 0 && K.is_finite (-sx)) ⟨1, 0, -sx⟩) ∧
    (sy = ty ∨ tx = sx → ∀ s : F → F,
      compute_normalized_line_ceoffC2 ⟨K.is_finite, s, K.line_project_pointC2⟩
          ⟨⟨sx, sy⟩, ⟨tx, ty⟩⟩
        = compute_normalized_line_ceoffC2 K ⟨⟨sx, sy⟩, ⟨tx, ty⟩⟩) := by
  refine ⟨?_, ?_, ?_, ?_, ?_, ?_⟩
  · intro hy hx
    have hl : normalized_line_locals K ⟨⟨sx, sy⟩, ⟨tx, ty⟩⟩ = (true, ⟨0, 1, -sy⟩) := by
      simp [normalized_line_locals, hy, hx]
    refine ⟨hl, ?_⟩
    simp only [compute_normalized_line_ceoffC2, hl, cgal_make_optional]
    cases K.is_finite 0 <;> cases K.is_finite 1 <;> cases K.is_finite (-sy) <;> rfl
  · intro hy hx
    have hl : normalized_line_locals K ⟨⟨sx, sy⟩, ⟨tx, ty⟩⟩ = (true, ⟨0, -1, sy⟩) := by
      simp [normalized_line_locals, hy, not_lt_of_gt hx, ne_of_lt hx]
    refine ⟨hl, ?_⟩
    simp only [compute_normalized_line_ceoffC2, hl, cgal_make_optional]
    cases K.is_finite 0 <;> cases K.is_finite (-1) <;> cases K.is_finite sy <;> rfl
  · intro hx hy
    have hl : normalized_line_locals K ⟨⟨sx, sy⟩, ⟨tx, ty⟩⟩ = (true, ⟨0, 0, 0⟩) := by
      simp [normalized_line_locals, hy, hx]
    refine ⟨hl, ?_⟩
    simp only [compute_normalized_line_ceoffC2, hl, cgal_make_optional]
    cases K.is_finite 0 <;> rfl
  · intro hx hy
    have hl : normalized_line_locals K ⟨⟨sx, sy⟩, ⟨tx, ty⟩⟩ = (true, ⟨-1, 0, sx⟩) := by
      simp [normalized_line_locals, hx, hy, ne_of_lt hy]
    refine ⟨hl, ?_⟩
    simp only [compute_normalized_line_ceoffC2, hl, cgal_make_optional]
    cases K.is_finite (-1) <;> cases K.is_finite 0 <;> cases K.is_finite sx <;> rfl
  · intro hx hy
    have hl : normalized_line_locals K ⟨⟨sx, sy⟩, ⟨tx, ty⟩⟩ = (true, ⟨1, 0, -sx⟩) := by
      simp [normalized_line_locals, hx, not_lt_of_gt hy, ne_of_gt hy, (ne_of_gt hy).symm]
    refine ⟨hl, ?_⟩
    simp only [compute_normalized_line_ceoffC2, hl, cgal_make_optional]
    cases K.is_finite 1 <;> cases K.is_finite 0 <;> cases K.is_finite (-sx) <;> rfl
  · intro h s
    have hl : normalized_line_locals ⟨K.is_finite, s, K.line_project_pointC2⟩
        ⟨⟨sx, sy⟩, ⟨tx, ty⟩⟩ = normalized_line_locals K ⟨⟨sx, sy⟩, ⟨tx, ty⟩⟩ := by
      unfold normalized_line_locals
      rcases h with h | h <;> simp [h]
    simp only [compute_normalized_line_ceoffC2, hl]

/-- Witness of C7: the five axis-aligned cases on the rationals. -/
theorem compute_normalized_line_ceoffC2_axis_aligned_witness :
    compute_normalized_line_ceoffC2 exact_kernel ⟨⟨0, 3⟩, ⟨10, 3⟩⟩ = some ⟨0, 1, -3⟩ ∧
    compute_normalized_line_ceoffC2 exact_kernel ⟨⟨10, 3⟩, ⟨0, 3⟩⟩ = some ⟨0, -1, 3⟩ ∧
    compute_normalized_line_ceoffC2 exact_kernel ⟨⟨7, 3⟩, ⟨7, 3⟩⟩ = some ⟨0, 0, 0⟩ ∧
    compute_normalized_line_ceoffC2 exact_kernel ⟨⟨7, 0⟩, ⟨7, 10⟩⟩ = some ⟨-1, 0, 7⟩ ∧
    compute_normalized_line_ceoffC2 exact_kernel ⟨⟨7, 10⟩, ⟨7, 0⟩⟩ = some ⟨1, 0, -7⟩ :=
  ⟨((compute_normalized_line_ceoffC2_axis_aligned exact_kernel 0 3 10 3).1 rfl
      (by norm_num)).2,
   ((compute_normalized_line_ceoffC2_axis_aligned exact_kernel 10 3 0 3).2.1 rfl
      (by norm_num)).2,
   ((compute_normalized_line_ceoffC2_axis_aligned exact_kernel 7 3 7 3).2.2.1 rfl rfl).2,
   ((compute_normalized_line_ceoffC2_axis_aligned exact_kernel 7 0 7 10).2.2.2.1 rfl
      (by norm_num)).2,
   ((compute_normalized_line_ceoffC2_axis_aligned exact_kernel 7 10 7 0).2.2.2.2.1 rfl
      (by norm_num)).2⟩

/-- The squared length of the general branch is positive: the segment is not horizontal there. -/
theorem squared_length_pos (sa sb : F) (h : sa ≠ 0) : 0 < sa * sa + sb * sb := by
  have h1 : 0 < sa * sa := mul_self_pos.mpr h
  have h2 : 0 ≤ sb * sb := mul_self_nonneg sb
  linarith

/-- The locals of the general branch when the square root is exact: a unit vector, orthogonal
to the direction of the segment and on its left. -/
theorem general_branch_unit_leftward (sx sy tx ty l : F) (hl : l ≠ 0)
    (hsq : l * l = (sy - ty) * (sy - ty) + (tx - sx) * (tx - sx)) :
    ((sy - ty) / l) ^ 2 + ((tx - sx) / l) ^ 2 = 1 ∧
    (sy - ty) / l * (tx - sx) + (tx - sx) / l * (ty - sy) = 0 ∧
    (sy - ty) / l * (sy - ty) + (tx - sx) / l * (tx - sx) = l := by
  refine ⟨?_, ?_, ?_⟩
  · field_simp
    linear_combination -hsq
  · field_simp
    ring
  · field_simp
    linear_combination -hsq

/-- C9. Unit leftward normal: for a segment with source ≠ target, when the square root of the
general branch returns the exact positive root of the squared length, every line returned by
`compute_normalized_line_ceoffC2` has `a² + b² = 1`, `(a,b)` is orthogonal to the direction
`(tx-sx, ty-sy)` and points to its left; and in exact arithmetic the line is returned. -/
theorem compute_normalized_line_ceoffC2_unit_leftward (K : Kernel F) (e : Segment_2 F)
    (hne : e.source ≠ e.target)
    (hpos : 0 < K.inexact_sqrt ((e.source.y - e.target.y) * (e.source.y - e.target.y)
      + (e.target.x - e.source.x) * (e.target.x - e.source.x)))
    (hsq : K.inexact_sqrt ((e.source.y - e.target.y) * (e.source.y - e.target.y)
        + (e.target.x - e.source.x) * (e.target.x - e.source.x))
      * K.inexact_sqrt ((e.source.y - e.target.y) * (e.source.y - e.target.y)
        + (e.target.x - e.source.x) * (e.target.x - e.source.x))
      = (e.source.y - e.target.y) * (e.source.y - e.target.y)
        + (e.target.x - e.source.x) * (e.target.x - e.source.x)) :
    (∀ l, compute_normalized_line_ceoffC2 K e = some l →
      l.a ^ 2 + l.b ^ 2 = 1 ∧
      l.a * (e.target.x - e.source.x) + l.b * (e.target.y - e.source.y) = 0 ∧
      l.a * (e.source.y - e.target.y) + l.b * (e.target.x - e.source.x) > 0) ∧
    ((∀ x, K.is_finite x = true) → (compute_normalized_line_ceoffC2 K e).isSome = true) := by
  refine ⟨?_, fun hfin => by simp [compute_normalized_line_ceoffC2_of_finite K hfin]⟩
  intro l hl
  rw [compute_normalized_line_ceoffC2_eq_some] at hl
  obtain ⟨h1, -, -, -, rfl⟩ := hl
  obtain ⟨⟨sx, sy⟩, ⟨tx, ty⟩⟩ := e
  simp only [ne_eq, Point_2.mk.injEq, not_and] at hne
  simp only at hpos hsq
  revert h1
  unfold normalized_line_locals
  simp only
  split_ifs with hy hx1 hx2 hx3 hy1 hy2 hfin
  · intro _
    subst hy
    refine ⟨by ring, by ring, ?_⟩
    simp only [gt_iff_lt] at hx1 ⊢
    linarith
  · exact absurd hy (hne hx2.symm)
  · intro _
    subst hy
    have hlt : tx < sx := lt_of_le_of_ne (not_lt.mp hx1) hx2
    refine ⟨by ring, by ring, ?_⟩
    simp only [gt_iff_lt]
    linarith
  · intro _
    subst hx3
    refine ⟨by ring, by ring, ?_⟩
    simp only [gt_iff_lt] at hy1 ⊢
    linarith
  · exact absurd hy2.symm hy
  · intro _
    subst hx3
    have hlt : ty < sy := lt_of_le_of_ne (not_lt.mp hy1) hy2
    refine ⟨by ring, by ring, ?_⟩
    simp only [gt_iff_lt]
    linarith
  · intro _
    obtain ⟨hu, ho, hp⟩ := general_branch_unit_leftward sx sy tx ty _ (ne_of_gt hpos) hsq
    refine ⟨hu, ho, ?_⟩
    simp only [gt_iff_lt]
    rw [hp]
    exact hpos
  · intro h
    simp at h

/-- The inexact square root of the rational kernel is exact at 25. -/
theorem rat_sqrt_25 : rat_sqrt 25 = 5 := by
  have h0 : (25 : ℚ).num = 25 := by norm_num
  have h1 : (25 : ℚ).num.toNat = 25 := by rw [h0]; rfl
  have h2 : (25 : ℚ).den = 1 := by norm_num
  have h3 : Nat.sqrt 25 = 5 := by norm_num [Nat.sqrt, Nat.sqrt.iter]
  have h4 : Nat.sqrt 1 = 1 := by norm_num [Nat.sqrt, Nat.sqrt.iter]
  unfold rat_sqrt
  rw [h1, h2, h3, h4]
  norm_num

/-- The normalized line of the segment (0,0) → (3,4) in the rational kernel. -/
theorem normalized_line_3_4 :
    compute_normalized_line_ceoffC2 exact_kernel ⟨⟨0, 0⟩, ⟨3, 4⟩⟩ = some ⟨-4 / 5, 3 / 5, 0⟩ := by
  simp only [compute_normalized_line_ceoffC2, normalized_line_locals, exact_kernel,
    cgal_make_optional]
  norm_num
  rw [rat_sqrt_25]
  norm_num

/-- Witness of C9: the segment (0,0) → (3,4), of length 5, in the rational kernel. -/
theorem compute_normalized_line_ceoffC2_unit_leftward_witness :
    compute_normalized_line_ceoffC2 exact_kernel ⟨⟨0, 0⟩, ⟨3, 4⟩⟩ = some ⟨-4 / 5, 3 / 5, 0⟩ ∧
    ((-4 / 5 : ℚ) ^ 2 + (3 / 5) ^ 2 = 1 ∧
      (-4 / 5 : ℚ) * (3 - 0) + 3 / 5 * (4 - 0) = 0 ∧
      (-4 / 5 : ℚ) * (0 - 4) + 3 / 5 * (3 - 0) > 0) :=
  ⟨normalized_line_3_4,
   (compute_normalized_line_ceoffC2_unit_leftward exact_kernel ⟨⟨0, 0⟩, ⟨3, 4⟩⟩
      (by simp)
      (by norm_num [exact_kernel]; rw [rat_sqrt_25]; norm_num)
      (by norm_num [exact_kernel]; rw [rat_sqrt_25]; norm_num)).1 _ normalized_line_3_4⟩

/-- C10. Supporting line: whatever the square root returns, both end points of the segment lie
on every line returned by `compute_normalized_line_ceoffC2`. (A square root that returns 0 is
included: the division of `F` then gives the coefficients `(0,0,0)`, where the header would
return no line.) -/
theorem compute_normalized_line_ceoffC2_supporting (K : Kernel F) (e : Segment_2 F)
    (l : Line_2 F) (h : compute_normalized_line_ceoffC2 K e = some l) :
    l.a * e.source.x + l.b * e.source.y + l.c = 0 ∧
    l.a * e.target.x + l.b * e.target.y + l.c = 0 := by
  rw [compute_normalized_line_ceoffC2_eq_some] at h
  obtain ⟨h1, -, -, -, rfl⟩ := h
  obtain ⟨⟨sx, sy⟩, ⟨tx, ty⟩⟩ := e
  revert h1
  unfold normalized_line_locals
  simp only
  split_ifs with hy hx1 hx2 hx3 hy1 hy2 hfin
  · intro _
    subst hy
    exact ⟨by ring, by ring⟩
  · intro _
    exact ⟨by ring, by ring⟩
  · intro _
    subst hy
    exact ⟨by ring, by ring⟩
  · intro _
    subst hx3
    exact ⟨by ring, by ring⟩
  · intro _
    exact ⟨by ring, by ring⟩
  · intro _
    subst hx3
    exact ⟨by ring, by ring⟩
  · intro _
    exact ⟨by ring, by ring⟩
  · intro h
    simp at h

/-- Witness of C10: the end points (0,0) and (3,4) lie on the line returned for the segment
between them. -/
theorem compute_normalized_line_ceoffC2_supporting_witness :
    compute_normalized_line_ceoffC2 exact_kernel ⟨⟨0, 0⟩, ⟨3, 4⟩⟩ = some ⟨-4 / 5, 3 / 5, 0⟩ ∧
    ((-4 / 5 : ℚ) * 0 + 3 / 5 * 0 + 0 = 0 ∧ (-4 / 5 : ℚ) * 3 + 3 / 5 * 4 + 0 = 0) :=
  ⟨normalized_line_3_4,
   compute_normalized_line_ceoffC2_supporting exact_kernel ⟨⟨0, 0⟩, ⟨3, 4⟩⟩ _
     normalized_line_3_4⟩

/-- Counterexample to C8: the zero-length segment at the origin is normalized to `(0,0,0)`, and
with the inexact square root of the rational kernel the segment (0,0) → (1,1) is normalized to
`(-1,1,0)`; neither has `a² + b² = 1`. -/
theorem zero_length_segment_line_not_unit :
    (compute_normalized_line_ceoffC2 exact_kernel ⟨⟨0, 0⟩, ⟨0, 0⟩⟩ = some ⟨0, 0, 0⟩ ∧
      (0 : ℚ) ^ 2 + 0 ^ 2 ≠ 1) ∧
    (compute_normalized_line_ceoffC2 exact_kernel ⟨⟨0, 0⟩, ⟨1, 1⟩⟩ = some ⟨-1, 1, 0⟩ ∧
      (-1 : ℚ) ^ 2 + 1 ^ 2 ≠ 1) := by
  refine ⟨⟨?_, by norm_num⟩, ⟨?_, by norm_num⟩⟩
  · simp [compute_normalized_line_ceoffC2, normalized_line_locals, exact_kernel,
      cgal_make_optional]
  · have h0 : (2 : ℚ).num = 2 := by norm_num
    have h1 : (2 : ℚ).num.toNat = 2 := by rw [h0]; rfl
    have h2 : (2 : ℚ).den = 1 := by norm_num
    have h3 : Nat.sqrt 2 = 1 := by norm_num [Nat.sqrt, Nat.sqrt.iter]
    have h4 : Nat.sqrt 1 = 1 := by norm_num [Nat.sqrt, Nat.sqrt.iter]
    have h5 : rat_sqrt 2 = 1 := by
      unfold rat_sqrt
      rw [h1, h2, h3, h4]
      norm_num
    simp only [compute_normalized_line_ceoffC2, normalized_line_locals, exact_kernel,
      cgal_make_optional]
    norm_num
    rw [h5]
    norm_num

/-- C8, amended. Line invariant: for a segment with source ≠ target, every line returned by
`compute_normalized_line_ceoffC2` has `a² + b² = 1`, for every kernel when the segment is
horizontal or vertical, and otherwise when the square root taken in the general branch squares
to the squared length. -/
theorem normalized_line_unit_of_exact_sqrt (K : Kernel F) (e : Segment_2 F)
    (hne : e.source ≠ e.target)
    (hsq : e.source.y ≠ e.target.y → e.target.x ≠ e.source.x →
      K.inexact_sqrt ((e.source.y - e.target.y) * (e.source.y - e.target.y)
        + (e.target.x - e.source.x) * (e.target.x - e.source.x))
      * K.inexact_sqrt ((e.source.y - e.target.y) * (e.source.y - e.target.y)
        + (e.target.x - e.source.x) * (e.target.x - e.source.x))
      = (e.source.y - e.target.y) * (e.source.y - e.target.y)
        + (e.target.x - e.source.x) * (e.target.x - e.source.x))
    (l : Line_2 F) (hl : compute_normalized_line_ceoffC2 K e = some l) :
    l.a ^ 2 + l.b ^ 2 = 1 := by
  rw [compute_normalized_line_ceoffC2_eq_some] at hl
  obtain ⟨h1, -, -, -, rfl⟩ := hl
  obtain ⟨⟨sx, sy⟩, ⟨tx, ty⟩⟩ := e
  simp only [ne_eq, Point_2.mk.injEq, not_and] at hne
  simp only at hsq
  revert h1
  unfold normalized_line_locals
  simp only
  split_ifs with hy hx1 hx2 hx3 hy1 hy2 hfin
  · intro _; ring
  · exact absurd hy (hne hx2.symm)
  · intro _; ring
  · intro _; ring
  · exact absurd hy2.symm hy
  · intro _; ring
  · intro _
    have hsq' := hsq hy hx3
    have hpos : 0 < (sy - ty) * (sy - ty) + (tx - sx) * (tx - sx) :=
      squared_length_pos _ _ (sub_ne_zero.mpr hy)
    have hl0 : K.inexact_sqrt ((sy - ty) * (sy - ty) + (tx - sx) * (tx - sx)) ≠ 0 := by
      intro h0
      rw [h0, mul_zero] at hsq'
      exact absurd hsq' (ne_of_lt hpos)
    exact (general_branch_unit_leftward sx sy tx ty _ hl0 hsq').1
  · intro h
    simp at h

/-- The line of the horizontal segment (0,0) → (2,0) in the rational kernel. -/
theorem normalized_line_2_0 :
    compute_normalized_line_ceoffC2 exact_kernel ⟨⟨0, 0⟩, ⟨2, 0⟩⟩ = some ⟨0, 1, 0⟩ := by
  simp [compute_normalized_line_ceoffC2, normalized_line_locals, exact_kernel,
    cgal_make_optional]

/-- Witness of the amended C8: the segment (0,0) → (3,4), with the exact root 5 of 25, and the
horizontal segment (0,0) → (2,0), which takes no root, in the rational kernel. -/
theorem normalized_line_unit_of_exact_sqrt_witness :
    (compute_normalized_line_ceoffC2 exact_kernel ⟨⟨0, 0⟩, ⟨3, 4⟩⟩ = some ⟨-4 / 5, 3 / 5, 0⟩ ∧
      (-4 / 5 : ℚ) ^ 2 + (3 / 5) ^ 2 = 1) ∧
    (compute_normalized_line_ceoffC2 exact_kernel ⟨⟨0, 0⟩, ⟨2, 0⟩⟩ = some ⟨0, 1, 0⟩ ∧
      (0 : ℚ) ^ 2 + 1 ^ 2 = 1) :=
  ⟨⟨normalized_line_3_4,
    normalized_line_unit_of_exact_sqrt exact_kernel ⟨⟨0, 0⟩, ⟨3, 4⟩⟩ (by simp)
      (fun _ _ => by norm_num [exact_kernel]; rw [rat_sqrt_25]; norm_num) _
      normalized_line_3_4⟩,
   ⟨normalized_line_2_0,
    normalized_line_unit_of_exact_sqrt exact_kernel ⟨⟨0, 0⟩, ⟨2, 0⟩⟩ (by simp)
      (fun h _ => absurd rfl h) _ normalized_line_2_0⟩⟩

/-! ## The normal solvers -/

/-- Division step of the Cramer solution: from `a*X - b*Y + c*D = -N` to
`a*(X/D) + b*(-Y/D) + c = N/(-D)`. -/
theorem cramer_division_step (a b c X Y N D : F) (hD : D ≠ 0)
    (key : a * X - b * Y + c * D = -N) :
    a * (X / D) + b * (-Y / D) + c = N / (-D) := by
  have h : a * (X / D) + b * (-Y / D) + c = (a * X - b * Y + c * D) / D := by
    field_simp
    ring
  rw [h, key, div_neg, neg_div]

/-- Cramer solution of the three offset-line equations: with the common denominator of the
point constructor non-zero, the denominator of the time is non-zero and the point
`(numX/den, -numY/den)` satisfies `ai*x + bi*y + ci = num/den` for the three lines. -/
theorem normal_solution_algebra (a0 b0 c0 a1 b1 c1 a2 b2 c2 : F)
    (hden : a0 * b2 - a0 * b1 - a1 * b2 + a2 * b1 + b0 * a1 - b0 * a2 ≠ 0) :
    ((-a2 * b1) + (a2 * b0) + (b2 * a1) - (b2 * a0) + (b1 * a0) - (b0 * a1) ≠ 0) ∧
    (a0 * ((b0 * c2 - b0 * c1 - b1 * c2 + b2 * c1 + b1 * c0 - b2 * c0)
          / (a0 * b2 - a0 * b1 - a1 * b2 + a2 * b1 + b0 * a1 - b0 * a2))
      + b0 * (-(a0 * c2 - a0 * c1 - a1 * c2 + a2 * c1 + a1 * c0 - a2 * c0)
          / (a0 * b2 - a0 * b1 - a1 * b2 + a2 * b1 + b0 * a1 - b0 * a2)) + c0
      = ((a2 * b0 * c1) - (a2 * b1 * c0) - (b2 * a0 * c1) + (b2 * a1 * c0) + (b1 * a0 * c2)
          - (b0 * a1 * c2))
        / ((-a2 * b1) + (a2 * b0) + (b2 * a1) - (b2 * a0) + (b1 * a0) - (b0 * a1))) ∧
    (a1 * ((b0 * c2 - b0 * c1 - b1 * c2 + b2 * c1 + b1 * c0 - b2 * c0)
          / (a0 * b2 - a0 * b1 - a1 * b2 + a2 * b1 + b0 * a1 - b0 * a2))
      + b1 * (-(a0 * c2 - a0 * c1 - a1 * c2 + a2 * c1 + a1 * c0 - a2 * c0)
          / (a0 * b2 - a0 * b1 - a1 * b2 + a2 * b1 + b0 * a1 - b0 * a2)) + c1
      = ((a2 * b0 * c1) - (a2 * b1 * c0) - (b2 * a0 * c1) + (b2 * a1 * c0) + (b1 * a0 * c2)
          - (b0 * a1 * c2))
        / ((-a2 * b1) + (a2 * b0) + (b2 * a1) - (b2 * a0) + (b1 * a0) - (b0 * a1))) ∧
    (a2 * ((b0 * c2 - b0 * c1 - b1 * c2 + b2 * c1 + b1 * c0 - b2 * c0)
          / (a0 * b2 - a0 * b1 - a1 * b2 + a2 * b1 + b0 * a1 - b0 * a2))
      + b2 * (-(a0 * c2 - a0 * c1 - a1 * c2 + a2 * c1 + a1 * c0 - a2 * c0)
          / (a0 * b2 - a0 * b1 - a1 * b2 + a2 * b1 + b0 * a1 - b0 * a2)) + c2
      = ((a2 * b0 * c1) - (a2 * b1 * c0) - (b2 * a0 * c1) + (b2 * a1 * c0) + (b1 * a0 * c2)
          - (b0 * a1 * c2))
        / ((-a2 * b1) + (a2 * b0) + (b2 * a1) - (b2 * a0) + (b1 * a0) - (b0 * a1))) := by
  have hdt : (-a2 * b1) + (a2 * b0) + (b2 * a1) - (b2 * a0) + (b1 * a0) - (b0 * a1)
      = -(a0 * b2 - a0 * b1 - a1 * b2 + a2 * b1 + b0 * a1 - b0 * a2) := by ring
  rw [hdt]
  refine ⟨neg_ne_zero.mpr hden, ?_, ?_, ?_⟩
  · exact cramer_division_step _ _ _ _ _ _ _ hden (by ring)
  · exact cramer_division_step _ _ _ _ _ _ _ hden (by ring)
  · exact cramer_division_step _ _ _ _ _ _ _ hden (by ring)

/-- The point constructor of the normal case returns a point exactly when the three lines exist,
the common denominator is non-zero, and the denominator and both numerators are finite; the point
is then `(numX/den, -numY/den)`. -/
theorem construct_normal_offset_lines_isecC2_eq_some (K : Kernel F) (st : Seeded_trisegment_2 F)
    (p : Point_2 F) :
    construct_normal_offset_lines_isecC2 K st = some p ↔
      ∃ l0 l1 l2, compute_normalized_line_ceoffC2 K st.event.e0 = some l0 ∧
        compute_normalized_line_ceoffC2 K st.event.e1 = some l1 ∧
        compute_normalized_line_ceoffC2 K st.event.e2 = some l2 ∧
        l0.a * l2.b - l0.a * l1.b - l1.a * l2.b + l2.a * l1.b + l0.b * l1.a - l0.b * l2.a ≠ 0 ∧
        K.is_finite
          (l0.a * l2.b - l0.a * l1.b - l1.a * l2.b + l2.a * l1.b + l0.b * l1.a - l0.b * l2.a)
          = true ∧
        K.is_finite
          (l0.b * l2.c - l0.b * l1.c - l1.b * l2.c + l2.b * l1.c + l1.b * l0.c - l2.b * l0.c)
          = true ∧
        K.is_finite
          (l0.a * l2.c - l0.a * l1.c - l1.a * l2.c + l2.a * l1.c + l1.a * l0.c - l2.a * l0.c)
          = true ∧
        p = ⟨(l0.b * l2.c - l0.b * l1.c - l1.b * l2.c + l2.b * l1.c + l1.b * l0.c - l2.b * l0.c)
              / (l0.a * l2.b - l0.a * l1.b - l1.a * l2.b + l2.a * l1.b + l0.b * l1.a
                  - l0.b * l2.a),
            -(l0.a * l2.c - l0.a * l1.c - l1.a * l2.c + l2.a * l1.c + l1.a * l0.c - l2.a * l0.c)
              / (l0.a * l2.b - l0.a * l1.b - l1.a * l2.b + l2.a * l1.b + l0.b * l1.a
                  - l0.b * l2.a)⟩ := by
  unfold construct_normal_offset_lines_isecC2
  cases h0 : compute_normalized_line_ceoffC2 K st.event.e0 with
  | none => simp
  | some l0 =>
    cases h1 : compute_normalized_line_ceoffC2 K st.event.e1 with
    | none => simp
    | some l1 =>
      cases h2 : compute_normalized_line_ceoffC2 K st.event.e2 with
      | none => simp
      | some l2 =>
        simp only [certified_is_zero, Option.some.injEq, exists_and_left, exists_eq_left']
        by_cases hd : l0.a * l2.b - l0.a * l1.b - l1.a * l2.b + l2.a * l1.b + l0.b * l1.a
            - l0.b * l2.a = 0
        · simp [hd]
        · by_cases hf : (K.is_finite (l0.a * l2.b - l0.a * l1.b - l1.a * l2.b + l2.a * l1.b
              + l0.b * l1.a - l0.b * l2.a)
            && K.is_finite (l0.b * l2.c - l0.b * l1.c - l1.b * l2.c + l2.b * l1.c + l1.b * l0.c
              - l2.b * l0.c)
            && K.is_finite (l0.a * l2.c - l0.a * l1.c - l1.a * l2.c + l2.a * l1.c + l1.a * l0.c
              - l2.a * l0.c)) = true
          · simp only [hd, decide_False, Bool.not_false, hf, if_true, Option.some.injEq]
            simp only [Bool.and_eq_true] at hf
            constructor
            · intro h
              exact ⟨hd, hf.1.1, hf.1.2, hf.2, h.symm⟩
            · rintro ⟨-, -, -, -, h⟩
              exact h.symm
          · simp only [hd, decide_False, Bool.not_false, hf, if_true]
            simp only [Bool.and_eq_true, not_and] at hf
            constructor
            · intro h
              simp at h
            · rintro ⟨-, h1, h2, h3, -⟩
              exact absurd h3 (hf ⟨h1, h2⟩)

/-- The time solver of the normal case returns a pair exactly when the three lines exist and the
numerator and the denominator are finite; the pair is then `(num, den)` of the closed form. -/
theorem compute_normal_offset_lines_isec_timeC2_eq_some (K : Kernel F)
    (st : Seeded_trisegment_2 F) (r : Rational F) :
    compute_normal_offset_lines_isec_timeC2 K st = some r ↔
      ∃ l0 l1 l2, compute_normalized_line_ceoffC2 K st.event.e0 = some l0 ∧
        compute_normalized_line_ceoffC2 K st.event.e1 = some l1 ∧
        compute_normalized_line_ceoffC2 K st.event.e2 = some l2 ∧
        K.is_finite ((l2.a * l0.b * l1.c) - (l2.a * l1.b * l0.c) - (l2.b * l0.a * l1.c)
          + (l2.b * l1.a * l0.c) + (l1.b * l0.a * l2.c) - (l0.b * l1.a * l2.c)) = true ∧
        K.is_finite ((-l2.a * l1.b) + (l2.a * l0.b) + (l2.b * l1.a) - (l2.b * l0.a)
          + (l1.b * l0.a) - (l0.b * l1.a)) = true ∧
        r = ⟨(l2.a * l0.b * l1.c) - (l2.a * l1.b * l0.c) - (l2.b * l0.a * l1.c)
              + (l2.b * l1.a * l0.c) + (l1.b * l0.a * l2.c) - (l0.b * l1.a * l2.c),
            (-l2.a * l1.b) + (l2.a * l0.b) + (l2.b * l1.a) - (l2.b * l0.a)
              + (l1.b * l0.a) - (l0.b * l1.a)⟩ := by
  unfold compute_normal_offset_lines_isec_timeC2 cgal_make_optional
  cases h0 : compute_normalized_line_ceoffC2 K st.event.e0 with
  | none => simp
  | some l0 =>
    cases h1 : compute_normalized_line_ceoffC2 K st.event.e1 with
    | none => simp
    | some l1 =>
      cases h2 : compute_normalized_line_ceoffC2 K st.event.e2 with
      | none => simp
      | some l2 =>
        simp only [Option.some.injEq, exists_and_left, exists_eq_left']
        by_cases hf : (K.is_finite ((l2.a * l0.b * l1.c) - (l2.a * l1.b * l0.c)
              - (l2.b * l0.a * l1.c) + (l2.b * l1.a * l0.c) + (l1.b * l0.a * l2.c)
              - (l0.b * l1.a * l2.c))
            && K.is_finite ((-l2.a * l1.b) + (l2.a * l0.b) + (l2.b * l1.a) - (l2.b * l0.a)
              + (l1.b * l0.a) - (l0.b * l1.a))) = true
        · simp only [hf, if_true, Option.some.injEq]
          simp only [Bool.and_eq_true] at hf
          constructor
          · intro h
            exact ⟨hf.1, hf.2, h.symm⟩
          · rintro ⟨-, -, h⟩
            exact h.symm
        · simp only [hf]
          simp only [Bool.and_eq_true, not_and] at hf
          constructor
          · intro h
            simp at h
          · rintro ⟨h1, h2, -⟩
            exact absurd h2 (hf h1)

/-- C1. Normal case in exact arithmetic (every value finite): when the point constructor of the
normal case returns `(x, y)`, the time solver returns `(num, den)` with `den ≠ 0`, the three
normalized lines exist, and `ai*x + bi*y + ci = num/den` for each of them; hence the three
absolute values `|ai*x + bi*y + ci|` are equal to `|num/den|`. The normal solvers do not read
the collinearity tag, so this holds for every seeded trisegment, those tagged NONE included. -/
theorem normal_point_on_offset_lines (K : Kernel F) (hfin : ∀ x, K.is_finite x = true)
    (st : Seeded_trisegment_2 F) (p : Point_2 F)
    (hp : construct_normal_offset_lines_isecC2 K st = some p) :
    ∃ r l0 l1 l2, compute_normal_offset_lines_isec_timeC2 K st = some r ∧ r.d ≠ 0 ∧
      compute_normalized_line_ceoffC2 K st.event.e0 = some l0 ∧
      compute_normalized_line_ceoffC2 K st.event.e1 = some l1 ∧
      compute_normalized_line_ceoffC2 K st.event.e2 = some l2 ∧
      l0.a * p.x + l0.b * p.y + l0.c = r.n / r.d ∧
      l1.a * p.x + l1.b * p.y + l1.c = r.n / r.d ∧
      l2.a * p.x + l2.b * p.y + l2.c = r.n / r.d ∧
      |l0.a * p.x + l0.b * p.y + l0.c| = |r.n / r.d| ∧
      |l1.a * p.x + l1.b * p.y + l1.c| = |r.n / r.d| ∧
      |l2.a * p.x + l2.b * p.y + l2.c| = |r.n / r.d| := by
  rw [construct_normal_offset_lines_isecC2_eq_some] at hp
  obtain ⟨l0, l1, l2, h0, h1, h2, hden, -, -, -, rfl⟩ := hp
  obtain ⟨hd, e0, e1, e2⟩ :=
    normal_solution_algebra l0.a l0.b l0.c l1.a l1.b l1.c l2.a l2.b l2.c hden
  refine ⟨_, l0, l1, l2,
    (compute_normal_offset_lines_isec_timeC2_eq_some K st _).mpr
      ⟨l0, l1, l2, h0, h1, h2, hfin _, hfin _, rfl⟩,
    hd, h0, h1, h2, e0, e1, e2, ?_, ?_, ?_⟩
  · exact congrArg abs e0
  · exact congrArg abs e1
  · exact congrArg abs e2

/-! ## The degenerate solvers -/

/-- The degenerate point constructor fails its precondition exactly when the resolution of the
degenerate seed point does. -/
theorem construct_degenerate_offset_lines_isecC2_eq_error (K : Kernel F)
    (st : Seeded_trisegment_2 F) (f : Failure) :
    construct_degenerate_offset_lines_isecC2 K st = .error f ↔
      compute_degenerate_seed_pointC2 K st = .error f := by
  rw [construct_degenerate_offset_lines_isecC2]
  cases compute_degenerate_seed_pointC2 K st with
  | error g => simp
  | ok q =>
    simp only [reduceCtorEq, iff_false]
    split <;> [split_ifs; skip] <;> simp

/-- The degenerate time solver fails its precondition exactly when the resolution of the
degenerate seed point does. -/
theorem compute_degenerate_offset_lines_isec_timeC2_eq_error (K : Kernel F)
    (st : Seeded_trisegment_2 F) (f : Failure) :
    compute_degenerate_offset_lines_isec_timeC2 K st = .error f ↔
      compute_degenerate_seed_pointC2 K st = .error f := by
  unfold compute_degenerate_offset_lines_isec_timeC2
  cases compute_degenerate_seed_pointC2 K st with
  | error g => simp
  | ok q =>
    simp only [reduceCtorEq, iff_false]
    split <;> simp

/-- The degenerate point constructor returns a point exactly when both lines and the seed point
exist, `den` is non-zero, `num`, `den` and both coordinates are finite; the point is then
`(px + l0.a*num/den, py + l0.b*num/den)`. -/
theorem construct_degenerate_offset_lines_isecC2_eq_some (K : Kernel F)
    (st : Seeded_trisegment_2 F) (p : Point_2 F) :
    construct_degenerate_offset_lines_isecC2 K st = .ok (some p) ↔
      ∃ l0 l2 q, compute_normalized_line_ceoffC2 K st.event.collinear_edge = some l0 ∧
        compute_normalized_line_ceoffC2 K st.event.non_collinear_edge = some l2 ∧
        compute_degenerate_seed_pointC2 K st = .ok (some q) ∧
        let pr := K.line_project_pointC2 l0.a l0.b l0.c q.x q.y
        let nd := degenerate_num_den l0 l2 pr.1 pr.2
        nd.2 ≠ 0 ∧ K.is_finite nd.2 = true ∧ K.is_finite nd.1 = true ∧
        K.is_finite (pr.1 + l0.a * nd.1 / nd.2) = true ∧
        K.is_finite (pr.2 + l0.b * nd.1 / nd.2) = true ∧
        p = ⟨pr.1 + l0.a * nd.1 / nd.2, pr.2 + l0.b * nd.1 / nd.2⟩ := by
  rw [construct_degenerate_offset_lines_isecC2]
  cases hq : compute_degenerate_seed_pointC2 K st with
  | error g => simp
  | ok q =>
    cases h0 : compute_normalized_line_ceoffC2 K st.event.collinear_edge with
    | none => simp
    | some l0 =>
      cases h2 : compute_normalized_line_ceoffC2 K st.event.non_collinear_edge with
      | none => simp
      | some l2 =>
        cases q with
        | none => simp
        | some q =>
          simp only [Except.ok.injEq, Option.some.injEq, exists_and_left, exists_eq_left',
            certified_is_zero, cgal_make_optional]
          simp only [degenerate_num_den]
          generalize K.line_project_pointC2 l0.a l0.b l0.c q.x q.y = pr
          generalize (if (!is_zero l0.b) = true then
              ((l2.a * l0.b - l0.a * l2.b) * pr.1 + l0.b * l2.c - l2.b * l0.c,
               (l0.a * l0.a - 1) * l2.b + (1 - l2.a * l0.a) * l0.b)
            else
              ((l2.a * l0.b - l0.a * l2.b) * pr.2 - l0.a * l2.c + l2.a * l0.c,
               l0.a * l0.b * l2.b - l0.b * l0.b * l2.a + l2.a - l0.a)) = nd
          by_cases hd : nd.2 = 0
          · simp [hd]
          · cases hf2 : K.is_finite nd.2 <;> cases hf1 : K.is_finite nd.1 <;>
              cases hx : K.is_finite (pr.1 + l0.a * nd.1 / nd.2) <;>
              cases hy : K.is_finite (pr.2 + l0.b * nd.1 / nd.2) <;>
              simp [hd, eq_comm]

/-- The degenerate time solver returns a pair exactly when both lines and the seed point exist
and `num` and `den` are finite; the pair is then `(num, den)`. -/
theorem compute_degenerate_offset_lines_isec_timeC2_eq_some (K : Kernel F)
    (st : Seeded_trisegment_2 F) (r : Rational F) :
    compute_degenerate_offset_lines_isec_timeC2 K st = .ok (some r) ↔
      ∃ l0 l2 q, compute_normalized_line_ceoffC2 K st.event.collinear_edge = some l0 ∧
        compute_normalized_line_ceoffC2 K st.event.non_collinear_edge = some l2 ∧
        compute_degenerate_seed_pointC2 K st = .ok (some q) ∧
        let pr := K.line_project_pointC2 l0.a l0.b l0.c q.x q.y
        let nd := degenerate_num_den l0 l2 pr.1 pr.2
        K.is_finite nd.1 = true ∧ K.is_finite nd.2 = true ∧ r = ⟨nd.1, nd.2⟩ := by
  unfold compute_degenerate_offset_lines_isec_timeC2
  cases hq : compute_degenerate_seed_pointC2 K st with
  | error g => simp
  | ok q =>
    cases h0 : compute_normalized_line_ceoffC2 K st.event.collinear_edge with
    | none => simp
    | some l0 =>
      cases h2 : compute_normalized_line_ceoffC2 K st.event.non_collinear_edge with
      | none => simp
      | some l2 =>
        cases q with
        | none => simp
        | some q =>
          simp only [Except.ok.injEq, Option.some.injEq, exists_and_left, exists_eq_left',
            cgal_make_optional]
          simp only [degenerate_num_den]
          generalize K.line_project_pointC2 l0.a l0.b l0.c q.x q.y = pr
          generalize (if (!is_zero l0.b) = true then
              ((l2.a * l0.b - l0.a * l2.b) * pr.1 + l0.b * l2.c - l2.b * l0.c,
               (l0.a * l0.a - 1) * l2.b + (1 - l2.a * l0.a) * l0.b)
            else
              ((l2.a * l0.b - l0.a * l2.b) * pr.2 - l0.a * l2.c + l2.a * l0.c,
               l0.a * l0.b * l2.b - l0.b * l0.b * l2.a + l2.a - l0.a)) = nd
          cases hf1 : K.is_finite nd.1 <;> cases hf2 : K.is_finite nd.2 <;> simp [eq_comm]

/-- From `num = k*S` and `den = k*W` with `den ≠ 0`: the quotient `num/den` solves
`t*W = S`. -/
theorem quotient_solves (k S W num den : F) (hn : num = k * S) (hd : den = k * W)
    (hden : den ≠ 0) : num / den * W = S := by
  subst hn hd
  have hk : k ≠ 0 := left_ne_zero_of_mul hden
  have hW : W ≠ 0 := right_ne_zero_of_mul hden
  field_simp
  ring

/-- In both branches of the degenerate closed form, for a unit line `l0` and a point `(px, py)`
on it, the quotient `t = num/den` solves `t * (1 - a0*a2 - b0*b2) = a2*px + b2*py + c2`. -/
theorem degenerate_quotient (l0 l2 : Line_2 F) (px py : F)
    (hunit : l0.a ^ 2 + l0.b ^ 2 = 1) (hon : l0.a * px + l0.b * py + l0.c = 0)
    (hden : (degenerate_num_den l0 l2 px py).2 ≠ 0) :
    (degenerate_num_den l0 l2 px py).1 / (degenerate_num_den l0 l2 px py).2
        * (1 - l0.a * l2.a - l0.b * l2.b)
      = l2.a * px + l2.b * py + l2.c := by
  obtain ⟨a0, b0, c0⟩ := l0
  obtain ⟨a2, b2, c2⟩ := l2
  simp only at hunit hon
  unfold degenerate_num_den at hden ⊢
  by_cases hb : b0 = 0
  · subst hb
    simp only [is_zero, decide_True, Bool.not_true, Bool.false_eq_true, if_false] at hden ⊢
    refine quotient_solves (-a0) _ _ _ _ ?_ ?_ hden
    · linear_combination a2 * hon
    · linear_combination (-a2) * hunit
  · simp only [is_zero, hb, decide_False, Bool.not_false, if_true] at hden ⊢
    refine quotient_solves b0 _ _ _ _ ?_ ?_ hden
    · linear_combination (-b2) * hon
    · linear_combination b2 * hunit

/-- The point `(px + a0*num/den, py + b0*num/den)` of the degenerate closed form lies at the
offset `t = num/den` from the unit line `l0` and from the line `l2`. -/
theorem degenerate_solution_algebra (l0 l2 : Line_2 F) (px py : F)
    (hunit : l0.a ^ 2 + l0.b ^ 2 = 1) (hon : l0.a * px + l0.b * py + l0.c = 0)
    (hden : (degenerate_num_den l0 l2 px py).2 ≠ 0) :
    l0.a * (px + l0.a * (degenerate_num_den l0 l2 px py).1 / (degenerate_num_den l0 l2 px py).2)
        + l0.b * (py + l0.b * (degenerate_num_den l0 l2 px py).1
            / (degenerate_num_den l0 l2 px py).2) + l0.c
      = (degenerate_num_den l0 l2 px py).1 / (degenerate_num_den l0 l2 px py).2 ∧
    l2.a * (px + l0.a * (degenerate_num_den l0 l2 px py).1 / (degenerate_num_den l0 l2 px py).2)
        + l2.b * (py + l0.b * (degenerate_num_den l0 l2 px py).1
            / (degenerate_num_den l0 l2 px py).2) + l2.c
      = (degenerate_num_den l0 l2 px py).1 / (degenerate_num_den l0 l2 px py).2 := by
  have ht := degenerate_quotient l0 l2 px py hunit hon hden
  rw [mul_div_assoc, mul_div_assoc]
  generalize (degenerate_num_den l0 l2 px py).1 / (degenerate_num_den l0 l2 px py).2 = t at ht ⊢
  constructor
  · linear_combination hon + t * hunit
  · linear_combination -ht

/-- C3. Degenerate case: let `l0` be the normalized line of the collinear edge, with
`a0² + b0² = 1`, `l2` that of the non-collinear edge, and `(px, py)` the projection of the
degenerate seed point, lying on `l0`. When the degenerate point constructor returns `(x, y)`,
the degenerate time solver returns `(num, den)` with `den ≠ 0`, and with `t = num/den` the point
is `(px, py) + t*(a0, b0)`, on the perpendicular to `l0` through `(px, py)`; it satisfies
`a0*x + b0*y + c0 = t` and `a2*x + b2*y + c2 = t`, and `t` is the solution of
`t*(1 - a0*a2 - b0*b2) = a2*px + b2*py + c2`. Both branches (`b0 ≠ 0` and `b0 = 0`) are
covered. -/
theorem degenerate_point_on_bisector_and_offset_line (K : Kernel F)
    (st : Seeded_trisegment_2 F) (l0 l2 : Line_2 F) (q p : Point_2 F)
    (h0 : compute_normalized_line_ceoffC2 K st.event.collinear_edge = some l0)
    (h2 : compute_normalized_line_ceoffC2 K st.event.non_collinear_edge = some l2)
    (hq : compute_degenerate_seed_pointC2 K st = .ok (some q))
    (hunit : l0.a ^ 2 + l0.b ^ 2 = 1)
    (hon : l0.a * (K.line_project_pointC2 l0.a l0.b l0.c q.x q.y).1
      + l0.b * (K.line_project_pointC2 l0.a l0.b l0.c q.x q.y).2 + l0.c = 0)
    (hp : construct_degenerate_offset_lines_isecC2 K st = .ok (some p)) :
    ∃ r, compute_degenerate_offset_lines_isec_timeC2 K st = .ok (some r) ∧ r.d ≠ 0 ∧
      p.x = (K.line_project_pointC2 l0.a l0.b l0.c q.x q.y).1 + l0.a * (r.n / r.d) ∧
      p.y = (K.line_project_pointC2 l0.a l0.b l0.c q.x q.y).2 + l0.b * (r.n / r.d) ∧
      l0.a * p.x + l0.b * p.y + l0.c = r.n / r.d ∧
      l2.a * p.x + l2.b * p.y + l2.c = r.n / r.d ∧
      r.n / r.d * (1 - l0.a * l2.a - l0.b * l2.b)
        = l2.a * (K.line_project_pointC2 l0.a l0.b l0.c q.x q.y).1
          + l2.b * (K.line_project_pointC2 l0.a l0.b l0.c q.x q.y).2 + l2.c := by
  rw [construct_degenerate_offset_lines_isecC2_eq_some] at hp
  obtain ⟨l0', l2', q', h0', h2', hq', hp⟩ := hp
  rw [h0] at h0'
  rw [h2] at h2'
  rw [hq] at hq'
  cases h0'
  cases h2'
  cases hq'
  simp only at hp
  obtain ⟨hden, hf2, hf1, -, -, rfl⟩ := hp
  obtain ⟨e0, e2⟩ := degenerate_solution_algebra l0 l2 _ _ hunit hon hden
  refine ⟨⟨_, _⟩, (compute_degenerate_offset_lines_isec_timeC2_eq_some K st _).mpr
    ⟨l0, l2, q, h0, h2, hq, hf1, hf2, rfl⟩, hden, ?_, ?_, e0, e2,
    degenerate_quotient l0 l2 _ _ hunit hon hden⟩
  · simp only [mul_div_assoc]
  · simp only [mul_div_assoc]

/-- The degenerate seed point of the horizontal collinear event is the shared vertex (1,0). -/
theorem collinear_event_horizontal_seed :
    compute_degenerate_seed_pointC2 exact_kernel collinear_event_horizontal
      = .ok (some ⟨1, 0⟩) := by
  rw [compute_degenerate_seed_pointC2]
  simp [compute_seed_pointC2, collinear_event_horizontal, construct_seeded_trisegment_initial,
    Trisegment_2.degenerate_seed_id, compute_oriented_midpoint, squared_distance, midpoint,
    exact_kernel, cgal_make_optional]

/-- The degenerate seed point of the vertical collinear event is the shared vertex (0,1). -/
theorem collinear_event_vertical_seed :
    compute_degenerate_seed_pointC2 exact_kernel collinear_event_vertical
      = .ok (some ⟨0, 1⟩) := by
  rw [compute_degenerate_seed_pointC2]
  simp [compute_seed_pointC2, collinear_event_vertical, construct_seeded_trisegment_initial,
    Trisegment_2.degenerate_seed_id, compute_oriented_midpoint, squared_distance, midpoint,
    exact_kernel, cgal_make_optional]

/-- The two lines of the horizontal collinear event. -/
theorem collinear_event_horizontal_lines :
    compute_normalized_line_ceoffC2 exact_kernel collinear_event_horizontal.event.collinear_edge
      = some ⟨0, 1, 0⟩ ∧
    compute_normalized_line_ceoffC2 exact_kernel
      collinear_event_horizontal.event.non_collinear_edge = some ⟨-1, 0, 2⟩ := by
  constructor <;>
    simp [compute_normalized_line_ceoffC2, normalized_line_locals, exact_kernel,
      cgal_make_optional, collinear_event_horizontal, construct_seeded_trisegment_initial,
      Trisegment_2.collinear_edge, Trisegment_2.non_collinear_edge]

/-- The two lines of the vertical collinear event. -/
theorem collinear_event_vertical_lines :
    compute_normalized_line_ceoffC2 exact_kernel collinear_event_vertical.event.collinear_edge
      = some ⟨-1, 0, 0⟩ ∧
    compute_normalized_line_ceoffC2 exact_kernel
      collinear_event_vertical.event.non_collinear_edge = some ⟨0, 1, -2⟩ := by
  constructor <;>
    simp [compute_normalized_line_ceoffC2, normalized_line_locals, exact_kernel,
      cgal_make_optional, collinear_event_vertical, construct_seeded_trisegment_initial,
      Trisegment_2.collinear_edge, Trisegment_2.non_collinear_edge]

/-- The event point of the horizontal collinear event is (1,1). -/
theorem collinear_event_horizontal_point :
    construct_degenerate_offset_lines_isecC2 exact_kernel collinear_event_horizontal
      = .ok (some ⟨1, 1⟩) := by
  rw [construct_degenerate_offset_lines_isecC2_eq_some]
  refine ⟨_, _, _, collinear_event_horizontal_lines.1, collinear_event_horizontal_lines.2,
    collinear_event_horizontal_seed, ?_⟩
  norm_num [degenerate_num_den, is_zero, exact_kernel, orthogonal_projection]

/-- The event point of the vertical collinear event is (1,1). -/
theorem collinear_event_vertical_point :
    construct_degenerate_offset_lines_isecC2 exact_kernel collinear_event_vertical
      = .ok (some ⟨1, 1⟩) := by
  rw [construct_degenerate_offset_lines_isecC2_eq_some]
  refine ⟨_, _, _, collinear_event_vertical_lines.1, collinear_event_vertical_lines.2,
    collinear_event_vertical_seed, ?_⟩
  norm_num [degenerate_num_den, is_zero, exact_kernel, orthogonal_projection]

/-- Witness of C3: the horizontal collinear event (branch `b0 ≠ 0`, time 1) and the vertical
collinear event (branch `b0 = 0`, time -1), both with event point (1,1). -/
theorem degenerate_point_on_bisector_and_offset_line_witness :
    (construct_degenerate_offset_lines_isecC2 exact_kernel collinear_event_horizontal
        = .ok (some ⟨1, 1⟩) ∧
      ∃ r, compute_degenerate_offset_lines_isec_timeC2 exact_kernel collinear_event_horizontal
          = .ok (some r) ∧ r.d ≠ 0 ∧
        (0 : ℚ) * 1 + 1 * 1 + 0 = r.n / r.d ∧ (-1 : ℚ) * 1 + 0 * 1 + 2 = r.n / r.d) ∧
    (construct_degenerate_offset_lines_isecC2 exact_kernel collinear_event_vertical
        = .ok (some ⟨1, 1⟩) ∧
      ∃ r, compute_degenerate_offset_lines_isec_timeC2 exact_kernel collinear_event_vertical
          = .ok (some r) ∧ r.d ≠ 0 ∧
        (-1 : ℚ) * 1 + 0 * 1 + 0 = r.n / r.d ∧ (0 : ℚ) * 1 + 1 * 1 + -2 = r.n / r.d) := by
  refine ⟨⟨collinear_event_horizontal_point, ?_⟩, ⟨collinear_event_vertical_point, ?_⟩⟩
  · obtain ⟨r, hr, hd, -, -, e0, e2, -⟩ :=
      degenerate_point_on_bisector_and_offset_line exact_kernel collinear_event_horizontal
        ⟨0, 1, 0⟩ ⟨-1, 0, 2⟩ ⟨1, 0⟩ ⟨1, 1⟩ collinear_event_horizontal_lines.1
        collinear_event_horizontal_lines.2 collinear_event_horizontal_seed (by norm_num)
        (by norm_num [exact_kernel, orthogonal_projection]) collinear_event_horizontal_point
    exact ⟨r, hr, hd, e0, e2⟩
  · obtain ⟨r, hr, hd, -, -, e0, e2, -⟩ :=
      degenerate_point_on_bisector_and_offset_line exact_kernel collinear_event_vertical
        ⟨-1, 0, 0⟩ ⟨0, 1, -2⟩ ⟨0, 1⟩ ⟨1, 1⟩ collinear_event_vertical_lines.1
        collinear_event_vertical_lines.2 collinear_event_vertical_seed (by norm_num)
        (by norm_num [exact_kernel, orthogonal_projection]) collinear_event_vertical_point
    exact ⟨r, hr, hd, e0, e2⟩

/-! ## The concrete scenario -/

/-- The normalized lines of the three sides of the square. -/
theorem square_event_lines (K : Kernel F) (hfin : ∀ x, K.is_finite x = true) :
    compute_normalized_line_ceoffC2 K (square_event F).e0 = some ⟨0, 1, 0⟩ ∧
    compute_normalized_line_ceoffC2 K (square_event F).e1 = some ⟨-1, 0, 10⟩ ∧
    compute_normalized_line_ceoffC2 K (square_event F).e2 = some ⟨0, -1, 10⟩ := by
  refine ⟨?_, ?_, ?_⟩ <;>
    norm_num [compute_normalized_line_ceoffC2, normalized_line_locals, cgal_make_optional,
      square_event, hfin]

/-- The normal point constructor on the square: the point (5,5). -/
theorem square_event_normal_point (K : Kernel F) (hfin : ∀ x, K.is_finite x = true) :
    construct_normal_offset_lines_isecC2 K (construct_seeded_trisegment_initial (square_event F))
      = some ⟨5, 5⟩ := by
  obtain ⟨h0, h1, h2⟩ := square_event_lines K hfin
  rw [construct_normal_offset_lines_isecC2_eq_some]
  refine ⟨_, _, _, h0, h1, h2, ?_, hfin _, hfin _, hfin _, ?_⟩
  · norm_num
  · norm_num

/-- The normal time solver on the square: the pair (10, 2). -/
theorem square_event_normal_time (K : Kernel F) (hfin : ∀ x, K.is_finite x = true) :
    compute_normal_offset_lines_isec_timeC2 K
      (construct_seeded_trisegment_initial (square_event F)) = some ⟨10, 2⟩ := by
  obtain ⟨h0, h1, h2⟩ := square_event_lines K hfin
  rw [compute_normal_offset_lines_isec_timeC2_eq_some]
  refine ⟨_, _, _, h0, h1, h2, hfin _, hfin _, ?_⟩
  norm_num

/-- Witness of C1: the square of side 10 in the rational kernel, with event point (5,5). -/
theorem normal_point_on_offset_lines_witness :
    construct_normal_offset_lines_isecC2 exact_kernel
        (construct_seeded_trisegment_initial (square_event ℚ)) = some ⟨5, 5⟩ ∧
    ∃ r l0 l1 l2, compute_normal_offset_lines_isec_timeC2 exact_kernel
        (construct_seeded_trisegment_initial (square_event ℚ)) = some r ∧ r.d ≠ 0 ∧
      compute_normalized_line_ceoffC2 exact_kernel (square_event ℚ).e0 = some l0 ∧
      compute_normalized_line_ceoffC2 exact_kernel (square_event ℚ).e1 = some l1 ∧
      compute_normalized_line_ceoffC2 exact_kernel (square_event ℚ).e2 = some l2 ∧
      l0.a * 5 + l0.b * 5 + l0.c = r.n / r.d ∧
      l1.a * 5 + l1.b * 5 + l1.c = r.n / r.d ∧
      l2.a * 5 + l2.b * 5 + l2.c = r.n / r.d ∧
      |l0.a * 5 + l0.b * 5 + l0.c| = |r.n / r.d| ∧
      |l1.a * 5 + l1.b * 5 + l1.c| = |r.n / r.d| ∧
      |l2.a * 5 + l2.b * 5 + l2.c| = |r.n / r.d| :=
  ⟨square_event_normal_point exact_kernel (fun _ => rfl),
   normal_point_on_offset_lines exact_kernel (fun _ => rfl)
     (construct_seeded_trisegment_initial (square_event ℚ)) ⟨5, 5⟩
     (square_event_normal_point exact_kernel (fun _ => rfl))⟩

/-- C4. The concrete scenario: for the initial event on the sides (0,0)→(10,0), (10,0)→(10,10),
(10,10)→(0,10) of the square, with collinearity NONE and every value finite,
`compute_offset_lines_isec_timeC2` returns the pair (10, 2), of positive value 5, and
`construct_offset_lines_isecC2` returns the point (5,5), strictly inside the square, at which
`a*x + b*y + c` equals the time for each of the three normalized lines. -/
theorem square_event_time_and_point (K : Kernel F) (hfin : ∀ x, K.is_finite x = true) :
    ∃ r p l0 l1 l2,
      compute_offset_lines_isec_timeC2 K (construct_seeded_trisegment_initial (square_event F))
        = .ok (some r) ∧
      r = ⟨10, 2⟩ ∧ 0 < r.n / r.d ∧ r.n / r.d = 5 ∧
      construct_offset_lines_isecC2 K (construct_seeded_trisegment_initial (square_event F))
        = .ok (some p) ∧
      p = ⟨5, 5⟩ ∧ 0 < p.x ∧ p.x < 10 ∧ 0 < p.y ∧ p.y < 10 ∧
      compute_normalized_line_ceoffC2 K (square_event F).e0 = some l0 ∧
      compute_normalized_line_ceoffC2 K (square_event F).e1 = some l1 ∧
      compute_normalized_line_ceoffC2 K (square_event F).e2 = some l2 ∧
      l0.a * p.x + l0.b * p.y + l0.c = r.n / r.d ∧
      l1.a * p.x + l1.b * p.y + l1.c = r.n / r.d ∧
      l2.a * p.x + l2.b * p.y + l2.c = r.n / r.d := by
  obtain ⟨h0, h1, h2⟩ := square_event_lines K hfin
  refine ⟨⟨10, 2⟩, ⟨5, 5⟩, _, _, _, ?_, rfl, ?_, ?_, ?_, rfl, ?_, ?_, ?_, ?_, h0, h1, h2,
    ?_, ?_, ?_⟩
  · rw [compute_offset_lines_isec_timeC2, ← square_event_normal_time K hfin]
    simp [construct_seeded_trisegment_initial, square_event]
  · norm_num
  · norm_num
  · rw [construct_offset_lines_isecC2, ← square_event_normal_point K hfin]
    simp [construct_seeded_trisegment_initial, square_event]
  · norm_num
  · norm_num
  · norm_num
  · norm_num
  · norm_num
  · norm_num
  · norm_num

/-- Witness of C4: the scenario in the rational kernel. -/
theorem square_event_time_and_point_witness :
    compute_offset_lines_isec_timeC2 exact_kernel
        (construct_seeded_trisegment_initial (square_event ℚ)) = .ok (some ⟨10, 2⟩) ∧
    construct_offset_lines_isecC2 exact_kernel
        (construct_seeded_trisegment_initial (square_event ℚ)) = .ok (some ⟨5, 5⟩) := by
  obtain ⟨r, p, -, -, -, hr, rfl, -, -, hp, rfl, -⟩ :=
    square_event_time_and_point exact_kernel (fun _ => rfl)
  exact ⟨hr, hp⟩

/-! ## Dispatch and precondition -/

/-- C5. Dispatch: when the collinearity is not ALL, `compute_offset_lines_isec_timeC2` is the
normal time solver for NONE and the degenerate time solver for each of E0E1, E1E2, E0E2, and
`construct_offset_lines_isecC2` is the normal point constructor for NONE and the degenerate
point constructor for each of E0E1, E1E2, E0E2. -/
theorem offset_lines_dispatch (K : Kernel F) (st : Seeded_trisegment_2 F)
    (hall : st.event.collinearity ≠ .ALL) :
    (st.event.collinearity = .NONE →
      compute_offset_lines_isec_timeC2 K st
        = .ok (compute_normal_offset_lines_isec_timeC2 K st) ∧
      construct_offset_lines_isecC2 K st
        = .ok (construct_normal_offset_lines_isecC2 K st)) ∧
    (st.event.collinearity ≠ .NONE →
      (st.event.collinearity = .E0E1 ∨ st.event.collinearity = .E1E2
        ∨ st.event.collinearity = .E0E2) ∧
      compute_offset_lines_isec_timeC2 K st
        = compute_degenerate_offset_lines_isec_timeC2 K st ∧
      construct_offset_lines_isecC2 K st
        = construct_degenerate_offset_lines_isecC2 K st) := by
  constructor
  · intro hn
    rw [compute_offset_lines_isec_timeC2, construct_offset_lines_isecC2]
    simp [hn]
  · intro hn
    refine ⟨?_, ?_, ?_⟩
    · cases hc : st.event.collinearity <;> simp_all
    · rw [compute_offset_lines_isec_timeC2]
      simp [hn, hall]
    · rw [construct_offset_lines_isecC2]
      simp [hn, hall]

/-- Witness of C5: the square (NONE) and the horizontal collinear event (E0E1). -/
theorem offset_lines_dispatch_witness :
    (compute_offset_lines_isec_timeC2 exact_kernel
        (construct_seeded_trisegment_initial (square_event ℚ))
      = .ok (compute_normal_offset_lines_isec_timeC2 exact_kernel
        (construct_seeded_trisegment_initial (square_event ℚ))) ∧
     construct_offset_lines_isecC2 exact_kernel
        (construct_seeded_trisegment_initial (square_event ℚ))
      = .ok (construct_normal_offset_lines_isecC2 exact_kernel
        (construct_seeded_trisegment_initial (square_event ℚ)))) ∧
    (compute_offset_lines_isec_timeC2 exact_kernel collinear_event_horizontal
      = compute_degenerate_offset_lines_isec_timeC2 exact_kernel collinear_event_horizontal ∧
     construct_offset_lines_isecC2 exact_kernel collinear_event_horizontal
      = construct_degenerate_offset_lines_isecC2 exact_kernel collinear_event_horizontal) :=
  ⟨(offset_lines_dispatch exact_kernel (construct_seeded_trisegment_initial (square_event ℚ))
      (by decide)).1 rfl,
   ((offset_lines_dispatch exact_kernel collinear_event_horizontal (by decide)).2
      (by decide)).2⟩

/-- C6. Precondition violation: when the collinearity is ALL, both
`compute_offset_lines_isec_timeC2` and `construct_offset_lines_isecC2` fail their precondition,
an outcome distinct from every returned value, present or absent. -/
theorem offset_lines_precondition (K : Kernel F) (st : Seeded_trisegment_2 F)
    (hall : st.event.collinearity = .ALL) :
    compute_offset_lines_isec_timeC2 K st = .error .precondition_violation ∧
    construct_offset_lines_isecC2 K st = .error .precondition_violation ∧
    (∀ r, compute_offset_lines_isec_timeC2 K st ≠ .ok r) ∧
    (∀ p, construct_offset_lines_isecC2 K st ≠ .ok p) := by
  have ht : compute_offset_lines_isec_timeC2 K st = .error .precondition_violation := by
    rw [compute_offset_lines_isec_timeC2]
    simp [hall]
  have hp : construct_offset_lines_isecC2 K st = .error .precondition_violation := by
    rw [construct_offset_lines_isecC2]
    simp [hall]
  refine ⟨ht, hp, ?_, ?_⟩
  · intro r h
    rw [ht] at h
    cases h
  · intro p h
    rw [hp] at h
    cases h

/-- Witness of C6: three edges on the x-axis, tagged ALL. -/
theorem offset_lines_precondition_witness :
    compute_offset_lines_isec_timeC2 exact_kernel all_collinear_event
      = .error .precondition_violation ∧
    construct_offset_lines_isecC2 exact_kernel all_collinear_event
      = .error .precondition_violation :=
  ⟨(offset_lines_precondition exact_kernel all_collinear_event rfl).1,
   (offset_lines_precondition exact_kernel all_collinear_event rfl).2.1⟩

/-! ## Presence of the time and of the point -/

/-- Counterexample to C2. In the exact rational kernel, for the parallel edges on y = 0 and
y = 1 with a vertical third edge (collinearity NONE), the time is present, the pair (1, 0),
while the point is absent. In the overflowing kernel, for the lines y = -6, x = 6 and y = 6
(collinearity NONE), the time is absent, its numerator 12 not being finite, while the point
(0,0) is present. -/
theorem parallel_event_time_without_point :
    (parallel_event.event.collinearity ≠ .ALL ∧
      compute_offset_lines_isec_timeC2 exact_kernel parallel_event = .ok (some ⟨1, 0⟩) ∧
      construct_offset_lines_isecC2 exact_kernel parallel_event = .ok none) ∧
    (wide_event.event.collinearity ≠ .ALL ∧
      compute_offset_lines_isec_timeC2 bounded_kernel wide_event = .ok none ∧
      construct_offset_lines_isecC2 bounded_kernel wide_event = .ok (some ⟨0, 0⟩)) := by
  refine ⟨⟨by decide, ?_, ?_⟩, ⟨by decide, ?_, ?_⟩⟩
  · rw [compute_offset_lines_isec_timeC2]
    simp [parallel_event, construct_seeded_trisegment_initial,
      compute_normal_offset_lines_isec_timeC2, compute_normalized_line_ceoffC2,
      normalized_line_locals, cgal_make_optional, exact_kernel]
  · rw [construct_offset_lines_isecC2]
    simp [parallel_event, construct_seeded_trisegment_initial,
      construct_normal_offset_lines_isecC2, compute_normalized_line_ceoffC2,
      normalized_line_locals, cgal_make_optional, exact_kernel, certified_is_zero]
  · rw [compute_offset_lines_isec_timeC2]
    simp only [wide_event, construct_seeded_trisegment_initial, reduceCtorEq, if_false, if_true]
    norm_num [compute_normal_offset_lines_isec_timeC2, compute_normalized_line_ceoffC2,
      normalized_line_locals, cgal_make_optional, bounded_kernel, abs_le]
  · rw [construct_offset_lines_isecC2]
    simp only [wide_event, construct_seeded_trisegment_initial, reduceCtorEq, if_false, if_true]
    norm_num [construct_normal_offset_lines_isecC2, compute_normalized_line_ceoffC2,
      normalized_line_locals, cgal_make_optional, bounded_kernel, certified_is_zero, abs_le]

/-- The denominator of the normal time solver is the negation of the common denominator of the
normal point constructor. -/
theorem normal_time_den_eq_neg (l0 l1 l2 : Line_2 F) :
    (-l2.a * l1.b) + (l2.a * l0.b) + (l2.b * l1.a) - (l2.b * l0.a) + (l1.b * l0.a)
        - (l0.b * l1.a)
      = -(l0.a * l2.b - l0.a * l1.b - l1.a * l2.b + l2.a * l1.b + l0.b * l1.a - l0.b * l2.a) := by
  ring

/-- C2, amended. In exact arithmetic (every value finite), for a seeded trisegment with
collinearity ≠ ALL: `construct_offset_lines_isecC2` returns a point exactly when
`compute_offset_lines_isec_timeC2` returns a pair with a non-zero denominator; and the one
fails a precondition (that of a seed) exactly when the other does. -/
theorem time_and_point_presence (K : Kernel F) (hfin : ∀ x, K.is_finite x = true)
    (st : Seeded_trisegment_2 F) (hall : st.event.collinearity ≠ .ALL) :
    (∀ f, compute_offset_lines_isec_timeC2 K st = .error f ↔
      construct_offset_lines_isecC2 K st = .error f) ∧
    ((∃ p, construct_offset_lines_isecC2 K st = .ok (some p)) ↔
      ∃ r, compute_offset_lines_isec_timeC2 K st = .ok (some r) ∧ r.d ≠ 0) := by
  by_cases hn : st.event.collinearity = .NONE
  · have ht : compute_offset_lines_isec_timeC2 K st
        = .ok (compute_normal_offset_lines_isec_timeC2 K st) := by
      rw [compute_offset_lines_isec_timeC2]
      simp [hn]
    have hp : construct_offset_lines_isecC2 K st
        = .ok (construct_normal_offset_lines_isecC2 K st) := by
      rw [construct_offset_lines_isecC2]
      simp [hn]
    rw [ht, hp]
    refine ⟨fun f => by simp, ?_⟩
    simp only [Except.ok.injEq]
    constructor
    · rintro ⟨p, h⟩
      rw [construct_normal_offset_lines_isecC2_eq_some] at h
      obtain ⟨l0, l1, l2, h0, h1, h2, hden, -, -, -, -⟩ := h
      refine ⟨_, (compute_normal_offset_lines_isec_timeC2_eq_some K st _).mpr
        ⟨l0, l1, l2, h0, h1, h2, hfin _, hfin _, rfl⟩, ?_⟩
      simp only
      rw [normal_time_den_eq_neg]
      exact neg_ne_zero.mpr hden
    · rintro ⟨r, h, hd⟩
      rw [compute_normal_offset_lines_isec_timeC2_eq_some] at h
      obtain ⟨l0, l1, l2, h0, h1, h2, -, -, rfl⟩ := h
      simp only at hd
      rw [normal_time_den_eq_neg] at hd
      exact ⟨_, (construct_normal_offset_lines_isecC2_eq_some K st _).mpr
        ⟨l0, l1, l2, h0, h1, h2, neg_ne_zero.mp hd, hfin _, hfin _, hfin _, rfl⟩⟩
  · have ht : compute_offset_lines_isec_timeC2 K st
        = compute_degenerate_offset_lines_isec_timeC2 K st := by
      rw [compute_offset_lines_isec_timeC2]
      simp [hn, hall]
    have hp : construct_offset_lines_isecC2 K st
        = construct_degenerate_offset_lines_isecC2 K st := by
      rw [construct_offset_lines_isecC2]
      simp [hn, hall]
    rw [ht, hp]
    constructor
    · intro f
      rw [compute_degenerate_offset_lines_isec_timeC2_eq_error,
        construct_degenerate_offset_lines_isecC2_eq_error]
    · constructor
      · rintro ⟨p, h⟩
        rw [construct_degenerate_offset_lines_isecC2_eq_some] at h
        obtain ⟨l0, l2, q, h0, h2, hq, h⟩ := h
        simp only at h
        obtain ⟨hd, hf2, hf1, -, -, -⟩ := h
        exact ⟨_, (compute_degenerate_offset_lines_isec_timeC2_eq_some K st _).mpr
          ⟨l0, l2, q, h0, h2, hq, hf1, hf2, rfl⟩, hd⟩
      · rintro ⟨r, h, hd⟩
        rw [compute_degenerate_offset_lines_isec_timeC2_eq_some] at h
        obtain ⟨l0, l2, q, h0, h2, hq, h⟩ := h
        simp only at h
        obtain ⟨hf1, hf2, rfl⟩ := h
        exact ⟨_, (construct_degenerate_offset_lines_isecC2_eq_some K st _).mpr
          ⟨l0, l2, q, h0, h2, hq, hd, hf2, hf1, hfin _, hfin _, rfl⟩⟩

/-- Witness of the amended C2: on the square both the point and a time with non-zero
denominator are present; on the parallel event neither is. -/
theorem time_and_point_presence_witness :
    ((∃ p, construct_offset_lines_isecC2 exact_kernel
        (construct_seeded_trisegment_initial (square_event ℚ)) = .ok (some p)) ↔
      ∃ r, compute_offset_lines_isec_timeC2 exact_kernel
        (construct_seeded_trisegment_initial (square_event ℚ)) = .ok (some r) ∧ r.d ≠ 0) ∧
    ((∃ p, construct_offset_lines_isecC2 exact_kernel parallel_event = .ok (some p)) ↔
      ∃ r, compute_offset_lines_isec_timeC2 exact_kernel parallel_event = .ok (some r)
        ∧ r.d ≠ 0) :=
  ⟨(time_and_point_presence exact_kernel (fun _ => rfl)
      (construct_seeded_trisegment_initial (square_event ℚ)) (by decide)).2,
   (time_and_point_presence exact_kernel (fun _ => rfl) parallel_event (by decide)).2⟩

/-! ## Failure of the normalizer and of the normal solvers -/

/-- The branch of the normalizer fails exactly in the general case with a squared length that
is not finite. -/
theorem normalized_line_locals_fst_eq_false (K : Kernel F) (e : Segment_2 F) :
    (normalized_line_locals K e).1 = false ↔
      e.source.y ≠ e.target.y ∧ e.target.x ≠ e.source.x ∧
        K.is_finite ((e.source.y - e.target.y) * (e.source.y - e.target.y)
          + (e.target.x - e.source.x) * (e.target.x - e.source.x)) = false := by
  unfold normalized_line_locals
  simp only
  split_ifs with hy hx1 hx2 hx3 hy1 hy2 hfin <;> simp_all

/-- C11. Normalizer failure: for every finiteness predicate, `compute_normalized_line_ceoffC2`
returns the empty optional exactly when the segment is neither horizontal nor vertical and the
squared length `l2 = sa*sa + sb*sb` is not finite, or one of the computed `a`, `b`, `c` is not
finite; in the general branch with `l2` finite these are `sa/l`, `sb/l` and
`-sx*a - sy*b` with `l` the square root of `l2`. Consequently every returned line has finite
`a`, `b` and `c`. -/
theorem compute_normalized_line_ceoffC2_eq_none_iff (K : Kernel F) (e : Segment_2 F) :
    (compute_normalized_line_ceoffC2 K e = none ↔
      (e.source.y ≠ e.target.y ∧ e.target.x ≠ e.source.x ∧
        K.is_finite ((e.source.y - e.target.y) * (e.source.y - e.target.y)
          + (e.target.x - e.source.x) * (e.target.x - e.source.x)) = false) ∨
      K.is_finite (normalized_line_locals K e).2.a = false ∨
      K.is_finite (normalized_line_locals K e).2.b = false ∨
      K.is_finite (normalized_line_locals K e).2.c = false) ∧
    (e.source.y ≠ e.target.y → e.target.x ≠ e.source.x →
      K.is_finite ((e.source.y - e.target.y) * (e.source.y - e.target.y)
          + (e.target.x - e.source.x) * (e.target.x - e.source.x)) = true →
      (normalized_line_locals K e).2 =
        ⟨(e.source.y - e.target.y) / K.inexact_sqrt ((e.source.y - e.target.y)
            * (e.source.y - e.target.y) + (e.target.x - e.source.x) * (e.target.x - e.source.x)),
         (e.target.x - e.source.x) / K.inexact_sqrt ((e.source.y - e.target.y)
            * (e.source.y - e.target.y) + (e.target.x - e.source.x) * (e.target.x - e.source.x)),
         -e.source.x * ((e.source.y - e.target.y) / K.inexact_sqrt ((e.source.y - e.target.y)
            * (e.source.y - e.target.y) + (e.target.x - e.source.x) * (e.target.x - e.source.x)))
          - e.source.y * ((e.target.x - e.source.x) / K.inexact_sqrt ((e.source.y - e.target.y)
            * (e.source.y - e.target.y)
            + (e.target.x - e.source.x) * (e.target.x - e.source.x)))⟩) ∧
    (∀ l, compute_normalized_line_ceoffC2 K e = some l →
      K.is_finite l.a = true ∧ K.is_finite l.b = true ∧ K.is_finite l.c = true) := by
  refine ⟨?_, ?_, ?_⟩
  · rw [← normalized_line_locals_fst_eq_false]
    unfold compute_normalized_line_ceoffC2 cgal_make_optional
    cases h1 : (normalized_line_locals K e).1 <;>
      cases ha : K.is_finite (normalized_line_locals K e).2.a <;>
      cases hb : K.is_finite (normalized_line_locals K e).2.b <;>
      cases hc : K.is_finite (normalized_line_locals K e).2.c <;> simp [h1, ha, hb, hc]
  · intro hy hx hf
    unfold normalized_line_locals
    simp [hy, hx, hf]
  · intro l hl
    rw [compute_normalized_line_ceoffC2_eq_some] at hl
    exact ⟨hl.2.1, hl.2.2.1, hl.2.2.2.1⟩

/-- C12. Normal time presence: `compute_normal_offset_lines_isec_timeC2` returns a pair exactly
when the three normalized lines exist and the numerator and the denominator of the closed form
are finite; the pair returned is that numerator and that denominator, sums of products of line
coefficients with no division; and a pair whose denominator is 0 is returned as well. -/
theorem compute_normal_offset_lines_isec_timeC2_present_iff (K : Kernel F)
    (st : Seeded_trisegment_2 F) :
    ((∃ r, compute_normal_offset_lines_isec_timeC2 K st = some r) ↔
      ∃ l0 l1 l2, compute_normalized_line_ceoffC2 K st.event.e0 = some l0 ∧
        compute_normalized_line_ceoffC2 K st.event.e1 = some l1 ∧
        compute_normalized_line_ceoffC2 K st.event.e2 = some l2 ∧
        K.is_finite ((l2.a * l0.b * l1.c) - (l2.a * l1.b * l0.c) - (l2.b * l0.a * l1.c)
          + (l2.b * l1.a * l0.c) + (l1.b * l0.a * l2.c) - (l0.b * l1.a * l2.c)) = true ∧
        K.is_finite ((-l2.a * l1.b) + (l2.a * l0.b) + (l2.b * l1.a) - (l2.b * l0.a)
          + (l1.b * l0.a) - (l0.b * l1.a)) = true) ∧
    (∀ r, compute_normal_offset_lines_isec_timeC2 K st = some r →
      ∃ l0 l1 l2, compute_normalized_line_ceoffC2 K st.event.e0 = some l0 ∧
        compute_normalized_line_ceoffC2 K st.event.e1 = some l1 ∧
        compute_normalized_line_ceoffC2 K st.event.e2 = some l2 ∧
        r.n = (l2.a * l0.b * l1.c) - (l2.a * l1.b * l0.c) - (l2.b * l0.a * l1.c)
          + (l2.b * l1.a * l0.c) + (l1.b * l0.a * l2.c) - (l0.b * l1.a * l2.c) ∧
        r.d = (-l2.a * l1.b) + (l2.a * l0.b) + (l2.b * l1.a) - (l2.b * l0.a)
          + (l1.b * l0.a) - (l0.b * l1.a)) ∧
    (∀ l0 l1 l2, compute_normalized_line_ceoffC2 K st.event.e0 = some l0 →
      compute_normalized_line_ceoffC2 K st.event.e1 = some l1 →
      compute_normalized_line_ceoffC2 K st.event.e2 = some l2 →
      (-l2.a * l1.b) + (l2.a * l0.b) + (l2.b * l1.a) - (l2.b * l0.a)
          + (l1.b * l0.a) - (l0.b * l1.a) = 0 →
      K.is_finite ((l2.a * l0.b * l1.c) - (l2.a * l1.b * l0.c) - (l2.b * l0.a * l1.c)
          + (l2.b * l1.a * l0.c) + (l1.b * l0.a * l2.c) - (l0.b * l1.a * l2.c)) = true →
      K.is_finite 0 = true →
      compute_normal_offset_lines_isec_timeC2 K st =
        some ⟨(l2.a * l0.b * l1.c) - (l2.a * l1.b * l0.c) - (l2.b * l0.a * l1.c)
          + (l2.b * l1.a * l0.c) + (l1.b * l0.a * l2.c) - (l0.b * l1.a * l2.c), 0⟩) := by
  refine ⟨⟨?_, ?_⟩, ?_, ?_⟩
  · rintro ⟨r, h⟩
    rw [compute_normal_offset_lines_isec_timeC2_eq_some] at h
    obtain ⟨l0, l1, l2, h0, h1, h2, hn, hd, -⟩ := h
    exact ⟨l0, l1, l2, h0, h1, h2, hn, hd⟩
  · rintro ⟨l0, l1, l2, h0, h1, h2, hn, hd⟩
    exact ⟨_, (compute_normal_offset_lines_isec_timeC2_eq_some K st _).mpr
      ⟨l0, l1, l2, h0, h1, h2, hn, hd, rfl⟩⟩
  · intro r h
    rw [compute_normal_offset_lines_isec_timeC2_eq_some] at h
    obtain ⟨l0, l1, l2, h0, h1, h2, -, -, rfl⟩ := h
    exact ⟨l0, l1, l2, h0, h1, h2, rfl, rfl⟩
  · intro l0 l1 l2 h0 h1 h2 hz hn hd
    rw [compute_normal_offset_lines_isec_timeC2_eq_some]
    refine ⟨l0, l1, l2, h0, h1, h2, hn, ?_, ?_⟩
    · rw [hz]
      exact hd
    · rw [hz]

/-- The normalized lines of the three edges of the parallel event. -/
theorem parallel_event_lines :
    compute_normalized_line_ceoffC2 exact_kernel parallel_event.event.e0 = some ⟨0, 1, 0⟩ ∧
    compute_normalized_line_ceoffC2 exact_kernel parallel_event.event.e1 = some ⟨0, 1, -1⟩ ∧
    compute_normalized_line_ceoffC2 exact_kernel parallel_event.event.e2 = some ⟨-1, 0, 0⟩ := by
  refine ⟨?_, ?_, ?_⟩ <;>
    simp [compute_normalized_line_ceoffC2, normalized_line_locals, exact_kernel,
      cgal_make_optional, parallel_event, construct_seeded_trisegment_initial]

/-- Witness of C12: the parallel event, whose time is the pair (1, 0). -/
theorem compute_normal_offset_lines_isec_timeC2_present_iff_witness :
    compute_normal_offset_lines_isec_timeC2 exact_kernel parallel_event = some ⟨1, 0⟩ := by
  have h := (compute_normal_offset_lines_isec_timeC2_present_iff exact_kernel
    parallel_event).2.2 ⟨0, 1, 0⟩ ⟨0, 1, -1⟩ ⟨-1, 0, 0⟩ parallel_event_lines.1
    parallel_event_lines.2.1 parallel_event_lines.2.2 (by norm_num) rfl rfl
  norm_num at h
  exact h

/-- The inexact square root of the rational kernels is exact at 1. -/
theorem rat_sqrt_1 : rat_sqrt 1 = 1 := by
  have h0 : (1 : ℚ).num = 1 := by norm_num
  have h1 : (1 : ℚ).num.toNat = 1 := by rw [h0]; rfl
  have h2 : (1 : ℚ).den = 1 := by norm_num
  have h4 : Nat.sqrt 1 = 1 := by norm_num [Nat.sqrt, Nat.sqrt.iter]
  unfold rat_sqrt
  rw [h1, h2, h4]
  norm_num

/-- The normalized lines of the far event in the bounded kernel. -/
theorem far_event_lines :
    compute_normalized_line_ceoffC2 bounded_kernel far_event.event.e0 = some ⟨0, 1, 0⟩ ∧
    compute_normalized_line_ceoffC2 bounded_kernel far_event.event.e1
      = some ⟨-4 / 5, 3 / 5, -10⟩ ∧
    compute_normalized_line_ceoffC2 bounded_kernel far_event.event.e2
      = some ⟨4 / 5, 3 / 5, 10⟩ := by
  refine ⟨?_, ?_, ?_⟩
  · norm_num [compute_normalized_line_ceoffC2, normalized_line_locals, bounded_kernel,
      cgal_make_optional, far_event, construct_seeded_trisegment_initial]
  · simp only [compute_normalized_line_ceoffC2, normalized_line_locals, bounded_kernel,
      cgal_make_optional, far_event, construct_seeded_trisegment_initial]
    norm_num
    rw [rat_sqrt_1]
    norm_num [abs_le]
  · simp only [compute_normalized_line_ceoffC2, normalized_line_locals, bounded_kernel,
      cgal_make_optional, far_event, construct_seeded_trisegment_initial]
    norm_num
    rw [rat_sqrt_1]
    norm_num [abs_le]

/-- C13, failing input. In the kernel whose finite values are those of absolute value at most
10, the normal point constructor returns for the far event the point (-25/2, 0): the common
denominator -16/25 and the numerators 8 and 0 are finite, the coordinate -25/2 is not. -/
theorem far_event_point_not_finite :
    construct_normal_offset_lines_isecC2 bounded_kernel far_event = some ⟨-25 / 2, 0⟩ ∧
    bounded_kernel.is_finite (-25 / 2) = false := by
  constructor
  · rw [construct_normal_offset_lines_isecC2_eq_some]
    refine ⟨_, _, _, far_event_lines.1, far_event_lines.2.1, far_event_lines.2.2, ?_, ?_, ?_,
      ?_, ?_⟩ <;> norm_num [bounded_kernel, abs_le]
  · norm_num [bounded_kernel, abs_le]

/-! ## Presence and formula of the degenerate solvers -/

/-- C14. Degenerate time presence: for a seeded trisegment with exactly one collinear pair,
`compute_degenerate_offset_lines_isec_timeC2` returns a pair exactly when the normalized line
of the collinear edge, that of the non-collinear edge and the degenerate seed point are present
and `num` and `den` are finite; a `den` equal to 0 is returned as any other. -/
theorem compute_degenerate_offset_lines_isec_timeC2_present_iff (K : Kernel F)
    (st : Seeded_trisegment_2 F)
    (hpair : st.event.collinearity = .E0E1 ∨ st.event.collinearity = .E1E2
      ∨ st.event.collinearity = .E0E2) :
    ((∃ r, compute_degenerate_offset_lines_isec_timeC2 K st = .ok (some r)) ↔
      ∃ l0 l2 q, compute_normalized_line_ceoffC2 K st.event.collinear_edge = some l0 ∧
        compute_normalized_line_ceoffC2 K st.event.non_collinear_edge = some l2 ∧
        compute_degenerate_seed_pointC2 K st = .ok (some q) ∧
        K.is_finite (degenerate_num_den l0 l2
          (K.line_project_pointC2 l0.a l0.b l0.c q.x q.y).1
          (K.line_project_pointC2 l0.a l0.b l0.c q.x q.y).2).1 = true ∧
        K.is_finite (degenerate_num_den l0 l2
          (K.line_project_pointC2 l0.a l0.b l0.c q.x q.y).1
          (K.line_project_pointC2 l0.a l0.b l0.c q.x q.y).2).2 = true) ∧
    (∀ l0 l2 q, compute_normalized_line_ceoffC2 K st.event.collinear_edge = some l0 →
      compute_normalized_line_ceoffC2 K st.event.non_collinear_edge = some l2 →
      compute_degenerate_seed_pointC2 K st = .ok (some q) →
      (degenerate_num_den l0 l2
          (K.line_project_pointC2 l0.a l0.b l0.c q.x q.y).1
          (K.line_project_pointC2 l0.a l0.b l0.c q.x q.y).2).2 = 0 →
      K.is_finite (degenerate_num_den l0 l2
          (K.line_project_pointC2 l0.a l0.b l0.c q.x q.y).1
          (K.line_project_pointC2 l0.a l0.b l0.c q.x q.y).2).1 = true →
      K.is_finite 0 = true →
      compute_degenerate_offset_lines_isec_timeC2 K st =
        .ok (some ⟨(degenerate_num_den l0 l2
          (K.line_project_pointC2 l0.a l0.b l0.c q.x q.y).1
          (K.line_project_pointC2 l0.a l0.b l0.c q.x q.y).2).1, 0⟩)) := by
  have _ := hpair
  refine ⟨⟨?_, ?_⟩, ?_⟩
  · rintro ⟨r, h⟩
    rw [compute_degenerate_offset_lines_isec_timeC2_eq_some] at h
    obtain ⟨l0, l2, q, h0, h2, hq, h⟩ := h
    exact ⟨l0, l2, q, h0, h2, hq, h.1, h.2.1⟩
  · rintro ⟨l0, l2, q, h0, h2, hq, hn, hd⟩
    exact ⟨_, (compute_degenerate_offset_lines_isec_timeC2_eq_some K st _).mpr
      ⟨l0, l2, q, h0, h2, hq, hn, hd, rfl⟩⟩
  · intro l0 l2 q h0 h2 hq hz hn hd
    rw [compute_degenerate_offset_lines_isec_timeC2_eq_some]
    refine ⟨l0, l2, q, h0, h2, hq, hn, ?_, ?_⟩
    · rw [hz]
      exact hd
    · rw [hz]

/-- C15. Degenerate point formula: whenever `construct_degenerate_offset_lines_isecC2` returns
a point `(x, y)`, `compute_degenerate_offset_lines_isec_timeC2` returns on the same input a
pair `(num, den)` with `den ≠ 0`, the pair of the closed form, and `x = px + l0.a*num/den`,
`y = py + l0.b*num/den` with `(px, py)` the projection of the degenerate seed point onto `l0`;
and the point constructor returns the empty optional whenever `den = 0` or one of `num`, `den`,
`x`, `y` is not finite. -/
theorem construct_degenerate_offset_lines_isecC2_formula (K : Kernel F)
    (st : Seeded_trisegment_2 F) :
    (∀ p, construct_degenerate_offset_lines_isecC2 K st = .ok (some p) →
      ∃ r l0 l2 q, compute_degenerate_offset_lines_isec_timeC2 K st = .ok (some r) ∧
        r.d ≠ 0 ∧
        compute_normalized_line_ceoffC2 K st.event.collinear_edge = some l0 ∧
        compute_normalized_line_ceoffC2 K st.event.non_collinear_edge = some l2 ∧
        compute_degenerate_seed_pointC2 K st = .ok (some q) ∧
        r.n = (degenerate_num_den l0 l2 (K.line_project_pointC2 l0.a l0.b l0.c q.x q.y).1
          (K.line_project_pointC2 l0.a l0.b l0.c q.x q.y).2).1 ∧
        r.d = (degenerate_num_den l0 l2 (K.line_project_pointC2 l0.a l0.b l0.c q.x q.y).1
          (K.line_project_pointC2 l0.a l0.b l0.c q.x q.y).2).2 ∧
        p.x = (K.line_project_pointC2 l0.a l0.b l0.c q.x q.y).1 + l0.a * r.n / r.d ∧
        p.y = (K.line_project_pointC2 l0.a l0.b l0.c q.x q.y).2 + l0.b * r.n / r.d) ∧
    (∀ l0 l2 q num den, compute_normalized_line_ceoffC2 K st.event.collinear_edge = some l0 →
      compute_normalized_line_ceoffC2 K st.event.non_collinear_edge = some l2 →
      compute_degenerate_seed_pointC2 K st = .ok (some q) →
      num = (degenerate_num_den l0 l2 (K.line_project_pointC2 l0.a l0.b l0.c q.x q.y).1
          (K.line_project_pointC2 l0.a l0.b l0.c q.x q.y).2).1 →
      den = (degenerate_num_den l0 l2 (K.line_project_pointC2 l0.a l0.b l0.c q.x q.y).1
          (K.line_project_pointC2 l0.a l0.b l0.c q.x q.y).2).2 →
      (den = 0 ∨ K.is_finite num = false ∨ K.is_finite den = false ∨
        K.is_finite ((K.line_project_pointC2 l0.a l0.b l0.c q.x q.y).1 + l0.a * num / den)
          = false ∨
        K.is_finite ((K.line_project_pointC2 l0.a l0.b l0.c q.x q.y).2 + l0.b * num / den)
          = false) →
      construct_degenerate_offset_lines_isecC2 K st = .ok none) := by
  constructor
  · intro p hp
    rw [construct_degenerate_offset_lines_isecC2_eq_some] at hp
    obtain ⟨l0, l2, q, h0, h2, hq, hp⟩ := hp
    simp only at hp
    obtain ⟨hd, hf2, hf1, -, -, rfl⟩ := hp
    exact ⟨⟨_, _⟩, l0, l2, q,
      (compute_degenerate_offset_lines_isec_timeC2_eq_some K st _).mpr
        ⟨l0, l2, q, h0, h2, hq, hf1, hf2, rfl⟩,
      hd, h0, h2, hq, rfl, rfl, rfl, rfl⟩
  · intro l0 l2 q num den h0 h2 hq hnum hden hbad
    subst hnum hden
    cases hres : construct_degenerate_offset_lines_isecC2 K st with
    | error f =>
      rw [construct_degenerate_offset_lines_isecC2_eq_error, hq] at hres
      cases hres
    | ok o =>
      cases o with
      | none => rfl
      | some p =>
        rw [construct_degenerate_offset_lines_isecC2_eq_some] at hres
        obtain ⟨l0', l2', q', h0', h2', hq', hres⟩ := hres
        rw [h0] at h0'
        rw [h2] at h2'
        rw [hq] at hq'
        cases h0'
        cases h2'
        cases hq'
        simp only at hres
        obtain ⟨hd, hf2, hf1, hx, hy, -⟩ := hres
        rcases hbad with h | h | h | h | h
        · exact absurd h hd
        · rw [hf1] at h
          cases h
        · rw [hf2] at h
          cases h
        · rw [hx] at h
          cases h
        · rw [hy] at h
          cases h

/-! ## Seed points -/

/-- C16. Seed resolver, contour-vertex cases: with a null left seed the LEFT seed point is the
oriented midpoint of (e0, e1); with a null right seed the RIGHT seed point is the oriented
midpoint of (e1, e2); the UNKNOWN seed point is the oriented midpoint of (e0, e2) whatever the
seeds; in particular for an initial event, built by the one-argument
`construct_seeded_trisegment`, LEFT and RIGHT resolve to those midpoints. -/
theorem compute_seed_pointC2_contour_vertex (K : Kernel F) (st : Seeded_trisegment_2 F)
    (t : Trisegment_2 F) :
    (st.lseed = none →
      compute_seed_pointC2 K st .LEFT
        = .ok (compute_oriented_midpoint K st.event.e0 st.event.e1)) ∧
    (st.rseed = none →
      compute_seed_pointC2 K st .RIGHT
        = .ok (compute_oriented_midpoint K st.event.e1 st.event.e2)) ∧
    compute_seed_pointC2 K st .UNKNOWN
      = .ok (compute_oriented_midpoint K st.event.e0 st.event.e2) ∧
    compute_seed_pointC2 K (construct_seeded_trisegment_initial t) .LEFT
      = .ok (compute_oriented_midpoint K t.e0 t.e1) ∧
    compute_seed_pointC2 K (construct_seeded_trisegment_initial t) .RIGHT
      = .ok (compute_oriented_midpoint K t.e1 t.e2) := by
  refine ⟨?_, ?_, ?_, ?_, ?_⟩
  · intro h
    rw [compute_seed_pointC2]
    split
    · rfl
    · simp_all
  · intro h
    rw [compute_seed_pointC2]
    split
    · rfl
    · simp_all
  · rw [compute_seed_pointC2]
  · rw [compute_seed_pointC2]
    rfl
  · rw [compute_seed_pointC2]
    rfl

/-- C17. Seed resolver, skeleton-node cases: with a non-null left seed `t` the LEFT seed point
is `construct_offset_lines_isecC2` of the seeded trisegment of `t`, the one-argument
`construct_seeded_trisegment t`, and symmetrically for RIGHT; it depends neither on the edges of
the event nor on the other seed. -/
theorem compute_seed_pointC2_skeleton_node (K : Kernel F) (st : Seeded_trisegment_2 F)
    (t : Trisegment_2 F) :
    (st.lseed = some t →
      compute_seed_pointC2 K st .LEFT
        = construct_offset_lines_isecC2 K (construct_seeded_trisegment_initial t)) ∧
    (st.rseed = some t →
      compute_seed_pointC2 K st .RIGHT
        = construct_offset_lines_isecC2 K (construct_seeded_trisegment_initial t)) ∧
    (∀ st' : Seeded_trisegment_2 F, st.lseed = some t → st'.lseed = some t →
      compute_seed_pointC2 K st .LEFT = compute_seed_pointC2 K st' .LEFT) ∧
    (∀ st' : Seeded_trisegment_2 F, st.rseed = some t → st'.rseed = some t →
      compute_seed_pointC2 K st .RIGHT = compute_seed_pointC2 K st' .RIGHT) := by
  have hl : ∀ s : Seeded_trisegment_2 F, s.lseed = some t →
      compute_seed_pointC2 K s .LEFT
        = construct_offset_lines_isecC2 K (construct_seeded_trisegment_initial t) := by
    intro s h
    rw [compute_seed_pointC2]
    split
    · simp_all
    · rename_i u hu
      rw [h] at hu
      cases hu
      rfl
  have hr : ∀ s : Seeded_trisegment_2 F, s.rseed = some t →
      compute_seed_pointC2 K s .RIGHT
        = construct_offset_lines_isecC2 K (construct_seeded_trisegment_initial t) := by
    intro s h
    rw [compute_seed_pointC2]
    split
    · simp_all
    · rename_i u hu
      rw [h] at hu
      cases hu
      rfl
  refine ⟨hl st, hr st, ?_, ?_⟩
  · intro st' h h'
    rw [hl st h, hl st' h']
  · intro st' h h'
    rw [hr st h, hr st' h']

/-- On an initial event every seed point is an oriented midpoint of two of its edges. -/
theorem compute_seed_pointC2_initial (K : Kernel F) (t : Trisegment_2 F) (sid : SEED_ID) :
    compute_seed_pointC2 K (construct_seeded_trisegment_initial t) sid =
      .ok (match sid with
        | .LEFT => compute_oriented_midpoint K t.e0 t.e1
        | .RIGHT => compute_oriented_midpoint K t.e1 t.e2
        | .UNKNOWN => compute_oriented_midpoint K t.e0 t.e2) := by
  cases sid <;> rw [compute_seed_pointC2] <;> rfl

/-- The point constructor returns normally on an initial event that is not tagged ALL. -/
theorem construct_offset_lines_isecC2_initial_ok (K : Kernel F) (t : Trisegment_2 F)
    (h : t.collinearity ≠ .ALL) :
    ∃ p, construct_offset_lines_isecC2 K (construct_seeded_trisegment_initial t) = .ok p := by
  rw [construct_offset_lines_isecC2]
  by_cases hn : t.collinearity = .NONE
  · simp [construct_seeded_trisegment_initial, hn]
  · have hs : compute_degenerate_seed_pointC2 K (construct_seeded_trisegment_initial t)
        = .ok (match t.degenerate_seed_id with
          | .LEFT => compute_oriented_midpoint K t.e0 t.e1
          | .RIGHT => compute_oriented_midpoint K t.e1 t.e2
          | .UNKNOWN => compute_oriented_midpoint K t.e0 t.e2) := by
      rw [compute_degenerate_seed_pointC2]
      exact compute_seed_pointC2_initial K t _
    simp only [construct_seeded_trisegment_initial, h, hn, if_false]
    cases hres : construct_degenerate_offset_lines_isecC2 K ⟨t, none, none⟩ with
    | ok p => exact ⟨p, rfl⟩
    | error f =>
      rw [construct_degenerate_offset_lines_isecC2_eq_error] at hres
      rw [construct_seeded_trisegment_initial] at hs
      rw [hs] at hres
      cases hres

/-- C18. Seed recursion termination. The functions are total; when every seed is a trisegment
with collinearity ≠ ALL, `compute_seed_pointC2` returns normally for each seed id, and so do
`compute_offset_lines_isec_timeC2` and `construct_offset_lines_isecC2` when the event itself is
not tagged ALL. The recursion descends along `seed_count`: a seed `t` is resolved as the initial
event `construct_seeded_trisegment t`, which has no seed, and on which every seed point is an
oriented midpoint of two contour edges; so one seed reference at most is followed. -/
theorem seed_recursion_terminates (K : Kernel F) (st : Seeded_trisegment_2 F)
    (hl : ∀ t, st.lseed = some t → t.collinearity ≠ .ALL)
    (hr : ∀ t, st.rseed = some t → t.collinearity ≠ .ALL) :
    (∀ sid, ∃ q, compute_seed_pointC2 K st sid = .ok q) ∧
    (st.event.collinearity ≠ .ALL →
      (∃ r, compute_offset_lines_isec_timeC2 K st = .ok r) ∧
      (∃ p, construct_offset_lines_isecC2 K st = .ok p)) ∧
    (∀ t, st.lseed = some t ∨ st.rseed = some t →
      seed_count (construct_seeded_trisegment_initial t) = 0 ∧
      seed_count (construct_seeded_trisegment_initial t) < seed_count st ∧
      compute_seed_pointC2 K (construct_seeded_trisegment_initial t) .LEFT
        = .ok (compute_oriented_midpoint K t.e0 t.e1) ∧
      compute_seed_pointC2 K (construct_seeded_trisegment_initial t) .RIGHT
        = .ok (compute_oriented_midpoint K t.e1 t.e2) ∧
      compute_seed_pointC2 K (construct_seeded_trisegment_initial t) .UNKNOWN
        = .ok (compute_oriented_midpoint K t.e0 t.e2)) := by
  have hseed : ∀ sid, ∃ q, compute_seed_pointC2 K st sid = .ok q := by
    intro sid
    cases sid with
    | LEFT =>
      rw [compute_seed_pointC2]
      split
      · exact ⟨_, rfl⟩
      · rename_i t ht
        exact construct_offset_lines_isecC2_initial_ok K t (hl t ht)
    | RIGHT =>
      rw [compute_seed_pointC2]
      split
      · exact ⟨_, rfl⟩
      · rename_i t ht
        exact construct_offset_lines_isecC2_initial_ok K t (hr t ht)
    | UNKNOWN =>
      rw [compute_seed_pointC2]
      exact ⟨_, rfl⟩
  refine ⟨hseed, ?_, ?_⟩
  · intro hall
    obtain ⟨q, hq⟩ := hseed st.event.degenerate_seed_id
    have hq' : compute_degenerate_seed_pointC2 K st = .ok q := by
      rw [compute_degenerate_seed_pointC2]
      exact hq
    constructor
    · rw [compute_offset_lines_isec_timeC2]
      by_cases hn : st.event.collinearity = .NONE
      · simp [hn]
      · simp only [hall, hn, if_false]
        cases hres : compute_degenerate_offset_lines_isec_timeC2 K st with
        | ok r => exact ⟨r, rfl⟩
        | error f =>
          rw [compute_degenerate_offset_lines_isec_timeC2_eq_error, hq'] at hres
          cases hres
    · rw [construct_offset_lines_isecC2]
      by_cases hn : st.event.collinearity = .NONE
      · simp [hn]
      · simp only [hall, hn, if_false]
        cases hres : construct_degenerate_offset_lines_isecC2 K st with
        | ok p => exact ⟨p, rfl⟩
        | error f =>
          rw [construct_degenerate_offset_lines_isecC2_eq_error, hq'] at hres
          cases hres
  · intro t ht
    refine ⟨by simp [seed_count, construct_seeded_trisegment_initial], ?_,
      compute_seed_pointC2_initial K t .LEFT, compute_seed_pointC2_initial K t .RIGHT,
      compute_seed_pointC2_initial K t .UNKNOWN⟩
    rcases ht with h | h <;> simp [seed_count, construct_seeded_trisegment_initial, h]

/-! ## Degenerate seed selection and the oriented midpoint -/

/-- C19. Degenerate seed selection: `compute_degenerate_seed_pointC2` is the LEFT seed point
when the collinearity is E0E1, the RIGHT seed point when it is E1E2, and for E0E2 the seed
point of id UNKNOWN, the oriented midpoint of (e0, e2): the seed id names the pair of edges
flagged collinear. -/
theorem compute_degenerate_seed_pointC2_selection (K : Kernel F)
    (st : Seeded_trisegment_2 F) :
    (st.event.collinearity = .E0E1 →
      st.event.degenerate_seed_id = .LEFT ∧
      compute_degenerate_seed_pointC2 K st = compute_seed_pointC2 K st .LEFT) ∧
    (st.event.collinearity = .E1E2 →
      st.event.degenerate_seed_id = .RIGHT ∧
      compute_degenerate_seed_pointC2 K st = compute_seed_pointC2 K st .RIGHT) ∧
    (st.event.collinearity = .E0E2 →
      st.event.degenerate_seed_id = .UNKNOWN ∧
      compute_degenerate_seed_pointC2 K st = compute_seed_pointC2 K st .UNKNOWN ∧
      compute_degenerate_seed_pointC2 K st
        = .ok (compute_oriented_midpoint K st.event.e0 st.event.e2)) := by
  refine ⟨?_, ?_, ?_⟩
  · intro h
    have hid : st.event.degenerate_seed_id = .LEFT := by
      simp [Trisegment_2.degenerate_seed_id, h]
    refine ⟨hid, ?_⟩
    rw [compute_degenerate_seed_pointC2, hid]
  · intro h
    have hid : st.event.degenerate_seed_id = .RIGHT := by
      simp [Trisegment_2.degenerate_seed_id, h]
    refine ⟨hid, ?_⟩
    rw [compute_degenerate_seed_pointC2, hid]
  · intro h
    have hid : st.event.degenerate_seed_id = .UNKNOWN := by
      simp [Trisegment_2.degenerate_seed_id, h]
    refine ⟨hid, ?_, ?_⟩
    · rw [compute_degenerate_seed_pointC2, hid]
    · rw [compute_degenerate_seed_pointC2, hid, compute_seed_pointC2]

/-- C20. Oriented-midpoint rule: with `d01` the squared distance of (e0.target, e1.source) and
`d10` that of (e1.target, e0.source) both finite, `compute_oriented_midpoint` returns the
midpoint of (e0.target, e1.source) when `d01 ≤ d10` and the midpoint of (e1.target, e0.source)
otherwise, provided its coordinates are finite; the pairing used has the minimal squared
distance; and the result is empty when `d01` or `d10` is not finite or a coordinate of that
midpoint is not finite. -/
theorem compute_oriented_midpoint_rule (K : Kernel F) (e0 e1 : Segment_2 F) :
    (K.is_finite (squared_distance e0.target e1.source) = true →
      K.is_finite (squared_distance e1.target e0.source) = true →
      (squared_distance e0.target e1.source ≤ squared_distance e1.target e0.source →
        squared_distance e0.target e1.source
          = min (squared_distance e0.target e1.source)
              (squared_distance e1.target e0.source) ∧
        compute_oriented_midpoint K e0 e1 =
          cgal_make_optional (K.is_finite (midpoint e0.target e1.source).x
            && K.is_finite (midpoint e0.target e1.source).y) (midpoint e0.target e1.source)) ∧
      (¬ squared_distance e0.target e1.source ≤ squared_distance e1.target e0.source →
        squared_distance e1.target e0.source
          = min (squared_distance e0.target e1.source)
              (squared_distance e1.target e0.source) ∧
        compute_oriented_midpoint K e0 e1 =
          cgal_make_optional (K.is_finite (midpoint e1.target e0.source).x
            && K.is_finite (midpoint e1.target e0.source).y) (midpoint e1.target e0.source))) ∧
    (K.is_finite (squared_distance e0.target e1.source) = false ∨
      K.is_finite (squared_distance e1.target e0.source) = false →
      compute_oriented_midpoint K e0 e1 = none) ∧
    (∀ p, compute_oriented_midpoint K e0 e1 = some p →
      K.is_finite p.x = true ∧ K.is_finite p.y = true ∧
      (p = midpoint e0.target e1.source ∨ p = midpoint e1.target e0.source)) := by
  refine ⟨?_, ?_, ?_⟩
  · intro h01 h10
    constructor
    · intro hle
      refine ⟨(min_eq_left hle).symm, ?_⟩
      simp [compute_oriented_midpoint, h01, h10, hle]
    · intro hle
      refine ⟨(min_eq_right (le_of_lt (not_le.mp hle))).symm, ?_⟩
      simp [compute_oriented_midpoint, h01, h10, hle]
  · intro h
    rcases h with h | h <;> simp [compute_oriented_midpoint, h]
  · intro p hp
    unfold compute_oriented_midpoint cgal_make_optional at hp
    simp only at hp
    split_ifs at hp with h1 h2 h3 h4
    · simp only [Option.some.injEq] at hp
      subst hp
      simp only [Bool.and_eq_true] at h3
      exact ⟨h3.1, h3.2, Or.inl rfl⟩
    · simp only [Option.some.injEq] at hp
      subst hp
      simp only [Bool.and_eq_true] at h4
      exact ⟨h4.1, h4.2, Or.inr rfl⟩

/-! ## Examples for the failure, presence and seed theorems -/

/-- Witness of C11: in the bounded kernel the segment (0,0) → (3,4), of squared length 25, has no
line; in the exact kernel its line has finite coefficients. -/
theorem compute_normalized_line_ceoffC2_eq_none_iff_witness :
    compute_normalized_line_ceoffC2 bounded_kernel ⟨⟨0, 0⟩, ⟨3, 4⟩⟩ = none ∧
    (exact_kernel.is_finite (-4 / 5) = true ∧ exact_kernel.is_finite (3 / 5) = true ∧
      exact_kernel.is_finite 0 = true) :=
  ⟨(compute_normalized_line_ceoffC2_eq_none_iff bounded_kernel ⟨⟨0, 0⟩, ⟨3, 4⟩⟩).1.mpr
      (Or.inl ⟨by norm_num, by norm_num, by norm_num [bounded_kernel, abs_le]⟩),
   (compute_normalized_line_ceoffC2_eq_none_iff exact_kernel ⟨⟨0, 0⟩, ⟨3, 4⟩⟩).2.2 _
      normalized_line_3_4⟩

/-- The normal point constructor returns the empty optional when a normalized line is missing
or the common denominator is zero. -/
theorem construct_normal_offset_lines_isecC2_absent (K : Kernel F)
    (st : Seeded_trisegment_2 F) :
    (compute_normalized_line_ceoffC2 K st.event.e0 = none ∨
      compute_normalized_line_ceoffC2 K st.event.e1 = none ∨
      compute_normalized_line_ceoffC2 K st.event.e2 = none →
      construct_normal_offset_lines_isecC2 K st = none) ∧
    (∀ l0 l1 l2, compute_normalized_line_ceoffC2 K st.event.e0 = some l0 →
      compute_normalized_line_ceoffC2 K st.event.e1 = some l1 →
      compute_normalized_line_ceoffC2 K st.event.e2 = some l2 →
      l0.a * l2.b - l0.a * l1.b - l1.a * l2.b + l2.a * l1.b + l0.b * l1.a - l0.b * l2.a = 0 →
      construct_normal_offset_lines_isecC2 K st = none) := by
  constructor
  · intro h
    cases hres : construct_normal_offset_lines_isecC2 K st with
    | none => rfl
    | some p =>
      rw [construct_normal_offset_lines_isecC2_eq_some] at hres
      obtain ⟨l0, l1, l2, h0, h1, h2, -⟩ := hres
      rcases h with h | h | h
      · rw [h0] at h
        cases h
      · rw [h1] at h
        cases h
      · rw [h2] at h
        cases h
  · intro l0 l1 l2 h0 h1 h2 hz
    cases hres : construct_normal_offset_lines_isecC2 K st with
    | none => rfl
    | some p =>
      rw [construct_normal_offset_lines_isecC2_eq_some] at hres
      obtain ⟨l0', l1', l2', h0', h1', h2', hd, -⟩ := hres
      rw [h0] at h0'
      rw [h1] at h1'
      rw [h2] at h2'
      cases h0'
      cases h1'
      cases h2'
      exact absurd hz hd

/-- The two lines of the collinear event with a parallel third edge. -/
theorem collinear_event_parallel_lines :
    compute_normalized_line_ceoffC2 exact_kernel collinear_event_parallel.event.collinear_edge
      = some ⟨0, 1, 0⟩ ∧
    compute_normalized_line_ceoffC2 exact_kernel
      collinear_event_parallel.event.non_collinear_edge = some ⟨0, 1, -1⟩ := by
  constructor <;>
    simp [compute_normalized_line_ceoffC2, normalized_line_locals, exact_kernel,
      cgal_make_optional, collinear_event_parallel, construct_seeded_trisegment_initial,
      Trisegment_2.collinear_edge, Trisegment_2.non_collinear_edge]

/-- The degenerate seed point of the collinear event with a parallel third edge is (1,0). -/
theorem collinear_event_parallel_seed :
    compute_degenerate_seed_pointC2 exact_kernel collinear_event_parallel
      = .ok (some ⟨1, 0⟩) := by
  rw [compute_degenerate_seed_pointC2]
  simp [compute_seed_pointC2, collinear_event_parallel, construct_seeded_trisegment_initial,
    Trisegment_2.degenerate_seed_id, compute_oriented_midpoint, squared_distance, midpoint,
    exact_kernel, cgal_make_optional]

/-- Witness of C14: collinear edges on the x-axis and a third edge on y = 1 with the same
orientation; the time is the pair (-1, 0). -/
theorem compute_degenerate_offset_lines_isec_timeC2_present_iff_witness :
    compute_degenerate_offset_lines_isec_timeC2 exact_kernel collinear_event_parallel
      = .ok (some ⟨-1, 0⟩) := by
  have h := (compute_degenerate_offset_lines_isec_timeC2_present_iff exact_kernel
    collinear_event_parallel (Or.inl rfl)).2 ⟨0, 1, 0⟩ ⟨0, 1, -1⟩ ⟨1, 0⟩
    collinear_event_parallel_lines.1 collinear_event_parallel_lines.2
    collinear_event_parallel_seed
    (by norm_num [degenerate_num_den, is_zero, exact_kernel, orthogonal_projection])
    rfl rfl
  norm_num [degenerate_num_den, is_zero, exact_kernel, orthogonal_projection] at h
  exact h

/-- Witness of C15: the horizontal collinear event, with point (1,1) and time 1/1; and the
collinear event with a parallel third edge, whose `den` is 0 and whose point is absent. -/
theorem construct_degenerate_offset_lines_isecC2_formula_witness :
    (∃ r : Rational ℚ,
      compute_degenerate_offset_lines_isec_timeC2 exact_kernel collinear_event_horizontal
        = .ok (some r) ∧ r.d ≠ 0) ∧
    construct_degenerate_offset_lines_isecC2 exact_kernel collinear_event_parallel
      = .ok none := by
  constructor
  · obtain ⟨r, -, -, -, hr, hd, -⟩ :=
      (construct_degenerate_offset_lines_isecC2_formula exact_kernel
        collinear_event_horizontal).1 ⟨1, 1⟩ collinear_event_horizontal_point
    exact ⟨r, hr, hd⟩
  · exact (construct_degenerate_offset_lines_isecC2_formula exact_kernel
      collinear_event_parallel).2 ⟨0, 1, 0⟩ ⟨0, 1, -1⟩ ⟨1, 0⟩ _ _
      collinear_event_parallel_lines.1 collinear_event_parallel_lines.2
      collinear_event_parallel_seed rfl rfl
      (Or.inl (by norm_num [degenerate_num_den, is_zero, exact_kernel,
        orthogonal_projection]))

/-- Witness of C16: the initial event of the horizontal collinear edges. -/
theorem compute_seed_pointC2_contour_vertex_witness :
    compute_seed_pointC2 exact_kernel collinear_event_horizontal .LEFT
      = .ok (compute_oriented_midpoint exact_kernel ⟨⟨0, 0⟩, ⟨1, 0⟩⟩ ⟨⟨1, 0⟩, ⟨2, 0⟩⟩) ∧
    compute_seed_pointC2 exact_kernel collinear_event_horizontal .RIGHT
      = .ok (compute_oriented_midpoint exact_kernel ⟨⟨1, 0⟩, ⟨2, 0⟩⟩ ⟨⟨2, 0⟩, ⟨2, 1⟩⟩) :=
  ⟨(compute_seed_pointC2_contour_vertex exact_kernel collinear_event_horizontal
      (square_event ℚ)).1 rfl,
   (compute_seed_pointC2_contour_vertex exact_kernel collinear_event_horizontal
      (square_event ℚ)).2.1 rfl⟩

/-- Witness of C17: the left seed of the propagated event is the square, whose event point is
(5,5). -/
theorem compute_seed_pointC2_skeleton_node_witness :
    compute_seed_pointC2 exact_kernel propagated_event .LEFT
      = construct_offset_lines_isecC2 exact_kernel
          (construct_seeded_trisegment_initial (square_event ℚ)) ∧
    compute_seed_pointC2 exact_kernel propagated_event .LEFT = .ok (some ⟨5, 5⟩) := by
  have h := (compute_seed_pointC2_skeleton_node exact_kernel propagated_event
    (square_event ℚ)).1 rfl
  refine ⟨h, ?_⟩
  rw [h, construct_offset_lines_isecC2, ← square_event_normal_point exact_kernel (fun _ => rfl)]
  simp [construct_seeded_trisegment_initial, square_event]

/-- Witness of C18: the propagated event, whose seeds are tagged NONE and E0E1. -/
theorem seed_recursion_terminates_witness :
    (∃ q, compute_seed_pointC2 exact_kernel propagated_event .LEFT = .ok q) ∧
    (∃ q, compute_seed_pointC2 exact_kernel propagated_event .RIGHT = .ok q) ∧
    (∃ r, compute_offset_lines_isec_timeC2 exact_kernel propagated_event = .ok r) ∧
    (∃ p, construct_offset_lines_isecC2 exact_kernel propagated_event = .ok p) := by
  have h := seed_recursion_terminates exact_kernel propagated_event
    (by
      intro t ht
      simp only [propagated_event, construct_seeded_trisegment, Option.some.injEq] at ht
      subst ht
      decide)
    (by
      intro t ht
      simp only [propagated_event, construct_seeded_trisegment, Option.some.injEq] at ht
      subst ht
      decide)
  exact ⟨h.1 .LEFT, h.1 .RIGHT, (h.2.1 (by decide)).1, (h.2.1 (by decide)).2⟩

/-- Witness of C19: the horizontal collinear event, tagged E0E1. -/
theorem compute_degenerate_seed_pointC2_selection_witness :
    compute_degenerate_seed_pointC2 exact_kernel collinear_event_horizontal
      = compute_seed_pointC2 exact_kernel collinear_event_horizontal .LEFT :=
  ((compute_degenerate_seed_pointC2_selection exact_kernel collinear_event_horizontal).1
    rfl).2

/-- Witness of C20: consecutive edges on the x-axis; the pairing (e0.target, e1.source) has
squared distance 0, the other 4, and the midpoint is the shared vertex (1,0). -/
theorem compute_oriented_midpoint_rule_witness :
    compute_oriented_midpoint exact_kernel ⟨⟨0, 0⟩, ⟨1, 0⟩⟩ ⟨⟨1, 0⟩, ⟨2, 0⟩⟩
      = some ⟨1, 0⟩ := by
  have h := ((compute_oriented_midpoint_rule exact_kernel ⟨⟨0, 0⟩, ⟨1, 0⟩⟩
    ⟨⟨1, 0⟩, ⟨2, 0⟩⟩).1 rfl rfl).1 (by norm_num [squared_distance])
  rw [h.2]
  norm_num [cgal_make_optional, midpoint, exact_kernel]

/-! ## Symmetry of the oriented midpoint and contour vertices -/

/-- Counterexample to C21: for the two facing edges the pairings tie at the squared distance 4;
`compute_oriented_midpoint` returns (2,0) in one order and (1,0) in the other. -/
theorem facing_edges_midpoints_differ :
    compute_oriented_midpoint exact_kernel facing_edge_0 facing_edge_1 = some ⟨2, 0⟩ ∧
    compute_oriented_midpoint exact_kernel facing_edge_1 facing_edge_0 = some ⟨1, 0⟩ ∧
    compute_oriented_midpoint exact_kernel facing_edge_0 facing_edge_1
      ≠ compute_oriented_midpoint exact_kernel facing_edge_1 facing_edge_0 := by
  have h1 : compute_oriented_midpoint exact_kernel facing_edge_0 facing_edge_1
      = some ⟨2, 0⟩ := by
    norm_num [compute_oriented_midpoint, squared_distance, midpoint, cgal_make_optional,
      exact_kernel, facing_edge_0, facing_edge_1]
  have h2 : compute_oriented_midpoint exact_kernel facing_edge_1 facing_edge_0
      = some ⟨1, 0⟩ := by
    norm_num [compute_oriented_midpoint, squared_distance, midpoint, cgal_make_optional,
      exact_kernel, facing_edge_0, facing_edge_1]
  refine ⟨h1, h2, ?_⟩
  rw [h1, h2]
  norm_num

/-- C21, amended. Orientation-agnostic midpoint: when the two pairings have different squared
distances, or the same midpoint, `compute_oriented_midpoint` returns the same result for
`(e0, e1)` and for `(e1, e0)`. -/
theorem compute_oriented_midpoint_comm (K : Kernel F) (e0 e1 : Segment_2 F)
    (h : squared_distance e0.target e1.source ≠ squared_distance e1.target e0.source ∨
      midpoint e0.target e1.source = midpoint e1.target e0.source) :
    compute_oriented_midpoint K e0 e1 = compute_oriented_midpoint K e1 e0 := by
  unfold compute_oriented_midpoint
  simp only
  rw [Bool.and_comm (K.is_finite (squared_distance e1.target e0.source))]
  rcases h with h | h
  · rcases lt_or_gt_of_ne h with hlt | hgt
    · simp [le_of_lt hlt, not_le.mpr hlt]
    · simp [le_of_lt hgt, not_le.mpr hgt]
  · simp [h]

/-- Witness of the amended C21: consecutive edges on the x-axis, in both orders. -/
theorem compute_oriented_midpoint_comm_witness :
    compute_oriented_midpoint exact_kernel ⟨⟨0, 0⟩, ⟨1, 0⟩⟩ ⟨⟨1, 0⟩, ⟨2, 0⟩⟩
      = compute_oriented_midpoint exact_kernel ⟨⟨1, 0⟩, ⟨2, 0⟩⟩ ⟨⟨0, 0⟩, ⟨1, 0⟩⟩ :=
  compute_oriented_midpoint_comm exact_kernel ⟨⟨0, 0⟩, ⟨1, 0⟩⟩ ⟨⟨1, 0⟩, ⟨2, 0⟩⟩
    (Or.inl (by norm_num [squared_distance]))

/-- C22, failing input. For the initial event shaped as a split event (e0 = (0,0) → (1,0),
e1 = (1,0) → (2,0), e2 = (5,5) → (6,5)) the right seed is null, yet the RIGHT seed point is
(7/2, 5/2), the midpoint of e1.target = (2,0) and e2.source = (5,5), and not e1.target. -/
theorem split_event_right_seed_not_target :
    split_event.rseed = none ∧ split_event.event.e1.target = ⟨2, 0⟩ ∧
    compute_seed_pointC2 exact_kernel split_event .RIGHT = .ok (some ⟨7 / 2, 5 / 2⟩) ∧
    compute_seed_pointC2 exact_kernel split_event .RIGHT
      ≠ .ok (some split_event.event.e1.target) := by
  have h1 : compute_seed_pointC2 exact_kernel split_event .RIGHT
      = .ok (some ⟨7 / 2, 5 / 2⟩) := by
    rw [split_event, compute_seed_pointC2_initial]
    norm_num [compute_oriented_midpoint, squared_distance, midpoint, cgal_make_optional,
      exact_kernel]
  refine ⟨rfl, rfl, h1, ?_⟩
  rw [h1]
  norm_num [split_event, construct_seeded_trisegment_initial]

/-- C24. Distance check: `compute_offset_lines_isec_dist_to_pointC2` returns the empty optional
when the point `p` is empty or `construct_offset_lines_isecC2` returns the empty optional; when
`p = (px, py)` and the event point `(ix, iy)` are present it returns
`(ix-px)² + (iy-py)²`, and the empty optional only when that value is not finite. -/
theorem compute_offset_lines_isec_dist_to_pointC2_spec (K : Kernel F)
    (st : Seeded_trisegment_2 F) :
    compute_offset_lines_isec_dist_to_pointC2 K none st = .ok none ∧
    (∀ p, construct_offset_lines_isecC2 K st = .ok none →
      compute_offset_lines_isec_dist_to_pointC2 K p st = .ok none) ∧
    (∀ p i, construct_offset_lines_isecC2 K st = .ok (some i) →
      compute_offset_lines_isec_dist_to_pointC2 K (some p) st =
        .ok (cgal_make_optional (K.is_finite ((i.x - p.x) ^ 2 + (i.y - p.y) ^ 2))
          ((i.x - p.x) ^ 2 + (i.y - p.y) ^ 2)) ∧
      (K.is_finite ((i.x - p.x) ^ 2 + (i.y - p.y) ^ 2) = true →
        compute_offset_lines_isec_dist_to_pointC2 K (some p) st =
          .ok (some ((i.x - p.x) ^ 2 + (i.y - p.y) ^ 2))) ∧
      (compute_offset_lines_isec_dist_to_pointC2 K (some p) st = .ok none →
        K.is_finite ((i.x - p.x) ^ 2 + (i.y - p.y) ^ 2) = false)) := by
  refine ⟨rfl, ?_, ?_⟩
  · intro p h
    cases p with
    | none => rfl
    | some p => simp [compute_offset_lines_isec_dist_to_pointC2, h]
  · intro p i h
    have hsq : (i.x - p.x) * (i.x - p.x) + (i.y - p.y) * (i.y - p.y)
        = (i.x - p.x) ^ 2 + (i.y - p.y) ^ 2 := by ring
    have hv : compute_offset_lines_isec_dist_to_pointC2 K (some p) st =
        .ok (cgal_make_optional (K.is_finite ((i.x - p.x) ^ 2 + (i.y - p.y) ^ 2))
          ((i.x - p.x) ^ 2 + (i.y - p.y) ^ 2)) := by
      simp only [compute_offset_lines_isec_dist_to_pointC2, h, hsq]
    refine ⟨hv, ?_, ?_⟩
    · intro hf
      rw [hv, hf]
      rfl
    · intro hn
      rw [hv] at hn
      cases hf : K.is_finite ((i.x - p.x) ^ 2 + (i.y - p.y) ^ 2) with
      | false => rfl
      | true =>
        rw [hf] at hn
        simp [cgal_make_optional] at hn

/-- Witness of C24: the squared distance from the origin to the event point (5,5) of the
square is 50. -/
theorem compute_offset_lines_isec_dist_to_pointC2_spec_witness :
    compute_offset_lines_isec_dist_to_pointC2 exact_kernel (some ⟨0, 0⟩)
      (construct_seeded_trisegment_initial (square_event ℚ)) = .ok (some 50) := by
  have hp : construct_offset_lines_isecC2 exact_kernel
      (construct_seeded_trisegment_initial (square_event ℚ)) = .ok (some ⟨5, 5⟩) := by
    rw [construct_offset_lines_isecC2,
      ← square_event_normal_point exact_kernel (fun _ => rfl)]
    simp [construct_seeded_trisegment_initial, square_event]
  have h := ((compute_offset_lines_isec_dist_to_pointC2_spec exact_kernel
    (construct_seeded_trisegment_initial (square_event ℚ))).2.2 ⟨0, 0⟩ ⟨5, 5⟩ hp).2.1 rfl
  norm_num at h
  exact h

/-- C25. Trisegment construction: `construct_trisegment` returns the null trisegment exactly
when the collinearity classification of `(e0, e1, e2)` is indeterminate; otherwise it returns
the trisegment of `e0`, `e1`, `e2` in that order with the classification as collinearity. -/
theorem construct_trisegment_spec {G : Type}
    (certified_trisegment_collinearity :
      Segment_2 G → Segment_2 G → Segment_2 G → Option Trisegment_collinearity)
    (e0 e1 e2 : Segment_2 G) :
    (construct_trisegment certified_trisegment_collinearity e0 e1 e2 = none ↔
      is_indeterminate (certified_trisegment_collinearity e0 e1 e2) = true) ∧
    (∀ c, certified_trisegment_collinearity e0 e1 e2 = some c →
      construct_trisegment certified_trisegment_collinearity e0 e1 e2
        = some ⟨e0, e1, e2, c⟩) ∧
    (∀ t, construct_trisegment certified_trisegment_collinearity e0 e1 e2 = some t →
      t.e0 = e0 ∧ t.e1 = e1 ∧ t.e2 = e2 ∧
      certified_trisegment_collinearity e0 e1 e2 = some t.collinearity) := by
  unfold construct_trisegment is_indeterminate
  cases h : certified_trisegment_collinearity e0 e1 e2 with
  | none => simp
  | some c =>
    refine ⟨by simp, by simp, ?_⟩
    intro t ht
    simp only [Option.isNone_some, Bool.not_false, if_true, Option.some.injEq] at ht
    subst ht
    exact ⟨rfl, rfl, rfl, rfl⟩

/-- Witness of C25: a classifier that answers NONE on the sides of the square. -/
theorem construct_trisegment_spec_witness :
    construct_trisegment (fun _ _ _ => some Trisegment_collinearity.NONE)
        (square_event ℚ).e0 (square_event ℚ).e1 (square_event ℚ).e2
      = some (square_event ℚ) :=
  (construct_trisegment_spec (fun _ _ _ => some Trisegment_collinearity.NONE)
    (square_event ℚ).e0 (square_event ℚ).e1 (square_event ℚ).e2).2.1 .NONE rfl

/-! ## Non-intersecting offsets and presence in the normal case -/

/-- The coefficients of a returned line are a multiple of the raw coefficients
`(sy - ty, tx - sx, -sx*(sy - ty) - sy*(tx - sx))` of the segment, for every kernel. -/
theorem normalized_line_proportional (K : Kernel F) (e : Segment_2 F) (l : Line_2 F)
    (hl : compute_normalized_line_ceoffC2 K e = some l) :
    ∃ k, l.a = k * (e.source.y - e.target.y) ∧ l.b = k * (e.target.x - e.source.x) ∧
      l.c = k * (-e.source.x * (e.source.y - e.target.y)
        - e.source.y * (e.target.x - e.source.x)) := by
  rw [compute_normalized_line_ceoffC2_eq_some] at hl
  obtain ⟨-, -, -, -, rfl⟩ := hl
  obtain ⟨⟨sx, sy⟩, ⟨tx, ty⟩⟩ := e
  unfold normalized_line_locals
  simp only
  split_ifs with hy hx1 hx2 hx3 hy1 hy2 hfin
  · have hne : tx - sx ≠ 0 := sub_ne_zero.mpr (ne_of_gt hx1)
    subst hy
    refine ⟨(tx - sx)⁻¹, by simp, by field_simp, by field_simp⟩
  · exact ⟨0, by simp, by simp, by simp⟩
  · have hne : tx - sx ≠ 0 := sub_ne_zero.mpr hx2
    subst hy
    refine ⟨-(tx - sx)⁻¹, by simp, by field_simp, by field_simp⟩
  · have hne : sy - ty ≠ 0 := sub_ne_zero.mpr hy
    subst hx3
    refine ⟨(ty - sy)⁻¹, ?_, by simp, ?_⟩
    · have hne' : ty - sy ≠ 0 := sub_ne_zero.mpr (Ne.symm hy)
      field_simp
    · have hne' : ty - sy ≠ 0 := sub_ne_zero.mpr (Ne.symm hy)
      field_simp
      ring
  · exact ⟨0, by simp, by simp, by simp⟩
  · have hne : sy - ty ≠ 0 := sub_ne_zero.mpr hy
    subst hx3
    refine ⟨(sy - ty)⁻¹, by field_simp, by simp, ?_⟩
    field_simp
  · refine ⟨(K.inexact_sqrt ((sy - ty) * (sy - ty) + (tx - sx) * (tx - sx)))⁻¹, ?_, ?_, ?_⟩
    · rw [div_eq_mul_inv]; ring
    · rw [div_eq_mul_inv]; ring
    · rw [div_eq_mul_inv, div_eq_mul_inv]; ring
  · exact ⟨0, by simp, by simp, by simp⟩

/-- The numerator of the time vanishes when the first two rows are multiples of the raw
coefficients of two collinear edges. -/
theorem collinear_rows_numerator (k k' sx sy tx ty sx' sy' tx' ty' a2 b2 c2 : F)
    (h1 : (tx - sx) * (sy' - sy) - (ty - sy) * (sx' - sx) = 0)
    (h2 : (tx - sx) * (ty' - sy) - (ty - sy) * (tx' - sx) = 0) :
    (a2 * (k * (tx - sx)) * (k' * (-sx' * (sy' - ty') - sy' * (tx' - sx'))))
      - (a2 * (k' * (tx' - sx')) * (k * (-sx * (sy - ty) - sy * (tx - sx))))
      - (b2 * (k * (sy - ty)) * (k' * (-sx' * (sy' - ty') - sy' * (tx' - sx'))))
      + (b2 * (k' * (sy' - ty')) * (k * (-sx * (sy - ty) - sy * (tx - sx))))
      + ((k' * (tx' - sx')) * (k * (sy - ty)) * c2)
      - ((k * (tx - sx)) * (k' * (sy' - ty')) * c2) = 0 := by
  linear_combination k * k' * (-a2 * tx' - b2 * ty' - c2) * h1
    + k * k' * (a2 * sx' + b2 * sy' + c2) * h2

/-- Collinear edges give the numerator 0, for every kernel: when two of the three edges are
collinear, every pair returned by `compute_normal_offset_lines_isec_timeC2` has numerator 0
(the denominator need not be 0 when the square root is inexact). -/
theorem collinear_edges_time_numerator_zero (K : Kernel F) (st : Seeded_trisegment_2 F)
    (r : Rational F) (hr : compute_normal_offset_lines_isec_timeC2 K st = some r)
    (hcol : collinear_edges st.event.e0 st.event.e1 ∨ collinear_edges st.event.e1 st.event.e2
      ∨ collinear_edges st.event.e0 st.event.e2) :
    r.n = 0 := by
  rw [compute_normal_offset_lines_isec_timeC2_eq_some] at hr
  obtain ⟨l0, l1, l2, h0, h1, h2, -, -, rfl⟩ := hr
  obtain ⟨k0, ha0, hb0, hc0⟩ := normalized_line_proportional K _ _ h0
  obtain ⟨k1, ha1, hb1, hc1⟩ := normalized_line_proportional K _ _ h1
  obtain ⟨k2, ha2, hb2, hc2⟩ := normalized_line_proportional K _ _ h2
  simp only
  rcases hcol with ⟨c1, c2⟩ | ⟨c1, c2⟩ | ⟨c1, c2⟩
  · have h := collinear_rows_numerator k0 k1 st.event.e0.source.x st.event.e0.source.y
      st.event.e0.target.x st.event.e0.target.y st.event.e1.source.x st.event.e1.source.y
      st.event.e1.target.x st.event.e1.target.y l2.a l2.b l2.c c1 c2
    rw [ha0, hb0, hc0, ha1, hb1, hc1]
    linear_combination h
  · have h := collinear_rows_numerator k1 k2 st.event.e1.source.x st.event.e1.source.y
      st.event.e1.target.x st.event.e1.target.y st.event.e2.source.x st.event.e2.source.y
      st.event.e2.target.x st.event.e2.target.y l0.a l0.b l0.c c1 c2
    rw [ha1, hb1, hc1, ha2, hb2, hc2]
    linear_combination h
  · have h := collinear_rows_numerator k0 k2 st.event.e0.source.x st.event.e0.source.y
      st.event.e0.target.x st.event.e0.target.y st.event.e2.source.x st.event.e2.source.y
      st.event.e2.target.x st.event.e2.target.y l1.a l1.b l1.c c1 c2
    rw [ha0, hb0, hc0, ha2, hb2, hc2]
    linear_combination -h

/-- C26, failing input. The edges e0 and e1 of the parallel event are parallel with the same
orientation, their normalized lines (0,1,0) and (0,1,-1) have the same `(a, b)`, and the normal
time solver returns the pair (1, 0), whose numerator is not 0. -/
theorem parallel_event_numerator_not_zero :
    compute_normalized_line_ceoffC2 exact_kernel parallel_event.event.e0 = some ⟨0, 1, 0⟩ ∧
    compute_normalized_line_ceoffC2 exact_kernel parallel_event.event.e1 = some ⟨0, 1, -1⟩ ∧
    compute_normal_offset_lines_isec_timeC2 exact_kernel parallel_event = some ⟨1, 0⟩ ∧
    (1 : ℚ) ≠ 0 := by
  refine ⟨parallel_event_lines.1, parallel_event_lines.2.1, ?_, one_ne_zero⟩
  rw [compute_normal_offset_lines_isec_timeC2_eq_some]
  refine ⟨_, _, _, parallel_event_lines.1, parallel_event_lines.2.1, parallel_event_lines.2.2,
    rfl, rfl, ?_⟩
  norm_num

/-- C30. Time and point of the normal case in exact arithmetic (every value finite): the common
denominator of `construct_normal_offset_lines_isecC2` is the negation of the denominator
returned by `compute_normal_offset_lines_isec_timeC2`, and the point is present exactly when
the time is present with a non-zero denominator. -/
theorem normal_time_and_point_presence (K : Kernel F) (hfin : ∀ x, K.is_finite x = true)
    (st : Seeded_trisegment_2 F) :
    (∀ l0 l1 l2 r, compute_normalized_line_ceoffC2 K st.event.e0 = some l0 →
      compute_normalized_line_ceoffC2 K st.event.e1 = some l1 →
      compute_normalized_line_ceoffC2 K st.event.e2 = some l2 →
      compute_normal_offset_lines_isec_timeC2 K st = some r →
      l0.a * l2.b - l0.a * l1.b - l1.a * l2.b + l2.a * l1.b + l0.b * l1.a - l0.b * l2.a
        = -r.d) ∧
    ((∃ p, construct_normal_offset_lines_isecC2 K st = some p) ↔
      ∃ r, compute_normal_offset_lines_isec_timeC2 K st = some r ∧ r.d ≠ 0) := by
  constructor
  · intro l0 l1 l2 r h0 h1 h2 hr
    rw [compute_normal_offset_lines_isec_timeC2_eq_some] at hr
    obtain ⟨l0', l1', l2', h0', h1', h2', -, -, rfl⟩ := hr
    rw [h0] at h0'
    rw [h1] at h1'
    rw [h2] at h2'
    cases h0'
    cases h1'
    cases h2'
    simp only
    ring
  · constructor
    · rintro ⟨p, h⟩
      rw [construct_normal_offset_lines_isecC2_eq_some] at h
      obtain ⟨l0, l1, l2, h0, h1, h2, hden, -, -, -, -⟩ := h
      refine ⟨_, (compute_normal_offset_lines_isec_timeC2_eq_some K st _).mpr
        ⟨l0, l1, l2, h0, h1, h2, hfin _, hfin _, rfl⟩, ?_⟩
      simp only
      rw [normal_time_den_eq_neg]
      exact neg_ne_zero.mpr hden
    · rintro ⟨r, h, hd⟩
      rw [compute_normal_offset_lines_isec_timeC2_eq_some] at h
      obtain ⟨l0, l1, l2, h0, h1, h2, -, -, rfl⟩ := h
      simp only at hd
      rw [normal_time_den_eq_neg] at hd
      exact ⟨_, (construct_normal_offset_lines_isecC2_eq_some K st _).mpr
        ⟨l0, l1, l2, h0, h1, h2, neg_ne_zero.mp hd, hfin _, hfin _, hfin _, rfl⟩⟩

/-- Witness of C30: on the square the point (5,5) is present and the time (10, 2) has a
non-zero denominator. -/
theorem normal_time_and_point_presence_witness :
    ∃ r, compute_normal_offset_lines_isec_timeC2 exact_kernel
      (construct_seeded_trisegment_initial (square_event ℚ)) = some r ∧ r.d ≠ 0 :=
  (normal_time_and_point_presence exact_kernel (fun _ => rfl)
    (construct_seeded_trisegment_initial (square_event ℚ))).2.mp
    ⟨_, square_event_normal_point exact_kernel (fun _ => rfl)⟩

/-! ## Cramer's rule and the two degenerate closed forms -/

/-- Every solution `(x, y, t)` of the three offset-line equations satisfies `num = t * den` for
the closed forms of the time solver. -/
theorem offset_system_time (l0 l1 l2 : Line_2 F) (x y t : F)
    (e0 : l0.a * x + l0.b * y + l0.c - t = 0) (e1 : l1.a * x + l1.b * y + l1.c - t = 0)
    (e2 : l2.a * x + l2.b * y + l2.c - t = 0) :
    (l2.a * l0.b * l1.c) - (l2.a * l1.b * l0.c) - (l2.b * l0.a * l1.c) + (l2.b * l1.a * l0.c)
        + (l1.b * l0.a * l2.c) - (l0.b * l1.a * l2.c)
      = t * ((-l2.a * l1.b) + (l2.a * l0.b) + (l2.b * l1.a) - (l2.b * l0.a) + (l1.b * l0.a)
        - (l0.b * l1.a)) := by
  linear_combination (l1.a * l2.b - l2.a * l1.b) * e0 + (l2.a * l0.b - l0.a * l2.b) * e1
    + (l0.a * l1.b - l1.a * l0.b) * e2

/-- C28. Closed form equals Cramer's rule: the numerator returned by
`compute_normal_offset_lines_isec_timeC2` is the determinant of the matrix with rows
`(ai, bi, ci)`, the denominator the determinant of the matrix with rows `(ai, bi, 1)`, and when
the denominator is not 0 the value `num/den` is the unique `t` for which the system
`ai*x + bi*y + ci - t = 0` (i = 0, 1, 2) has a solution. -/
theorem compute_normal_offset_lines_isec_timeC2_cramer (K : Kernel F)
    (st : Seeded_trisegment_2 F) (l0 l1 l2 : Line_2 F) (r : Rational F)
    (h0 : compute_normalized_line_ceoffC2 K st.event.e0 = some l0)
    (h1 : compute_normalized_line_ceoffC2 K st.event.e1 = some l1)
    (h2 : compute_normalized_line_ceoffC2 K st.event.e2 = some l2)
    (hr : compute_normal_offset_lines_isec_timeC2 K st = some r) :
    r.n = Matrix.det !![l0.a, l0.b, l0.c; l1.a, l1.b, l1.c; l2.a, l2.b, l2.c] ∧
    r.d = Matrix.det !![l0.a, l0.b, 1; l1.a, l1.b, 1; l2.a, l2.b, 1] ∧
    (r.d ≠ 0 →
      (∃ x y, l0.a * x + l0.b * y + l0.c - r.n / r.d = 0 ∧
        l1.a * x + l1.b * y + l1.c - r.n / r.d = 0 ∧
        l2.a * x + l2.b * y + l2.c - r.n / r.d = 0) ∧
      (∀ x y t, l0.a * x + l0.b * y + l0.c - t = 0 → l1.a * x + l1.b * y + l1.c - t = 0 →
        l2.a * x + l2.b * y + l2.c - t = 0 → t = r.n / r.d)) := by
  rw [compute_normal_offset_lines_isec_timeC2_eq_some] at hr
  obtain ⟨l0', l1', l2', h0', h1', h2', -, -, rfl⟩ := hr
  rw [h0] at h0'
  rw [h1] at h1'
  rw [h2] at h2'
  cases h0'
  cases h1'
  cases h2'
  simp only
  refine ⟨?_, ?_, ?_⟩
  · rw [Matrix.det_fin_three]
    simp [Matrix.vecHead, Matrix.vecTail]
    ring
  · rw [Matrix.det_fin_three]
    simp [Matrix.vecHead, Matrix.vecTail]
    ring
  · intro hd
    have hden : l0.a * l2.b - l0.a * l1.b - l1.a * l2.b + l2.a * l1.b + l0.b * l1.a
        - l0.b * l2.a ≠ 0 := by
      intro h
      apply hd
      rw [normal_time_den_eq_neg, h, neg_zero]
    obtain ⟨-, e0, e1, e2⟩ :=
      normal_solution_algebra l0.a l0.b l0.c l1.a l1.b l1.c l2.a l2.b l2.c hden
    refine ⟨⟨_, _, sub_eq_zero.mpr e0, sub_eq_zero.mpr e1, sub_eq_zero.mpr e2⟩, ?_⟩
    intro x y t e0 e1 e2
    rw [eq_div_iff hd]
    exact (offset_system_time l0 l1 l2 x y t e0 e1 e2).symm

/-- Witness of C28: the square, with the lines (0,1,0), (-1,0,10), (0,-1,10) and the
time (10, 2). -/
theorem compute_normal_offset_lines_isec_timeC2_cramer_witness :
    (10 : ℚ) = Matrix.det !![(0 : ℚ), 1, 0; -1, 0, 10; 0, -1, 10] ∧
    (2 : ℚ) = Matrix.det !![(0 : ℚ), 1, 1; -1, 0, 1; 0, -1, 1] := by
  obtain ⟨h0, h1, h2⟩ := square_event_lines exact_kernel (fun _ => rfl)
  have h := compute_normal_offset_lines_isec_timeC2_cramer exact_kernel
    (construct_seeded_trisegment_initial (square_event ℚ)) _ _ _ _ h0 h1 h2
    (square_event_normal_time exact_kernel (fun _ => rfl))
  exact ⟨h.1, h.2.1⟩

/-- The closed form of the degenerate solvers is the non-vertical or the vertical one according
to the test of `l0.b`. -/
theorem degenerate_num_den_eq (l0 l2 : Line_2 F) (px py : F) :
    degenerate_num_den l0 l2 px py =
      if !is_zero l0.b then degenerate_num_den_nonvertical l0 l2 px
      else degenerate_num_den_vertical l0 l2 py := by
  rfl

/-- C29. The branch of the degenerate solvers is immaterial away from axis-aligned lines: for
a unit line `l0` with `a0 ≠ 0` and `b0 ≠ 0` and a point `(px, py)` on it, the non-vertical
closed form and the vertical closed form denote the same rational,
`num_nv * den_v = num_v * den_nv`, and both quotients are
`(a2*px + b2*py + c2) / (1 - a0*a2 - b0*b2)` when that denominator is not 0. The solvers use
the non-vertical form there. -/
theorem degenerate_branches_agree (l0 l2 : Line_2 F) (px py : F)
    (hunit : l0.a ^ 2 + l0.b ^ 2 = 1) (ha : l0.a ≠ 0) (hb : l0.b ≠ 0)
    (hon : l0.a * px + l0.b * py + l0.c = 0) :
    (degenerate_num_den_nonvertical l0 l2 px).1 * (degenerate_num_den_vertical l0 l2 py).2
      = (degenerate_num_den_vertical l0 l2 py).1 * (degenerate_num_den_nonvertical l0 l2 px).2 ∧
    (1 - l0.a * l2.a - l0.b * l2.b ≠ 0 →
      (degenerate_num_den_nonvertical l0 l2 px).1 / (degenerate_num_den_nonvertical l0 l2 px).2
        = (l2.a * px + l2.b * py + l2.c) / (1 - l0.a * l2.a - l0.b * l2.b) ∧
      (degenerate_num_den_vertical l0 l2 py).1 / (degenerate_num_den_vertical l0 l2 py).2
        = (l2.a * px + l2.b * py + l2.c) / (1 - l0.a * l2.a - l0.b * l2.b)) ∧
    degenerate_num_den l0 l2 px py = degenerate_num_den_nonvertical l0 l2 px := by
  have hnv1 : (degenerate_num_den_nonvertical l0 l2 px).1
      = l0.b * (l2.a * px + l2.b * py + l2.c) := by
    simp only [degenerate_num_den_nonvertical]
    linear_combination (-l2.b) * hon
  have hnv2 : (degenerate_num_den_nonvertical l0 l2 px).2
      = l0.b * (1 - l0.a * l2.a - l0.b * l2.b) := by
    simp only [degenerate_num_den_nonvertical]
    linear_combination l2.b * hunit
  have hv1 : (degenerate_num_den_vertical l0 l2 py).1
      = -l0.a * (l2.a * px + l2.b * py + l2.c) := by
    simp only [degenerate_num_den_vertical]
    linear_combination l2.a * hon
  have hv2 : (degenerate_num_den_vertical l0 l2 py).2
      = -l0.a * (1 - l0.a * l2.a - l0.b * l2.b) := by
    simp only [degenerate_num_den_vertical]
    linear_combination (-l2.a) * hunit
  refine ⟨?_, ?_, ?_⟩
  · rw [hnv1, hnv2, hv1, hv2]
    ring
  · intro hW
    rw [hnv1, hnv2, hv1, hv2]
    constructor
    · rw [mul_div_mul_left _ _ hb]
    · rw [mul_div_mul_left _ _ (neg_ne_zero.mpr ha)]
  · rw [degenerate_num_den_eq]
    simp [is_zero, hb]

/-- Witness of C29: the unit line (3/5, 4/5, -1), the point (3/5, 4/5) on it and the line
(0, 1, 0). -/
theorem degenerate_branches_agree_witness :
    (degenerate_num_den_nonvertical (⟨3 / 5, 4 / 5, -1⟩ : Line_2 ℚ) ⟨0, 1, 0⟩ (3 / 5)).1
        * (degenerate_num_den_vertical (⟨3 / 5, 4 / 5, -1⟩ : Line_2 ℚ) ⟨0, 1, 0⟩ (4 / 5)).2
      = (degenerate_num_den_vertical (⟨3 / 5, 4 / 5, -1⟩ : Line_2 ℚ) ⟨0, 1, 0⟩ (4 / 5)).1
        * (degenerate_num_den_nonvertical (⟨3 / 5, 4 / 5, -1⟩ : Line_2 ℚ) ⟨0, 1, 0⟩
            (3 / 5)).2 :=
  (degenerate_branches_agree (⟨3 / 5, 4 / 5, -1⟩ : Line_2 ℚ) ⟨0, 1, 0⟩ (3 / 5) (4 / 5)
    (by norm_num) (by norm_num) (by norm_num) (by norm_num)).1

/-! ## Reversal of the orientation -/

/-- The locals of the normalizer on the reversed segment: the same flag and the negated
coefficients. -/
theorem normalized_line_locals_opposite (K : Kernel F) (e : Segment_2 F) :
    normalized_line_locals K e.opposite
      = ((normalized_line_locals K e).1, (normalized_line_locals K e).2.opposite) := by
  obtain ⟨⟨sx, sy⟩, ⟨tx, ty⟩⟩ := e
  have hl2 : (ty - sy) * (ty - sy) + (sx - tx) * (sx - tx)
      = (sy - ty) * (sy - ty) + (tx - sx) * (tx - sx) := by ring
  unfold normalized_line_locals Segment_2.opposite Line_2.opposite
  simp only [hl2]
  rcases lt_trichotomy sy ty with hy | hy | hy <;>
    rcases lt_trichotomy sx tx with hx | hx | hx
  · simp only [ne_of_lt hy, ne_of_gt hy, ne_of_lt hx, ne_of_gt hx, if_false]
    split_ifs
    · simp only [Prod.mk.injEq, Line_2.mk.injEq, true_and]
      refine ⟨by ring, by ring, by ring⟩
    · simp
  · subst hx
    simp [ne_of_lt hy, ne_of_gt hy, hy, not_lt_of_gt hy]
  · simp only [ne_of_lt hy, ne_of_gt hy, ne_of_lt hx, ne_of_gt hx, if_false]
    split_ifs
    · simp only [Prod.mk.injEq, Line_2.mk.injEq, true_and]
      refine ⟨by ring, by ring, by ring⟩
    · simp
  · subst hy
    simp [ne_of_lt hx, ne_of_gt hx, hx, not_lt_of_gt hx]
  · subst hy hx
    simp
  · subst hy
    simp [ne_of_lt hx, ne_of_gt hx, hx, not_lt_of_gt hx]
  · simp only [ne_of_lt hy, ne_of_gt hy, ne_of_lt hx, ne_of_gt hx, if_false]
    split_ifs
    · simp only [Prod.mk.injEq, Line_2.mk.injEq, true_and]
      refine ⟨by ring, by ring, by ring⟩
    · simp
  · subst hx
    simp [ne_of_lt hy, ne_of_gt hy, hy, not_lt_of_gt hy]
  · simp only [ne_of_lt hy, ne_of_gt hy, ne_of_lt hx, ne_of_gt hx, if_false]
    split_ifs
    · simp only [Prod.mk.injEq, Line_2.mk.injEq, true_and]
      refine ⟨by ring, by ring, by ring⟩
    · simp

/-- When finiteness is invariant under negation, the normalized line of the reversed segment is
the negated normalized line of the segment. -/
theorem compute_normalized_line_ceoffC2_opposite (K : Kernel F)
    (hneg : ∀ x, K.is_finite (-x) = K.is_finite x) (e : Segment_2 F) :
    compute_normalized_line_ceoffC2 K e.opposite
      = (compute_normalized_line_ceoffC2 K e).map Line_2.opposite := by
  unfold compute_normalized_line_ceoffC2
  rw [normalized_line_locals_opposite]
  simp only [Line_2.opposite, hneg, cgal_make_optional]
  split_ifs <;> rfl

/-- C27. Sign convention: with a finiteness test invariant under negation (and the square root
a function of its argument), reversing the orientation of the three edges negates every
normalized line, `(a,b,c)` to `(-a,-b,-c)`, negates the numerator of the time and keeps its
denominator, and leaves the point of `construct_normal_offset_lines_isecC2` unchanged. This
holds for every seeded trisegment, those with collinearity NONE and edges of non-zero length
included. -/
theorem normal_solvers_opposite (K : Kernel F) (hneg : ∀ x, K.is_finite (-x) = K.is_finite x)
    (st : Seeded_trisegment_2 F) :
    (∀ e : Segment_2 F, compute_normalized_line_ceoffC2 K e.opposite
      = (compute_normalized_line_ceoffC2 K e).map Line_2.opposite) ∧
    compute_normal_offset_lines_isec_timeC2 K st.opposite
      = (compute_normal_offset_lines_isec_timeC2 K st).map (fun r => ⟨-r.n, r.d⟩) ∧
    construct_normal_offset_lines_isecC2 K st.opposite
      = construct_normal_offset_lines_isecC2 K st := by
  refine ⟨compute_normalized_line_ceoffC2_opposite K hneg, ?_, ?_⟩
  · unfold compute_normal_offset_lines_isec_timeC2
    simp only [Seeded_trisegment_2.opposite, compute_normalized_line_ceoffC2_opposite K hneg]
    cases compute_normalized_line_ceoffC2 K st.event.e0 with
    | none => rfl
    | some l0 =>
      cases compute_normalized_line_ceoffC2 K st.event.e1 with
      | none => rfl
      | some l1 =>
        cases compute_normalized_line_ceoffC2 K st.event.e2 with
        | none => rfl
        | some l2 =>
          have hn : (-l2.a * -l0.b * -l1.c) - (-l2.a * -l1.b * -l0.c) - (-l2.b * -l0.a * -l1.c)
              + (-l2.b * -l1.a * -l0.c) + (-l1.b * -l0.a * -l2.c) - (-l0.b * -l1.a * -l2.c)
              = -((l2.a * l0.b * l1.c) - (l2.a * l1.b * l0.c) - (l2.b * l0.a * l1.c)
                + (l2.b * l1.a * l0.c) + (l1.b * l0.a * l2.c) - (l0.b * l1.a * l2.c)) := by
            ring
          have hd : (- -l2.a * -l1.b) + (-l2.a * -l0.b) + (-l2.b * -l1.a) - (-l2.b * -l0.a)
              + (-l1.b * -l0.a) - (-l0.b * -l1.a)
              = (-l2.a * l1.b) + (l2.a * l0.b) + (l2.b * l1.a) - (l2.b * l0.a)
                + (l1.b * l0.a) - (l0.b * l1.a) := by
            ring
          simp only [Option.map_some', Line_2.opposite, hn, hd, hneg, cgal_make_optional]
          split_ifs <;> rfl
  · unfold construct_normal_offset_lines_isecC2
    simp only [Seeded_trisegment_2.opposite, compute_normalized_line_ceoffC2_opposite K hneg]
    cases compute_normalized_line_ceoffC2 K st.event.e0 with
    | none => rfl
    | some l0 =>
      cases compute_normalized_line_ceoffC2 K st.event.e1 with
      | none => rfl
      | some l1 =>
        cases compute_normalized_line_ceoffC2 K st.event.e2 with
        | none => rfl
        | some l2 =>
          have hd : -l0.a * -l2.b - -l0.a * -l1.b - -l1.a * -l2.b + -l2.a * -l1.b
              + -l0.b * -l1.a - -l0.b * -l2.a
              = l0.a * l2.b - l0.a * l1.b - l1.a * l2.b + l2.a * l1.b + l0.b * l1.a
                - l0.b * l2.a := by
            ring
          have hx : -l0.b * -l2.c - -l0.b * -l1.c - -l1.b * -l2.c + -l2.b * -l1.c
              + -l1.b * -l0.c - -l2.b * -l0.c
              = l0.b * l2.c - l0.b * l1.c - l1.b * l2.c + l2.b * l1.c + l1.b * l0.c
                - l2.b * l0.c := by
            ring
          have hy : -l0.a * -l2.c - -l0.a * -l1.c - -l1.a * -l2.c + -l2.a * -l1.c
              + -l1.a * -l0.c - -l2.a * -l0.c
              = l0.a * l2.c - l0.a * l1.c - l1.a * l2.c + l2.a * l1.c + l1.a * l0.c
                - l2.a * l0.c := by
            ring
          simp only [Option.map_some', Line_2.opposite, hd, hx, hy]

/-- Witness of C27: the square traversed the other way round; the time (10, 2) becomes
(-10, 2) and the point (5,5) stays. -/
theorem normal_solvers_opposite_witness :
    compute_normal_offset_lines_isec_timeC2 exact_kernel
        (construct_seeded_trisegment_initial (square_event ℚ)).opposite = some ⟨-10, 2⟩ ∧
    construct_normal_offset_lines_isecC2 exact_kernel
        (construct_seeded_trisegment_initial (square_event ℚ)).opposite = some ⟨5, 5⟩ := by
  have h := normal_solvers_opposite exact_kernel (fun _ => rfl)
    (construct_seeded_trisegment_initial (square_event ℚ))
  rw [h.2.1, h.2.2, square_event_normal_time exact_kernel (fun _ => rfl),
    square_event_normal_point exact_kernel (fun _ => rfl)]
  exact ⟨rfl, rfl⟩

/-! ## C31: parallel edges with the same orientation -/

/-- C31. Parallel edges with the same orientation: when two of the three normalized lines have
the same `(a, b)`, every pair returned by `compute_normal_offset_lines_isec_timeC2` has
`den = 0`, the pair `(num, 0)` is returned whenever `num` and 0 are finite (so always in exact
arithmetic), and `construct_normal_offset_lines_isecC2` returns the empty optional. -/
theorem parallel_lines_zero_denominator (K : Kernel F) (st : Seeded_trisegment_2 F)
    (l0 l1 l2 : Line_2 F)
    (h0 : compute_normalized_line_ceoffC2 K st.event.e0 = some l0)
    (h1 : compute_normalized_line_ceoffC2 K st.event.e1 = some l1)
    (h2 : compute_normalized_line_ceoffC2 K st.event.e2 = some l2)
    (hpar : (l0.a = l1.a ∧ l0.b = l1.b) ∨ (l1.a = l2.a ∧ l1.b = l2.b)
      ∨ (l0.a = l2.a ∧ l0.b = l2.b)) :
    (∀ r, compute_normal_offset_lines_isec_timeC2 K st = some r → r.d = 0) ∧
    (K.is_finite ((l2.a * l0.b * l1.c) - (l2.a * l1.b * l0.c) - (l2.b * l0.a * l1.c)
        + (l2.b * l1.a * l0.c) + (l1.b * l0.a * l2.c) - (l0.b * l1.a * l2.c)) = true →
      K.is_finite 0 = true →
      compute_normal_offset_lines_isec_timeC2 K st =
        some ⟨(l2.a * l0.b * l1.c) - (l2.a * l1.b * l0.c) - (l2.b * l0.a * l1.c)
          + (l2.b * l1.a * l0.c) + (l1.b * l0.a * l2.c) - (l0.b * l1.a * l2.c), 0⟩) ∧
    construct_normal_offset_lines_isecC2 K st = none := by
  have hdt : (-l2.a * l1.b) + (l2.a * l0.b) + (l2.b * l1.a) - (l2.b * l0.a) + (l1.b * l0.a)
      - (l0.b * l1.a) = 0 := by
    rcases hpar with ⟨ha, hb⟩ | ⟨ha, hb⟩ | ⟨ha, hb⟩ <;> rw [ha, hb] <;> ring
  have hdp : l0.a * l2.b - l0.a * l1.b - l1.a * l2.b + l2.a * l1.b + l0.b * l1.a
      - l0.b * l2.a = 0 := by
    rcases hpar with ⟨ha, hb⟩ | ⟨ha, hb⟩ | ⟨ha, hb⟩ <;> rw [ha, hb] <;> ring
  refine ⟨?_, ?_, ?_⟩
  · intro r hr
    rw [compute_normal_offset_lines_isec_timeC2_eq_some] at hr
    obtain ⟨l0', l1', l2', h0', h1', h2', -, -, rfl⟩ := hr
    rw [h0] at h0'
    rw [h1] at h1'
    rw [h2] at h2'
    cases h0'
    cases h1'
    cases h2'
    exact hdt
  · intro hn hz
    rw [compute_normal_offset_lines_isec_timeC2_eq_some]
    refine ⟨l0, l1, l2, h0, h1, h2, hn, ?_, ?_⟩
    · rw [hdt]
      exact hz
    · rw [hdt]
  · exact (construct_normal_offset_lines_isecC2_absent K st).2 l0 l1 l2 h0 h1 h2 hdp

/-- Witness of C31: the parallel event, with the lines (0,1,0) and (0,1,-1) of e0 and e1. -/
theorem parallel_lines_zero_denominator_witness :
    compute_normal_offset_lines_isec_timeC2 exact_kernel parallel_event = some ⟨1, 0⟩ ∧
    construct_normal_offset_lines_isecC2 exact_kernel parallel_event = none := by
  have h := parallel_lines_zero_denominator exact_kernel parallel_event
    ⟨0, 1, 0⟩ ⟨0, 1, -1⟩ ⟨-1, 0, 0⟩ parallel_event_lines.1 parallel_event_lines.2.1
    parallel_event_lines.2.2 (Or.inl ⟨rfl, rfl⟩)
  refine ⟨?_, h.2.2⟩
  have ht := h.2.1 rfl rfl
  norm_num at ht
  exact ht

/-! ## C32: the normal solvers under a permutation of the edges -/

/-- The pair of the time solver built from equal values is the same pair. -/
theorem time_pair_congr {G : Type} (K : Kernel G) (n d n' d' : G) (hn : n' = n) (hd : d' = d) :
    cgal_make_optional (K.is_finite n' && K.is_finite d') (⟨n', d'⟩ : Rational G)
      = cgal_make_optional (K.is_finite n && K.is_finite d) ⟨n, d⟩ := by
  rw [hn, hd]

/-- The pair of the time solver built from negated values is the negated pair, when the
finiteness test does not see the sign. -/
theorem time_pair_neg (K : Kernel F) (hneg : ∀ x, K.is_finite (-x) = K.is_finite x)
    (n d n' d' : F) (hn : n' = -n) (hd : d' = -d) :
    cgal_make_optional (K.is_finite n' && K.is_finite d') (⟨n', d'⟩ : Rational F)
      = (cgal_make_optional (K.is_finite n && K.is_finite d) (⟨n, d⟩ : Rational F)).map
          (fun r => ⟨-r.n, -r.d⟩) := by
  rw [hn, hd, hneg, hneg]
  unfold cgal_make_optional
  split <;> rfl

/-- The point of the normal constructor built from equal values is the same point. -/
theorem normal_point_congr (K : Kernel F) (d x y d' x' y' : F) (hd : d' = d) (hx : x' = x)
    (hy : y' = y) :
    (if !certified_is_zero d' then
        if K.is_finite d' && K.is_finite x' && K.is_finite y' then
          some (⟨x' / d', -y' / d'⟩ : Point_2 F)
        else none
      else none)
      = (if !certified_is_zero d then
          if K.is_finite d && K.is_finite x && K.is_finite y then
            some (⟨x / d, -y / d⟩ : Point_2 F)
          else none
        else none) := by
  rw [hd, hx, hy]

/-- The point of the normal constructor built from negated values is the same point, when the
finiteness test does not see the sign. -/
theorem normal_point_neg (K : Kernel F) (hneg : ∀ x, K.is_finite (-x) = K.is_finite x)
    (d x y d' x' y' : F) (hd : d' = -d) (hx : x' = -x) (hy : y' = -y) :
    (if !certified_is_zero d' then
        if K.is_finite d' && K.is_finite x' && K.is_finite y' then
          some (⟨x' / d', -y' / d'⟩ : Point_2 F)
        else none
      else none)
      = (if !certified_is_zero d then
          if K.is_finite d && K.is_finite x && K.is_finite y then
            some (⟨x / d, -y / d⟩ : Point_2 F)
          else none
        else none) := by
  rw [hd, hx, hy, hneg, hneg, hneg]
  have hz : certified_is_zero (-d) = certified_is_zero d := by
    simp [certified_is_zero]
  rw [hz, neg_div_neg_eq x d, neg_div_neg_eq (-y) d]

/-- The time solver on the rotated edges returns the same pair. -/
theorem normal_time_rotate (K : Kernel F) (st : Seeded_trisegment_2 F) :
    compute_normal_offset_lines_isec_timeC2 K st.rotate
      = compute_normal_offset_lines_isec_timeC2 K st := by
  unfold compute_normal_offset_lines_isec_timeC2
  simp only [Seeded_trisegment_2.rotate]
  cases compute_normalized_line_ceoffC2 K st.event.e0 <;>
    cases compute_normalized_line_ceoffC2 K st.event.e1 <;>
    cases compute_normalized_line_ceoffC2 K st.event.e2 <;> try rfl
  apply time_pair_congr <;> ring

/-- The point constructor on the rotated edges returns the same point. -/
theorem normal_point_rotate (K : Kernel F) (st : Seeded_trisegment_2 F) :
    construct_normal_offset_lines_isecC2 K st.rotate
      = construct_normal_offset_lines_isecC2 K st := by
  unfold construct_normal_offset_lines_isecC2
  simp only [Seeded_trisegment_2.rotate]
  cases compute_normalized_line_ceoffC2 K st.event.e0 <;>
    cases compute_normalized_line_ceoffC2 K st.event.e1 <;>
    cases compute_normalized_line_ceoffC2 K st.event.e2 <;> try rfl
  apply normal_point_congr <;> ring

/-- The time solver on the edges with e0 and e1 exchanged returns the negated pair. -/
theorem normal_time_swap01 (K : Kernel F) (hneg : ∀ x, K.is_finite (-x) = K.is_finite x)
    (st : Seeded_trisegment_2 F) :
    compute_normal_offset_lines_isec_timeC2 K st.swap01
      = (compute_normal_offset_lines_isec_timeC2 K st).map (fun r => ⟨-r.n, -r.d⟩) := by
  unfold compute_normal_offset_lines_isec_timeC2
  simp only [Seeded_trisegment_2.swap01]
  cases compute_normalized_line_ceoffC2 K st.event.e0 <;>
    cases compute_normalized_line_ceoffC2 K st.event.e1 <;>
    cases compute_normalized_line_ceoffC2 K st.event.e2 <;> try rfl
  apply time_pair_neg K hneg <;> ring

/-- The point constructor on the edges with e0 and e1 exchanged returns the same point. -/
theorem normal_point_swap01 (K : Kernel F) (hneg : ∀ x, K.is_finite (-x) = K.is_finite x)
    (st : Seeded_trisegment_2 F) :
    construct_normal_offset_lines_isecC2 K st.swap01
      = construct_normal_offset_lines_isecC2 K st := by
  unfold construct_normal_offset_lines_isecC2
  simp only [Seeded_trisegment_2.swap01]
  cases compute_normalized_line_ceoffC2 K st.event.e0 <;>
    cases compute_normalized_line_ceoffC2 K st.event.e1 <;>
    cases compute_normalized_line_ceoffC2 K st.event.e2 <;> try rfl
  apply normal_point_neg K hneg <;> ring

/-- The time solver on the edges with e1 and e2 exchanged returns the negated pair. -/
theorem normal_time_swap12 (K : Kernel F) (hneg : ∀ x, K.is_finite (-x) = K.is_finite x)
    (st : Seeded_trisegment_2 F) :
    compute_normal_offset_lines_isec_timeC2 K st.swap12
      = (compute_normal_offset_lines_isec_timeC2 K st).map (fun r => ⟨-r.n, -r.d⟩) := by
  unfold compute_normal_offset_lines_isec_timeC2
  simp only [Seeded_trisegment_2.swap12]
  cases compute_normalized_line_ceoffC2 K st.event.e0 <;>
    cases compute_normalized_line_ceoffC2 K st.event.e1 <;>
    cases compute_normalized_line_ceoffC2 K st.event.e2 <;> try rfl
  apply time_pair_neg K hneg <;> ring

/-- The point constructor on the edges with e1 and e2 exchanged returns the same point. -/
theorem normal_point_swap12 (K : Kernel F) (hneg : ∀ x, K.is_finite (-x) = K.is_finite x)
    (st : Seeded_trisegment_2 F) :
    construct_normal_offset_lines_isecC2 K st.swap12
      = construct_normal_offset_lines_isecC2 K st := by
  unfold construct_normal_offset_lines_isecC2
  simp only [Seeded_trisegment_2.swap12]
  cases compute_normalized_line_ceoffC2 K st.event.e0 <;>
    cases compute_normalized_line_ceoffC2 K st.event.e1 <;>
    cases compute_normalized_line_ceoffC2 K st.event.e2 <;> try rfl
  apply normal_point_neg K hneg <;> ring

/-- The time solver on the edges with e0 and e2 exchanged returns the negated pair. -/
theorem normal_time_swap02 (K : Kernel F) (hneg : ∀ x, K.is_finite (-x) = K.is_finite x)
    (st : Seeded_trisegment_2 F) :
    compute_normal_offset_lines_isec_timeC2 K st.swap02
      = (compute_normal_offset_lines_isec_timeC2 K st).map (fun r => ⟨-r.n, -r.d⟩) := by
  unfold compute_normal_offset_lines_isec_timeC2
  simp only [Seeded_trisegment_2.swap02]
  cases compute_normalized_line_ceoffC2 K st.event.e0 <;>
    cases compute_normalized_line_ceoffC2 K st.event.e1 <;>
    cases compute_normalized_line_ceoffC2 K st.event.e2 <;> try rfl
  apply time_pair_neg K hneg <;> ring

/-- The point constructor on the edges with e0 and e2 exchanged returns the same point. -/
theorem normal_point_swap02 (K : Kernel F) (hneg : ∀ x, K.is_finite (-x) = K.is_finite x)
    (st : Seeded_trisegment_2 F) :
    construct_normal_offset_lines_isecC2 K st.swap02
      = construct_normal_offset_lines_isecC2 K st := by
  unfold construct_normal_offset_lines_isecC2
  simp only [Seeded_trisegment_2.swap02]
  cases compute_normalized_line_ceoffC2 K st.event.e0 <;>
    cases compute_normalized_line_ceoffC2 K st.event.e1 <;>
    cases compute_normalized_line_ceoffC2 K st.event.e2 <;> try rfl
  apply normal_point_neg K hneg <;> ring

/-- A pair and its negation are the same ratio. -/
theorem ratio_of_map_neg (o : Option (Rational F)) (r r' : Rational F) (h : o = some r)
    (h' : o.map (fun r => (⟨-r.n, -r.d⟩ : Rational F)) = some r') :
    r.n * r'.d = r'.n * r.d := by
  rw [h] at h'
  simp only [Option.map_some', Option.some.injEq] at h'
  rw [← h']
  ring

/-- C32. Edge-order independence of the normal solvers: on the cyclically rotated edges
`compute_normal_offset_lines_isec_timeC2` returns the same `(num, den)` pair and
`construct_normal_offset_lines_isecC2` the same point; and, for a finiteness test that does not
see the sign of a value, exchanging two edges negates both `num` and `den` and keeps the
point, so that under each permutation of the three edges the time is the same ratio
(`num * den' = num' * den`) and the point is unchanged. -/
theorem normal_solvers_edge_order (K : Kernel F) (st : Seeded_trisegment_2 F) :
    (compute_normal_offset_lines_isec_timeC2 K st.rotate
        = compute_normal_offset_lines_isec_timeC2 K st ∧
      compute_normal_offset_lines_isec_timeC2 K st.rotate.rotate
        = compute_normal_offset_lines_isec_timeC2 K st ∧
      construct_normal_offset_lines_isecC2 K st.rotate
        = construct_normal_offset_lines_isecC2 K st ∧
      construct_normal_offset_lines_isecC2 K st.rotate.rotate
        = construct_normal_offset_lines_isecC2 K st) ∧
    ((∀ x, K.is_finite (-x) = K.is_finite x) →
      (compute_normal_offset_lines_isec_timeC2 K st.swap01
          = (compute_normal_offset_lines_isec_timeC2 K st).map (fun r => ⟨-r.n, -r.d⟩) ∧
        compute_normal_offset_lines_isec_timeC2 K st.swap12
          = (compute_normal_offset_lines_isec_timeC2 K st).map (fun r => ⟨-r.n, -r.d⟩) ∧
        compute_normal_offset_lines_isec_timeC2 K st.swap02
          = (compute_normal_offset_lines_isec_timeC2 K st).map (fun r => ⟨-r.n, -r.d⟩)) ∧
      (construct_normal_offset_lines_isecC2 K st.swap01
          = construct_normal_offset_lines_isecC2 K st ∧
        construct_normal_offset_lines_isecC2 K st.swap12
          = construct_normal_offset_lines_isecC2 K st ∧
        construct_normal_offset_lines_isecC2 K st.swap02
          = construct_normal_offset_lines_isecC2 K st) ∧
      ∀ r r', compute_normal_offset_lines_isec_timeC2 K st = some r →
        (compute_normal_offset_lines_isec_timeC2 K st.rotate = some r' ∨
          compute_normal_offset_lines_isec_timeC2 K st.rotate.rotate = some r' ∨
          compute_normal_offset_lines_isec_timeC2 K st.swap01 = some r' ∨
          compute_normal_offset_lines_isec_timeC2 K st.swap12 = some r' ∨
          compute_normal_offset_lines_isec_timeC2 K st.swap02 = some r') →
        r.n * r'.d = r'.n * r.d) := by
  have hrr : compute_normal_offset_lines_isec_timeC2 K st.rotate.rotate
      = compute_normal_offset_lines_isec_timeC2 K st := by
    rw [normal_time_rotate, normal_time_rotate]
  refine ⟨⟨normal_time_rotate K st, hrr, normal_point_rotate K st, ?_⟩, ?_⟩
  · rw [normal_point_rotate, normal_point_rotate]
  · intro hneg
    refine ⟨⟨normal_time_swap01 K hneg st, normal_time_swap12 K hneg st,
      normal_time_swap02 K hneg st⟩, ⟨normal_point_swap01 K hneg st,
      normal_point_swap12 K hneg st, normal_point_swap02 K hneg st⟩, ?_⟩
    intro r r' hr h
    rcases h with h | h | h | h | h
    · rw [normal_time_rotate, hr] at h
      cases h
      ring
    · rw [hrr, hr] at h
      cases h
      ring
    · rw [normal_time_swap01 K hneg] at h
      exact ratio_of_map_neg _ r r' hr h
    · rw [normal_time_swap12 K hneg] at h
      exact ratio_of_map_neg _ r r' hr h
    · rw [normal_time_swap02 K hneg] at h
      exact ratio_of_map_neg _ r r' hr h

/-- Witness of C32: the square of side 10 with e0 and e1 exchanged: the pair (-10, -2), the
same ratio as (10, 2), and the same point (5,5). -/
theorem normal_solvers_edge_order_witness :
    compute_normal_offset_lines_isec_timeC2 exact_kernel
        (construct_seeded_trisegment_initial (square_event ℚ)).swap01 = some ⟨-10, -2⟩ ∧
    construct_normal_offset_lines_isecC2 exact_kernel
        (construct_seeded_trisegment_initial (square_event ℚ)).swap01 = some ⟨5, 5⟩ ∧
    construct_normal_offset_lines_isecC2 exact_kernel
        (construct_seeded_trisegment_initial (square_event ℚ)).rotate = some ⟨5, 5⟩ := by
  have h := normal_solvers_edge_order exact_kernel
    (construct_seeded_trisegment_initial (square_event ℚ))
  have hs := h.2 (fun _ => rfl)
  refine ⟨?_, ?_, ?_⟩
  · rw [hs.1.1, square_event_normal_time exact_kernel (fun _ => rfl)]
    rfl
  · rw [hs.2.1.1, square_event_normal_point exact_kernel (fun _ => rfl)]
  · rw [h.1.2.2.1, square_event_normal_point exact_kernel (fun _ => rfl)]

/-! ## C33: a zero-length edge in the normal solvers -/

/-- The normalized line of a segment with source = target, when present, is (0,0,0). -/
theorem normalized_line_of_zero_length (K : Kernel F) (e : Segment_2 F) (l : Line_2 F)
    (hz : e.source = e.target) (h : compute_normalized_line_ceoffC2 K e = some l) :
    l = ⟨0, 0, 0⟩ := by
  rw [compute_normalized_line_ceoffC2_eq_some] at h
  obtain ⟨-, -, -, -, rfl⟩ := h
  simp [normalized_line_locals, hz]

/-- C33. A zero-length edge in the normal solvers: when one edge has source = target (its
normalized line is (0,0,0)) and the three normalized lines are present, every pair returned
by `compute_normal_offset_lines_isec_timeC2` has numerator 0 and every point returned by
`construct_normal_offset_lines_isecC2` lies on the supporting lines of the edges (it is the
intersection point of the two other lines); and in exact arithmetic (every value finite) the
pair is returned, and the point is returned when the denominator of the pair is not zero. -/
theorem zero_length_edge_normal_solvers (K : Kernel F) (st : Seeded_trisegment_2 F)
    (l0 l1 l2 : Line_2 F)
    (h0 : compute_normalized_line_ceoffC2 K st.event.e0 = some l0)
    (h1 : compute_normalized_line_ceoffC2 K st.event.e1 = some l1)
    (h2 : compute_normalized_line_ceoffC2 K st.event.e2 = some l2)
    (hz : st.event.e0.source = st.event.e0.target ∨ st.event.e1.source = st.event.e1.target
      ∨ st.event.e2.source = st.event.e2.target) :
    (l0 = ⟨0, 0, 0⟩ ∨ l1 = ⟨0, 0, 0⟩ ∨ l2 = ⟨0, 0, 0⟩) ∧
    (∀ r, compute_normal_offset_lines_isec_timeC2 K st = some r → r.n = 0) ∧
    (∀ p, construct_normal_offset_lines_isecC2 K st = some p →
      l0.a * p.x + l0.b * p.y + l0.c = 0 ∧ l1.a * p.x + l1.b * p.y + l1.c = 0 ∧
        l2.a * p.x + l2.b * p.y + l2.c = 0) ∧
    ((∀ x, K.is_finite x = true) →
      ∃ r, compute_normal_offset_lines_isec_timeC2 K st = some r ∧
        (r.d ≠ 0 → ∃ p, construct_normal_offset_lines_isecC2 K st = some p)) := by
  have hl : l0 = ⟨0, 0, 0⟩ ∨ l1 = ⟨0, 0, 0⟩ ∨ l2 = ⟨0, 0, 0⟩ := by
    rcases hz with hz | hz | hz
    · exact Or.inl (normalized_line_of_zero_length K _ _ hz h0)
    · exact Or.inr (Or.inl (normalized_line_of_zero_length K _ _ hz h1))
    · exact Or.inr (Or.inr (normalized_line_of_zero_length K _ _ hz h2))
  have hnum : (l2.a * l0.b * l1.c) - (l2.a * l1.b * l0.c) - (l2.b * l0.a * l1.c)
      + (l2.b * l1.a * l0.c) + (l1.b * l0.a * l2.c) - (l0.b * l1.a * l2.c) = 0 := by
    rcases hl with h | h | h <;> simp [h]
  refine ⟨hl, ?_, ?_, ?_⟩
  · intro r hr
    rw [compute_normal_offset_lines_isec_timeC2_eq_some] at hr
    obtain ⟨l0', l1', l2', h0', h1', h2', -, -, rfl⟩ := hr
    rw [h0] at h0'
    rw [h1] at h1'
    rw [h2] at h2'
    cases h0'
    cases h1'
    cases h2'
    exact hnum
  · intro p hp
    rw [construct_normal_offset_lines_isecC2_eq_some] at hp
    obtain ⟨l0', l1', l2', h0', h1', h2', hden, -, -, -, rfl⟩ := hp
    rw [h0] at h0'
    rw [h1] at h1'
    rw [h2] at h2'
    cases h0'
    cases h1'
    cases h2'
    obtain ⟨-, e0, e1, e2⟩ :=
      normal_solution_algebra l0.a l0.b l0.c l1.a l1.b l1.c l2.a l2.b l2.c hden
    rw [hnum, zero_div] at e0 e1 e2
    exact ⟨e0, e1, e2⟩
  · intro hfin
    refine ⟨_, (compute_normal_offset_lines_isec_timeC2_eq_some K st _).mpr
      ⟨l0, l1, l2, h0, h1, h2, hfin _, hfin _, rfl⟩, ?_⟩
    intro hd
    simp only at hd
    rw [normal_time_den_eq_neg] at hd
    exact ⟨_, (construct_normal_offset_lines_isecC2_eq_some K st _).mpr
      ⟨l0, l1, l2, h0, h1, h2, neg_ne_zero.mp hd, hfin _, hfin _, hfin _, rfl⟩⟩

/-- The normalized lines of the event with a zero-length edge. -/
theorem zero_length_event_lines :
    compute_normalized_line_ceoffC2 exact_kernel zero_length_event.event.e0 = some ⟨0, 0, 0⟩ ∧
    compute_normalized_line_ceoffC2 exact_kernel zero_length_event.event.e1 = some ⟨0, 1, 0⟩ ∧
    compute_normalized_line_ceoffC2 exact_kernel zero_length_event.event.e2
      = some ⟨-1, 0, 0⟩ := by
  refine ⟨?_, ?_, ?_⟩ <;>
    simp [compute_normalized_line_ceoffC2, normalized_line_locals, cgal_make_optional,
      exact_kernel, zero_length_event, construct_seeded_trisegment_initial]

/-- Witness of C33: the event with the zero-length edge e0 at (1,1): the pair has numerator 0 and
a point is returned, on the x-axis and on the y-axis. -/
theorem zero_length_edge_normal_solvers_witness :
    (∀ r, compute_normal_offset_lines_isec_timeC2 exact_kernel zero_length_event = some r →
      r.n = 0) ∧
    (∀ p, construct_normal_offset_lines_isecC2 exact_kernel zero_length_event = some p →
      p.y = 0 ∧ p.x = 0) ∧
    ∃ r, compute_normal_offset_lines_isec_timeC2 exact_kernel zero_length_event = some r := by
  have h := zero_length_edge_normal_solvers exact_kernel zero_length_event
    ⟨0, 0, 0⟩ ⟨0, 1, 0⟩ ⟨-1, 0, 0⟩ zero_length_event_lines.1 zero_length_event_lines.2.1
    zero_length_event_lines.2.2 (Or.inl rfl)
  refine ⟨h.2.1, ?_, ?_⟩
  · intro p hp
    have hq := h.2.2.1 p hp
    norm_num at hq
    exact hq
  · obtain ⟨r, hr, -⟩ := h.2.2.2 (fun _ => rfl)
    exact ⟨r, hr⟩

/-! ## C34: the squared distance to the event point -/

/-- C34. The distance is a genuine squared distance: in exact arithmetic (every value
finite), for a present point `p` and a seeded trisegment with the event point `i`,
`compute_offset_lines_isec_dist_to_pointC2` returns a value `d` with `0 ≤ d`, and `d = 0`
exactly when `p = i`; with the event point itself it returns 0. -/
theorem compute_offset_lines_isec_dist_to_pointC2_genuine (K : Kernel F)
    (hfin : ∀ x, K.is_finite x = true) (st : Seeded_trisegment_2 F) (p i : Point_2 F)
    (hi : construct_offset_lines_isecC2 K st = .ok (some i)) :
    (∃ d, compute_offset_lines_isec_dist_to_pointC2 K (some p) st = .ok (some d) ∧ 0 ≤ d ∧
      (d = 0 ↔ p = i)) ∧
    compute_offset_lines_isec_dist_to_pointC2 K (some i) st = .ok (some 0) := by
  constructor
  · refine ⟨(i.x - p.x) * (i.x - p.x) + (i.y - p.y) * (i.y - p.y), ?_, ?_, ?_⟩
    · simp [compute_offset_lines_isec_dist_to_pointC2, hi, cgal_make_optional, hfin]
    · exact add_nonneg (mul_self_nonneg _) (mul_self_nonneg _)
    · rw [mul_self_add_mul_self_eq_zero, sub_eq_zero, sub_eq_zero]
      constructor
      · rintro ⟨hx, hy⟩
        cases p
        cases i
        simp only at hx hy
        rw [hx, hy]
      · rintro rfl
        exact ⟨rfl, rfl⟩
  · simp [compute_offset_lines_isec_dist_to_pointC2, hi, cgal_make_optional, hfin]

/-- Witness of C34: the square of side 10, with event point (5,5), and the point (2,1) at
squared distance 25. -/
theorem compute_offset_lines_isec_dist_to_pointC2_genuine_witness :
    (∃ d, compute_offset_lines_isec_dist_to_pointC2 exact_kernel (some ⟨2, 1⟩)
        (construct_seeded_trisegment_initial (square_event ℚ)) = .ok (some d) ∧ 0 ≤ d ∧
      (d = 0 ↔ (⟨2, 1⟩ : Point_2 ℚ) = ⟨5, 5⟩)) ∧
    compute_offset_lines_isec_dist_to_pointC2 exact_kernel (some ⟨5, 5⟩)
      (construct_seeded_trisegment_initial (square_event ℚ)) = .ok (some 0) :=
  compute_offset_lines_isec_dist_to_pointC2_genuine exact_kernel (fun _ => rfl)
    (construct_seeded_trisegment_initial (square_event ℚ)) ⟨2, 1⟩ ⟨5, 5⟩
    (by
      rw [construct_offset_lines_isecC2]
      simp only [construct_seeded_trisegment_initial, square_event, if_true]
      exact congrArg Except.ok (square_event_normal_point exact_kernel (fun _ => rfl)))

/-! ## C35: the squared distance from a point to a line -/

/-- The squared length of the direction of a line through two distinct points is positive. -/
theorem direction_squared_length_pos (sx sy tx ty : F) (hst : sx ≠ tx ∨ sy ≠ ty) :
    0 < (tx - sx) ^ 2 + (ty - sy) ^ 2 := by
  rcases hst with h | h
  · have : 0 < (tx - sx) ^ 2 := 
      lt_of_le_of_ne (sq_nonneg _) (Ne.symm (pow_ne_zero 2 (sub_ne_zero.mpr (Ne.symm h))))
    have := sq_nonneg (ty - sy)
    linarith
  · have : 0 < (ty - sy) ^ 2 := 
      lt_of_le_of_ne (sq_nonneg _) (Ne.symm (pow_ne_zero 2 (sub_ne_zero.mpr (Ne.symm h))))
    have := sq_nonneg (tx - sx)
    linarith

/-- C35. The function `squared_distance_from_point_to_lineC2`: for every point `(px, py)` and
every `s ≠ t` the result is `((tx-sx)*(sy-py) - (sx-px)*(ty-sy))^2 / ((tx-sx)^2 + (ty-sy)^2)`,
it is `≥ 0`, it is 0 exactly when `(px, py)` is collinear with `s` and `t` (the point is
`s + k * (t - s)` for some `k`), and it is unchanged when `s` and `t` are exchanged. -/
theorem squared_distance_from_point_to_lineC2_spec (px py sx sy tx ty : F)
    (hst : sx ≠ tx ∨ sy ≠ ty) :
    squared_distance_from_point_to_lineC2 px py sx sy tx ty
      = ((tx - sx) * (sy - py) - (sx - px) * (ty - sy)) ^ 2
          / ((tx - sx) ^ 2 + (ty - sy) ^ 2) ∧
    0 ≤ squared_distance_from_point_to_lineC2 px py sx sy tx ty ∧
    (squared_distance_from_point_to_lineC2 px py sx sy tx ty = 0 ↔
      (tx - sx) * (sy - py) - (sx - px) * (ty - sy) = 0) ∧
    (squared_distance_from_point_to_lineC2 px py sx sy tx ty = 0 ↔
      ∃ k, px = sx + k * (tx - sx) ∧ py = sy + k * (ty - sy)) ∧
    squared_distance_from_point_to_lineC2 px py tx ty sx sy
      = squared_distance_from_point_to_lineC2 px py sx sy tx ty := by
  have hd := direction_squared_length_pos sx sy tx ty hst
  have hf : squared_distance_from_point_to_lineC2 px py sx sy tx ty
      = ((tx - sx) * (sy - py) - (sx - px) * (ty - sy)) ^ 2
          / ((tx - sx) ^ 2 + (ty - sy) ^ 2) := by
    simp only [squared_distance_from_point_to_lineC2, square]
    ring
  have hz : squared_distance_from_point_to_lineC2 px py sx sy tx ty = 0 ↔
      (tx - sx) * (sy - py) - (sx - px) * (ty - sy) = 0 := by
    rw [hf, div_eq_zero_iff]
    constructor
    · rintro (h | h)
      · exact pow_eq_zero_iff (two_ne_zero) |>.mp h
      · exact absurd h (ne_of_gt hd)
    · intro h
      left
      rw [h]
      ring
  refine ⟨hf, ?_, hz, ?_, ?_⟩
  · rw [hf]
    exact div_nonneg (sq_nonneg _) (le_of_lt hd)
  · rw [hz]
    constructor
    · intro h
      rcases hst with hx | hy
      · have hx' : tx - sx ≠ 0 := sub_ne_zero.mpr (Ne.symm hx)
        refine ⟨(px - sx) / (tx - sx), ?_, ?_⟩
        · field_simp
        · field_simp
          linear_combination -h
      · have hy' : ty - sy ≠ 0 := sub_ne_zero.mpr (Ne.symm hy)
        refine ⟨(py - sy) / (ty - sy), ?_, ?_⟩
        · field_simp
          linear_combination h
        · field_simp
    · rintro ⟨k, hx, hy⟩
      rw [hx, hy]
      ring
  · simp only [squared_distance_from_point_to_lineC2, square]
    congr 1 <;> ring

/-- Witness of C35: the point (0,5) and the line through (0,0) and (10,0): squared
distance 25. -/
theorem squared_distance_from_point_to_lineC2_spec_witness :
    squared_distance_from_point_to_lineC2 (0 : ℚ) 5 0 0 10 0 = 25 := by
  rw [(squared_distance_from_point_to_lineC2_spec (0 : ℚ) 5 0 0 10 0
    (Or.inl (by norm_num))).1]
  norm_num

/-! ## C36: the leaves of the normalizer -/

/-- The locals of the normalizer at each axis-aligned leaf of its branch. -/
theorem normalized_line_locals_of_branch (K : Kernel F) (e : Segment_2 F) :
    (normalized_line_branch e = .HORIZONTAL_RIGHT →
      normalized_line_locals K e = (true, ⟨0, 1, -e.source.y⟩)) ∧
    (normalized_line_branch e = .HORIZONTAL_ZERO →
      normalized_line_locals K e = (true, ⟨0, 0, 0⟩)) ∧
    (normalized_line_branch e = .HORIZONTAL_LEFT →
      normalized_line_locals K e = (true, ⟨0, -1, e.source.y⟩)) ∧
    (normalized_line_branch e = .VERTICAL_UP →
      normalized_line_locals K e = (true, ⟨-1, 0, e.source.x⟩)) ∧
    (normalized_line_branch e = .VERTICAL_ZERO →
      normalized_line_locals K e = (true, ⟨0, 0, 0⟩)) ∧
    (normalized_line_branch e = .VERTICAL_DOWN →
      normalized_line_locals K e = (true, ⟨1, 0, -e.source.x⟩)) ∧
    (normalized_line_branch e = .GENERAL →
      e.source.y ≠ e.target.y ∧ e.target.x ≠ e.source.x) := by
  unfold normalized_line_branch normalized_line_locals
  by_cases h1 : e.source.y = e.target.y
  · by_cases h2 : e.target.x > e.source.x
    · simp [h1, h2]
    · by_cases h3 : e.target.x = e.source.x <;> simp [h1, h2, h3]
  · by_cases h2 : e.target.x = e.source.x
    · by_cases h3 : e.target.y > e.source.y
      · simp [h1, h2, h3]
      · by_cases h4 : e.target.y = e.source.y <;> simp [h1, h2, h3, h4]
    · simp [h1, h2]

/-- C36. Zero-length segments never reach the vertical branch of
`compute_normalized_line_ceoffC2`: no segment reaches the leaf of the inner test
`target.y == source.y` of the vertical branch; a segment with source = target reaches the
zero leaf of the horizontal branch, where the locals are (0,0,0); and every line produced by
the vertical branch has `a = 1` or `a = -1`. -/
theorem vertical_zero_leaf_unreachable (K : Kernel F) (e : Segment_2 F) :
    normalized_line_branch e ≠ .VERTICAL_ZERO ∧
    (e.source = e.target →
      normalized_line_branch e = .HORIZONTAL_ZERO ∧
      normalized_line_locals K e = (true, ⟨0, 0, 0⟩) ∧
      ∀ l, compute_normalized_line_ceoffC2 K e = some l → l = ⟨0, 0, 0⟩) ∧
    ((normalized_line_branch e = .VERTICAL_UP ∨ normalized_line_branch e = .VERTICAL_ZERO
        ∨ normalized_line_branch e = .VERTICAL_DOWN) →
      ((normalized_line_locals K e).2.a = 1 ∨ (normalized_line_locals K e).2.a = -1) ∧
      ∀ l, compute_normalized_line_ceoffC2 K e = some l → l.a = 1 ∨ l.a = -1) := by
  have hnz : normalized_line_branch e ≠ .VERTICAL_ZERO := by
    unfold normalized_line_branch
    by_cases h1 : e.source.y = e.target.y
    · by_cases h2 : e.target.x > e.source.x
      · simp [h1, h2]
      · by_cases h3 : e.target.x = e.source.x <;> simp [h1, h2, h3]
    · by_cases h2 : e.target.x = e.source.x
      · by_cases h3 : e.target.y > e.source.y
        · simp [h1, h2, h3]
        · have h4 : ¬ e.target.y = e.source.y := fun h => h1 h.symm
          simp [h1, h2, h3, h4]
      · simp [h1, h2]
  refine ⟨hnz, ?_, ?_⟩
  · intro hz
    have hb : normalized_line_branch e = .HORIZONTAL_ZERO := by
      simp [normalized_line_branch, hz]
    have hl := (normalized_line_locals_of_branch K e).2.1 hb
    refine ⟨hb, hl, ?_⟩
    intro l h
    rw [compute_normalized_line_ceoffC2_eq_some] at h
    obtain ⟨-, -, -, -, rfl⟩ := h
    rw [hl]
  · intro hv
    have ha : (normalized_line_locals K e).2.a = 1 ∨ (normalized_line_locals K e).2.a = -1 := by
      rcases hv with h | h | h
      · rw [(normalized_line_locals_of_branch K e).2.2.2.1 h]
        exact Or.inr rfl
      · exact absurd h hnz
      · rw [(normalized_line_locals_of_branch K e).2.2.2.2.2.1 h]
        exact Or.inl rfl
    refine ⟨ha, ?_⟩
    intro l h
    rw [compute_normalized_line_ceoffC2_eq_some] at h
    obtain ⟨-, -, -, -, rfl⟩ := h
    exact ha

/-- Witness of C36: the segment from (1,1) to (1,1) reaches the zero leaf of the horizontal
branch, and the vertical segment from (0,0) to (0,1) gives a line with `a = -1`. -/
theorem vertical_zero_leaf_unreachable_witness :
    normalized_line_branch (⟨⟨1, 1⟩, ⟨1, 1⟩⟩ : Segment_2 ℚ) = .HORIZONTAL_ZERO ∧
    ((normalized_line_locals exact_kernel (⟨⟨0, 0⟩, ⟨0, 1⟩⟩ : Segment_2 ℚ)).2.a = 1 ∨
      (normalized_line_locals exact_kernel (⟨⟨0, 0⟩, ⟨0, 1⟩⟩ : Segment_2 ℚ)).2.a = -1) :=
  ⟨((vertical_zero_leaf_unreachable exact_kernel (⟨⟨1, 1⟩, ⟨1, 1⟩⟩ : Segment_2 ℚ)).2.1
      rfl).1,
    ((vertical_zero_leaf_unreachable exact_kernel (⟨⟨0, 0⟩, ⟨0, 1⟩⟩ : Segment_2 ℚ)).2.2
      (Or.inl (by simp [normalized_line_branch]))).1⟩

/-! ## C37: the sign of a 2x2 determinant -/

/-- C37. The function `sign_of_determinant2x2`: over an ordered ring the result is the sign
of `a00*a11 - a10*a01` (POSITIVE when it is positive, ZERO when it is zero, NEGATIVE when it
is negative), it is the comparison of `a00*a11` with `a10*a01`, and it is negated when the
two rows are exchanged. -/
theorem sign_of_determinant2x2_spec {R : Type} [LinearOrderedRing R] (a00 a01 a10 a11 : R) :
    (sign_of_determinant2x2 a00 a01 a10 a11 = .POSITIVE ↔ 0 < a00 * a11 - a10 * a01) ∧
    (sign_of_determinant2x2 a00 a01 a10 a11 = .ZERO ↔ a00 * a11 - a10 * a01 = 0) ∧
    (sign_of_determinant2x2 a00 a01 a10 a11 = .NEGATIVE ↔ a00 * a11 - a10 * a01 < 0) ∧
    sign_of_determinant2x2 a00 a01 a10 a11 = sign (a00 * a11 - a10 * a01) ∧
    sign_of_determinant2x2 a00 a01 a10 a11 = enum_cast_Sign (compare (a00 * a11) (a10 * a01)) ∧
    sign_of_determinant2x2 a10 a11 a00 a01
      = (sign_of_determinant2x2 a00 a01 a10 a11).opposite := by
  unfold sign_of_determinant2x2 compare sign
  rcases lt_trichotomy (a00 * a11) (a10 * a01) with h | h | h
  · have h' : ¬ a10 * a01 < a00 * a11 := not_lt.mpr (le_of_lt h)
    have hs : a00 * a11 - a10 * a01 < 0 := sub_neg.mpr h
    have hs' : ¬ 0 < a00 * a11 - a10 * a01 := not_lt.mpr (le_of_lt hs)
    simp [h, h', hs, hs', enum_cast_Sign, Sign.opposite, ne_of_lt hs]
  · have hs : a00 * a11 - a10 * a01 = 0 := sub_eq_zero.mpr h
    simp [h, hs, enum_cast_Sign, Sign.opposite]
  · have h' : ¬ a00 * a11 < a10 * a01 := not_lt.mpr (le_of_lt h)
    have hs : 0 < a00 * a11 - a10 * a01 := sub_pos.mpr h
    have hs' : ¬ a00 * a11 - a10 * a01 < 0 := not_lt.mpr (le_of_lt hs)
    simp [h, h', hs, hs', enum_cast_Sign, Sign.opposite, ne_of_gt hs]

end CGAL_SS_i
